import Mathlib

/-!
IoCC: a verification development of the inversion-of-control container

Shallow embedding of `src/IoCC.hpp` (class `ioc::IoCC` and the two wrapper
hierarchies of `ioc_detail`).

* `std::map<Key, Wrapper*>` is `StdMap Key Ptr`: a list of entries whose keys
  are pairwise different.  Only `find`, assignment through an iterator,
  `erase(iterator)` and `operator[]` are used by the source, and so only those
  are embedded.  The iteration order of `std::map` follows
  `std::type_index::before`, which is unspecified; entries are kept in
  insertion order.
* `new` / `delete` of wrapper objects act on an explicit `Heap`: a bump
  allocator whose cells remember how many times `delete` ran on them.  A raw
  pointer is a `Nat`, with `0` for `nullptr`.
* `std::shared_ptr<T>` is a `Nat` naming the object it references (`0` is the
  empty handle).
* `std::function<...>` values are elements of an arbitrary type `F`; what a
  call of such a value does is given by a function `invoke`, a parameter of
  `Instantiate`, `New` and `NewNamed`.  `std::type_index::name()` is the
  parameter `name`.
* The overloads of `Store`, `Retrieve` and `RegisterInstantiator` that take a
  name are `StoreNamed`, `RetrieveNamed` and `RegisterInstantiatorNamed`.
* Callables that call back into the container are given by a `Body`: the calls
  they make on the container and their return statement.  `InstantiateIn`,
  `NewFuel` and `NewNamedFuel` are `Instantiate`, `New` and `NewNamed` for such
  callables, with fuel for the depth of nested calls (`none`: the call has not
  ended).  They call the callable in place, inside its wrapper, as
  `GetInstantiator` returns a reference; `InstantiateIn_total` relates them to
  `Instantiate`.
* A `Retrieve` returns a reference: the pointer to the wrapper stands for the
  reference to its member, `World.deref` reads and `World.assignThrough`
  writes through it.
-/

namespace ioc

/-! ## Types and type identity -/

/-- A C++ object type: a class or builtin type given by its identity, or
`std::shared_ptr` of such a type. -/
inductive CppType where
  | cls (id : Nat)
  | sharedPtr (pointee : CppType)
  deriving DecidableEq, Repr

/-- A function signature `ret(params...)`, the `_Signature` argument of
`RegisterInstantiator`. -/
structure Signature where
  ret : CppType
  params : List CppType
  deriving DecidableEq, Repr

/-- Values of `std::type_index`: `typeid(T)` of an object type, or
`typeid(std::function<sig>)`. -/
inductive TypeIndex where
  | ofType (T : CppType)
  | ofFunction (sig : Signature)
  deriving DecidableEq, Repr

/-- `typedef std::type_index UnnamedTypeKey;` -/
abbrev UnnamedTypeKey := TypeIndex

/-- `typedef std::pair<std::type_index,std::string> NamedTypeKey;` -/
abbrev NamedTypeKey := TypeIndex × String

/-- A raw pointer to a heap-allocated wrapper; `0` is `nullptr`. -/
abbrev Ptr := Nat

/-- A `std::shared_ptr<T>`: `0` is the empty handle, any other value names the
object the handle references. -/
abbrev SharedPtr := Nat

/-! ## std::map -/

/-- Value of the first entry with key `k`. -/
def lookupEntry {K V : Type} [DecidableEq K] (k : K) : List (K × V) → Option V
  | [] => none
  | e :: es => if e.1 = k then some e.2 else lookupEntry k es

/-- Overwrite the value of the entry with key `k`. -/
def replaceEntry {K V : Type} [DecidableEq K] (k : K) (v : V) : List (K × V) → List (K × V)
  | [] => []
  | e :: es => if e.1 = k then (e.1, v) :: es else e :: replaceEntry k v es

/-- Remove the entry with key `k`. -/
def eraseEntry {K V : Type} [DecidableEq K] (k : K) : List (K × V) → List (K × V)
  | [] => []
  | e :: es => if e.1 = k then es else e :: eraseEntry k es

theorem lookupEntry_eq_none {K V : Type} [DecidableEq K] (k : K) (es : List (K × V)) :
    lookupEntry k es = none ↔ k ∉ es.map Prod.fst := by
  induction es with
  | nil => simp [lookupEntry]
  | cons e es ih =>
    by_cases h : e.1 = k
    · simp [lookupEntry, h]
    · simp only [lookupEntry, h, if_false, ih, List.map_cons, List.mem_cons, not_or]
      exact ⟨fun hk => ⟨fun hh => h hh.symm, hk⟩, fun hk => hk.2⟩

theorem map_fst_replaceEntry {K V : Type} [DecidableEq K] (k : K) (v : V) (es : List (K × V)) :
    (replaceEntry k v es).map Prod.fst = es.map Prod.fst := by
  induction es with
  | nil => rfl
  | cons e es ih =>
    by_cases h : e.1 = k
    · simp [replaceEntry, h]
    · simp [replaceEntry, h, ih]

theorem mem_map_fst_eraseEntry {K V : Type} [DecidableEq K] (k a : K) (es : List (K × V)) :
    a ∈ (eraseEntry k es).map Prod.fst → a ∈ es.map Prod.fst := by
  induction es with
  | nil => simp [eraseEntry]
  | cons e es ih =>
    by_cases h : e.1 = k
    · simp only [eraseEntry, h, if_true, List.map_cons, List.mem_cons]
      exact fun ha => Or.inr ha
    · simp only [eraseEntry, h, if_false, List.map_cons, List.mem_cons]
      rintro (ha | ha)
      · exact Or.inl ha
      · exact Or.inr (ih ha)

theorem nodup_eraseEntry {K V : Type} [DecidableEq K] (k : K) (es : List (K × V))
    (h : (es.map Prod.fst).Nodup) : ((eraseEntry k es).map Prod.fst).Nodup := by
  induction es with
  | nil => simp [eraseEntry]
  | cons e es ih =>
    rw [List.map_cons, List.nodup_cons] at h
    by_cases hk : e.1 = k
    · simpa [eraseEntry, hk] using h.2
    · simp only [eraseEntry, hk, if_false, List.map_cons, List.nodup_cons]
      exact ⟨fun hm => h.1 (mem_map_fst_eraseEntry k _ es hm), ih h.2⟩

theorem nodup_append_entry {K V : Type} [DecidableEq K] (k : K) (v : V) (es : List (K × V))
    (h : (es.map Prod.fst).Nodup) (hk : lookupEntry k es = none) :
    ((es ++ [(k, v)]).map Prod.fst).Nodup := by
  rw [lookupEntry_eq_none] at hk
  rw [List.map_append, List.nodup_append]
  refine ⟨h, by simp, ?_⟩
  intro a ha hb
  simp only [List.map_cons, List.map_nil, List.mem_singleton] at hb
  exact hk (hb ▸ ha)

/-- A `std::map<K, V>`: entries with pairwise different keys. -/
structure StdMap (K V : Type) where
  entries : List (K × V)
  unique : (entries.map Prod.fst).Nodup

namespace StdMap

variable {K V : Type} [DecidableEq K]

/-- A default-constructed map. -/
def empty : StdMap K V := ⟨[], List.nodup_nil⟩

/-- `map.find(key)`: `none` is `map.end()`, `some v` an iterator to an entry
whose `second` is `v`. -/
def find (m : StdMap K V) (key : K) : Option V := lookupEntry key m.entries

/-- `itor->second = v` for the iterator `itor = map.find(key)`. -/
def assign (m : StdMap K V) (key : K) (v : V) : StdMap K V :=
  ⟨replaceEntry key v m.entries, by rw [map_fst_replaceEntry]; exact m.unique⟩

/-- `map.erase(itor)` for the iterator `itor = map.find(key)`. -/
def erase (m : StdMap K V) (key : K) : StdMap K V :=
  ⟨eraseEntry key m.entries, nodup_eraseEntry key m.entries m.unique⟩

/-- `map[key] = v`: `operator[]` finds the entry of `key`, inserting one when
there is none, and the assignment overwrites its value. -/
def subscriptAssign (m : StdMap K V) (key : K) (v : V) : StdMap K V :=
  match h : lookupEntry key m.entries with
  | none => ⟨m.entries ++ [(key, v)], nodup_append_entry key v m.entries m.unique h⟩
  | some _ => m.assign key v

/-- Number of entries stored under `key`. -/
def count (m : StdMap K V) (key : K) : Nat :=
  (m.entries.filter (fun e => decide (e.1 = key))).length

end StdMap

/-! ## The heap of wrapper objects -/

/-- The two wrapper class templates of namespace ioc_detail, with their one
data member: a SharedPtrWapper<T> holds the handle p, an
InstantiatorWrapper<T> holds the callable i. -/
inductive Wrapper (F : Type) where
  | SharedPtrWapper (p : SharedPtr)
  | InstantiatorWrapper (i : F)

/-- One allocation: the object built by a new-expression and the number of
times delete has run on it. -/
structure Cell (F : Type) where
  object : Wrapper F
  deleted : Nat

/-- The free store. The pointer a + 1 addresses cell number a. -/
structure Heap (F : Type) where
  cells : List (Cell F)

/-- Run delete on cell number a. -/
def markDeleted {F : Type} : Nat → List (Cell F) → List (Cell F)
  | _, [] => []
  | 0, c :: cs => ⟨c.object, c.deleted + 1⟩ :: cs
  | a + 1, c :: cs => c :: markDeleted a cs

/-- Overwrite the handle held by the SharedPtrWapper in cell number a. -/
def writeShared {F : Type} (q : SharedPtr) : Nat → List (Cell F) → List (Cell F)
  | _, [] => []
  | 0, c :: cs =>
    (match c.object with
      | .SharedPtrWapper _ => ⟨.SharedPtrWapper q, c.deleted⟩
      | .InstantiatorWrapper _ => c) :: cs
  | a + 1, c :: cs => c :: writeShared q a cs

namespace Heap

variable {F : Type}

/-- A heap with no allocation. -/
def empty : Heap F := ⟨[]⟩

/-- The allocation a pointer addresses, if any. -/
def cell (h : Heap F) : Ptr → Option (Cell F)
  | 0 => none
  | a + 1 => h.cells[a]?

/-- The expression new W(...): a fresh cell holding the object, and the
pointer to it (never null). -/
def new (h : Heap F) (w : Wrapper F) : Ptr × Heap F :=
  (h.cells.length + 1, ⟨h.cells ++ [⟨w, 0⟩]⟩)

/-- The statement delete p. Deleting a null pointer does nothing. -/
def delete (h : Heap F) : Ptr → Heap F
  | 0 => h
  | a + 1 => ⟨markDeleted a h.cells⟩

/-- The object a pointer addresses, when it is allocated and not deleted. -/
def live (h : Heap F) (p : Ptr) : Option (Wrapper F) :=
  match h.cell p with
  | some c => if c.deleted = 0 then some c.object else none
  | none => none

/-- How many times delete has run on the allocation p addresses. -/
def released (h : Heap F) (p : Ptr) : Nat :=
  match h.cell p with
  | some c => c.deleted
  | none => 0

/-- ISharedPtrWapper::GetShared<T>() on the wrapper at p, read as a value:
the handle held by a live SharedPtrWapper. -/
def GetShared (h : Heap F) (p : Ptr) : Option SharedPtr :=
  match h.live p with
  | some (.SharedPtrWapper q) => some q
  | _ => none

/-- IInstantiatorWrapper::GetInstantiator<T>() on the wrapper at p: the
callable held by a live InstantiatorWrapper. -/
def GetInstantiator (h : Heap F) (p : Ptr) : Option F :=
  match h.live p with
  | some (.InstantiatorWrapper i) => some i
  | _ => none

/-- Assignment of the handle q through the reference GetShared<T>() returned
for the wrapper at p. -/
def assignShared (h : Heap F) (p : Ptr) (q : SharedPtr) : Heap F :=
  match p with
  | 0 => h
  | a + 1 => ⟨writeShared q a h.cells⟩

end Heap

/-! ## The container -/

/-- The data members of class IoCC. -/
structure IoCC where
  unnamedInstanceMap : StdMap UnnamedTypeKey Ptr
  namedInstanceMap : StdMap NamedTypeKey Ptr
  unnamedInstantiatorMap : StdMap UnnamedTypeKey Ptr
  namedInstantiatorMap : StdMap NamedTypeKey Ptr

/-- A default-constructed container. -/
def IoCC.empty : IoCC := ⟨StdMap.empty, StdMap.empty, StdMap.empty, StdMap.empty⟩

/-- The state of the program: the container, the heap its wrappers live on,
and the state app of the rest of the application. -/
structure World (F E : Type) where
  iocc : IoCC
  heap : Heap F
  app : E

/-- A freshly constructed container in a program whose other state is app. -/
def World.init {F E : Type} (app : E) : World F E := ⟨IoCC.empty, Heap.empty, app⟩

/-- What a call can throw: the two exception classes of IoCC with their
what() message, or any other exception raised by application code. -/
inductive Exception where
  | ResolverException (what : String)
  | InstantiatorException (what : String)
  | application (what : String)
  deriving DecidableEq, Repr

/-- How a call ends: it returns a value, it throws, or it runs into behaviour
C++ leaves undefined (a wrapper pointer that addresses no live wrapper of the
expected class). -/
inductive Result (α : Type) where
  | returned (a : α)
  | raised (e : Exception)
  | undefined
  deriving DecidableEq, Repr

/-- An argument of a call: its static type and its value. -/
structure Arg (V : Type) where
  type : CppType
  value : V

/-- The behaviour of callables: invoking the std::function f on the arguments
args in a state ends with a result and a state. -/
abbrev Invoke (F V E : Type) := F → List (Arg V) → World F E → Result SharedPtr × World F E

/-- The overloaded private member ToString. -/
class Key (K : Type) where
  ToString : (TypeIndex → String) → K → String

/-- ToString(const UnnamedTypeKey &): unnamedTypeKey.name(). -/
instance : Key UnnamedTypeKey where
  ToString name unnamedTypeKey := name unnamedTypeKey

/-- ToString(const NamedTypeKey &): the type name, a blank, and the name
between double quotes with a blank before the closing one. -/
instance : Key NamedTypeKey where
  ToString name namedTypeKey := name namedTypeKey.1 ++ " \"" ++ namedTypeKey.2 ++ " \""

/-- Register__: store a wrapper pointer under key, deleting the wrapper an
existing entry holds; a null wrapper erases the entry. -/
def Register__ {F K : Type} [DecidableEq K] (map : StdMap K Ptr) (heap : Heap F) (key : K)
    (wrapper : Ptr) : StdMap K Ptr × Heap F :=
  match map.find key with
  | some second =>
    let heap := heap.delete second
    if wrapper ≠ 0 then (map.assign key wrapper, heap) else (map.erase key, heap)
  | none =>
    if wrapper ≠ 0 then (map.subscriptAssign key wrapper, heap) else (map, heap)

/-- RegisterInstance__: wrap a non-null handle in a new SharedPtrWapper (a
null handle gives the null wrapper) and register it. -/
def RegisterInstance__ {F K : Type} [DecidableEq K] (map : StdMap K Ptr) (heap : Heap F) (key : K)
    (inst : SharedPtr) : StdMap K Ptr × Heap F :=
  let wrapper := if inst ≠ 0 then heap.new (.SharedPtrWapper inst) else (0, heap)
  Register__ map wrapper.2 key wrapper.1

/-- RegisterInstantiator__: wrap the callable in a new InstantiatorWrapper and
register it. -/
def RegisterInstantiator__ {F K : Type} [DecidableEq K] (map : StdMap K Ptr) (heap : Heap F)
    (key : K) (inst : F) : StdMap K Ptr × Heap F :=
  let wrapper := heap.new (.InstantiatorWrapper inst)
  Register__ map wrapper.2 key wrapper.1

/-- Instantiate: look the key up; on a hit call the stored callable on the
arguments and return what it returns, on a miss throw InstantiatorException. -/
def Instantiate {F V E K : Type} [DecidableEq K] [Key K] (invoke : Invoke F V E)
    (name : TypeIndex → String) (map : StdMap K Ptr) (key : K) (args : List (Arg V))
    (σ : World F E) : Result SharedPtr × World F E :=
  match map.find key with
  | some instantiatorWrapper =>
    match σ.heap.GetInstantiator instantiatorWrapper with
    | some f => invoke f args σ
    | none => (.undefined, σ)
  | none => (.raised (.InstantiatorException (Key.ToString name key)), σ)

/-- ResolveInstance: look the key up; on a hit return the reference to the
handle inside the stored wrapper (the wrapper pointer stands for it), on a
miss throw ResolverException. -/
def ResolveInstance {F K : Type} [DecidableEq K] [Key K] (name : TypeIndex → String)
    (map : StdMap K Ptr) (heap : Heap F) (key : K) : Result Ptr :=
  match map.find key with
  | some sharedWrapper =>
    match heap.GetShared sharedWrapper with
    | some _ => .returned sharedWrapper
    | none => .undefined
  | none => .raised (.ResolverException (Key.ToString name key))

/-- The type index of a data type: typeid(T). -/
def typeid (T : CppType) : TypeIndex := .ofType T

/-- The type index of std::function<shared_ptr<T>(Args...)>, the
InstantiatorType of New and NewNamed. -/
def InstantiatorType (T : CppType) (Args : List CppType) : TypeIndex :=
  .ofFunction ⟨.sharedPtr T, Args⟩

section api

variable {F V E : Type}

/-- Store<T>(instance). -/
def Store (T : CppType) (inst : SharedPtr) (σ : World F E) : World F E :=
  let r := RegisterInstance__ σ.iocc.unnamedInstanceMap σ.heap (typeid T) inst
  { σ with iocc := { σ.iocc with unnamedInstanceMap := r.1 }, heap := r.2 }

/-- Store<T>(name, instance). -/
def StoreNamed (T : CppType) (name : String) (inst : SharedPtr) (σ : World F E) : World F E :=
  let key : NamedTypeKey := (typeid T, name)
  let r := RegisterInstance__ σ.iocc.namedInstanceMap σ.heap key inst
  { σ with iocc := { σ.iocc with namedInstanceMap := r.1 }, heap := r.2 }

/-- Retrieve<T>(): a reference to the stored handle. -/
def Retrieve (typeName : TypeIndex → String) (T : CppType) (σ : World F E) : Result Ptr :=
  ResolveInstance typeName σ.iocc.unnamedInstanceMap σ.heap (typeid T)

/-- Retrieve<T>(name): a reference to the stored handle. -/
def RetrieveNamed (typeName : TypeIndex → String) (T : CppType) (name : String)
    (σ : World F E) : Result Ptr :=
  let key : NamedTypeKey := (typeid T, name)
  ResolveInstance typeName σ.iocc.namedInstanceMap σ.heap key

/-- RegisterInstantiator<_Signature>(name, instantiator): the key pairs the
type index of std::function<_Signature> with the name. -/
def RegisterInstantiatorNamed (sig : Signature) (name : String) (instantiator : F)
    (σ : World F E) : World F E :=
  let key : NamedTypeKey := (.ofFunction sig, name)
  let r := RegisterInstantiator__ σ.iocc.namedInstantiatorMap σ.heap key instantiator
  { σ with iocc := { σ.iocc with namedInstantiatorMap := r.1 }, heap := r.2 }

/-- RegisterInstantiator<_Signature>(instantiator): the key is the type index
of std::function<_Signature>. -/
def RegisterInstantiator (sig : Signature) (instantiator : F) (σ : World F E) : World F E :=
  let key : UnnamedTypeKey := .ofFunction sig
  let r := RegisterInstantiator__ σ.iocc.unnamedInstantiatorMap σ.heap key instantiator
  { σ with iocc := { σ.iocc with unnamedInstantiatorMap := r.1 }, heap := r.2 }

/-- New<T>(args...): the key is the type index of
std::function<shared_ptr<T>(Args...)>, Args the types of the arguments. -/
def New (invoke : Invoke F V E) (typeName : TypeIndex → String) (T : CppType)
    (args : List (Arg V)) (σ : World F E) : Result SharedPtr × World F E :=
  let key : UnnamedTypeKey := InstantiatorType T (args.map Arg.type)
  Instantiate invoke typeName σ.iocc.unnamedInstantiatorMap key args σ

/-- NewNamed<T>(name, args...). -/
def NewNamed (invoke : Invoke F V E) (typeName : TypeIndex → String) (T : CppType)
    (name : String) (args : List (Arg V)) (σ : World F E) : Result SharedPtr × World F E :=
  let key : NamedTypeKey := (InstantiatorType T (args.map Arg.type), name)
  Instantiate invoke typeName σ.iocc.namedInstantiatorMap key args σ

/-- The handle read through a reference returned by Retrieve. -/
def World.deref (σ : World F E) (ref : Ptr) : Option SharedPtr := σ.heap.GetShared ref

/-- One loop of the destructor: delete the wrapper of every entry of a map. -/
def deleteEntries {K : Type} (heap : Heap F) (map : StdMap K Ptr) : Heap F :=
  map.entries.foldl (fun h i => h.delete i.2) heap

/-- The destructor of IoCC: its four loops, then the destruction of the four
map members. -/
def destructor (σ : World F E) : World F E :=
  let h := deleteEntries σ.heap σ.iocc.unnamedInstanceMap
  let h := deleteEntries h σ.iocc.namedInstanceMap
  let h := deleteEntries h σ.iocc.unnamedInstantiatorMap
  let h := deleteEntries h σ.iocc.namedInstantiatorMap
  { σ with iocc := IoCC.empty, heap := h }

end api

/-! ## Slots and the ownership invariant -/

/-- A registration slot: one key of one of the four maps. -/
inductive Slot where
  | unnamedInstance (key : UnnamedTypeKey)
  | namedInstance (key : NamedTypeKey)
  | unnamedInstantiator (key : UnnamedTypeKey)
  | namedInstantiator (key : NamedTypeKey)
  deriving DecidableEq

/-- The wrapper pointer a slot holds. -/
def IoCC.slot (c : IoCC) : Slot → Option Ptr
  | .unnamedInstance key => c.unnamedInstanceMap.find key
  | .namedInstance key => c.namedInstanceMap.find key
  | .unnamedInstantiator key => c.unnamedInstantiatorMap.find key
  | .namedInstantiator key => c.namedInstantiatorMap.find key

/-- The representation invariant of the container: every pointer held by a
slot addresses a live wrapper, and no wrapper is held by two slots. -/
def World.Valid {F E : Type} (σ : World F E) : Prop :=
  ∀ s p, σ.iocc.slot s = some p →
    (σ.heap.live p).isSome = true ∧ ∀ s', σ.iocc.slot s' = some p → s' = s

/-- The wrapper object RegisterInstance__ allocates for a handle: none for
the null handle. -/
def instanceObject (F : Type) (inst : SharedPtr) : Option (Wrapper F) :=
  if inst ≠ 0 then some (.SharedPtrWapper inst) else none

/-- The state σ' is the state σ after one registration at slot s0 of a new
wrapper object obj (none: the null wrapper): the slot holds the new pointer,
the wrapper the slot held has been deleted, nothing else changed. -/
structure Registered {F E : Type} (s0 : Slot) (obj : Option (Wrapper F)) (σ σ' : World F E) :
    Prop where
  slot : ∀ s, σ'.iocc.slot s =
    if s = s0 then obj.map (fun _ => σ.heap.cells.length + 1) else σ.iocc.slot s
  heap : σ'.heap =
    (match obj with
      | some w => (σ.heap.new w).2
      | none => σ.heap).delete ((σ.iocc.slot s0).getD 0)
  app : σ'.app = σ.app

/-! ## Sequences of registrations -/

/-- A call of one of the four registering members of IoCC. -/
inductive Registration (F : Type) where
  | Store (T : CppType) (inst : SharedPtr)
  | StoreNamed (T : CppType) (name : String) (inst : SharedPtr)
  | RegisterInstantiator (sig : Signature) (instantiator : F)
  | RegisterInstantiatorNamed (sig : Signature) (name : String) (instantiator : F)

/-- The slot a registering call addresses. -/
def Registration.slot {F : Type} : Registration F → Slot
  | .Store T _ => .unnamedInstance (typeid T)
  | .StoreNamed T name _ => .namedInstance (typeid T, name)
  | .RegisterInstantiator sig _ => .unnamedInstantiator (.ofFunction sig)
  | .RegisterInstantiatorNamed sig name _ => .namedInstantiator (.ofFunction sig, name)

/-- The wrapper object a registering call allocates. -/
def Registration.object {F : Type} : Registration F → Option (Wrapper F)
  | .Store _ inst => instanceObject F inst
  | .StoreNamed _ _ inst => instanceObject F inst
  | .RegisterInstantiator _ f => some (.InstantiatorWrapper f)
  | .RegisterInstantiatorNamed _ _ f => some (.InstantiatorWrapper f)

/-- The effect of a registering call. -/
def Registration.apply {F E : Type} : Registration F → World F E → World F E
  | .Store T inst => ioc.Store T inst
  | .StoreNamed T name inst => ioc.StoreNamed T name inst
  | .RegisterInstantiator sig f => ioc.RegisterInstantiator sig f
  | .RegisterInstantiatorNamed sig name f => ioc.RegisterInstantiatorNamed sig name f

/-- The effect of a sequence of registering calls, first call first. -/
def applyAll {F E : Type} (calls : List (Registration F)) (σ : World F E) : World F E :=
  calls.foldl (fun τ call => call.apply τ) σ

/-! ## The example program -/

/-- The interface class IDependency of Example.cpp. -/
def IDependency : CppType := .cls 0

/-- The interface class IService of Example.cpp. -/
def IService : CppType := .cls 1

/-- The builtin type int. -/
def int : CppType := .cls 2

/-- The callables Example.cpp registers for IDependency: the one that makes
Dependency(4), the one that makes Dependency(i) and the one that makes
Dependency(i+1). -/
inductive ExampleFactory where
  | dependency4
  | dependencyOf
  | dependencyAdd1
  deriving DecidableEq, Repr

/-- The expression std::make_shared<Dependency>(i): the application state
lists the data of the Dependency objects made so far, and the handle names
the new one. -/
def makeDependency (i : Int) (σ : World ExampleFactory (List Int)) :
    Result SharedPtr × World ExampleFactory (List Int) :=
  (.returned (σ.app.length + 1), { σ with app := σ.app ++ [i] })

/-- The bodies of the callables of ExampleFactory. A call with arguments that
do not fit the signature is not a C++ program. -/
def exampleInvoke : Invoke ExampleFactory Int (List Int)
  | .dependency4, [], σ => makeDependency 4 σ
  | .dependencyOf, [i], σ => makeDependency i.value σ
  | .dependencyAdd1, [i], σ => makeDependency (i.value + 1) σ
  | _, _, σ => (.undefined, σ)

/-- The member GetData of the Dependency object a handle names. -/
def GetData (σ : World ExampleFactory (List Int)) : SharedPtr → Option Int
  | 0 => none
  | a + 1 => σ.app[a]?

/-- The type names used by the example: the name is irrelevant to it. -/
def exampleName : TypeIndex → String := fun _ => "T"

/-- A container that holds the unnamed instance 7 of IDependency and the
instance 3 of IDependency named a. -/
def sampleInstances : World Unit Unit :=
  StoreNamed IDependency "a" 3 (Store IDependency 7 (World.init ()))

/-- The container of Example.cpp after its three RegisterInstantiator calls
for IDependency. -/
def sampleFactories : World ExampleFactory (List Int) :=
  RegisterInstantiatorNamed ⟨.sharedPtr IDependency, [int]⟩ "add1" .dependencyAdd1
    (RegisterInstantiator ⟨.sharedPtr IDependency, [int]⟩ .dependencyOf
      (RegisterInstantiator ⟨.sharedPtr IDependency, []⟩ .dependency4 (World.init [])))

/-! ## Assignment through a retrieved reference, and the entries held -/

/-- The assignment of the handle inst through the reference ref that a
Retrieve returned: it overwrites the handle inside the wrapper. -/
def World.assignThrough {F E : Type} (σ : World F E) (ref : Ptr) (inst : SharedPtr) :
    World F E :=
  { σ with heap := σ.heap.assignShared ref inst }

/-- Run delete on every pointer of a list, first pointer first. -/
def deletePointers {F : Type} (pointers : List Ptr) (heap : Heap F) : Heap F :=
  pointers.foldl (fun h p => h.delete p) heap

/-- The entries of the four maps, each with the slot that holds it, in the
order in which the destructor visits the maps. -/
def IoCC.entries (c : IoCC) : List (Slot × Ptr) :=
  c.unnamedInstanceMap.entries.map (fun i => (Slot.unnamedInstance i.1, i.2)) ++
  (c.namedInstanceMap.entries.map (fun i => (Slot.namedInstance i.1, i.2)) ++
  (c.unnamedInstantiatorMap.entries.map (fun i => (Slot.unnamedInstantiator i.1, i.2)) ++
  c.namedInstantiatorMap.entries.map (fun i => (Slot.namedInstantiator i.1, i.2))))

/-- The wrapper pointers the four maps hold. -/
def IoCC.held (c : IoCC) : List Ptr := c.entries.map Prod.snd

/-- Whether a slot belongs to one of the two instance maps. -/
def Slot.isInstance : Slot → Bool
  | .unnamedInstance _ => true
  | .namedInstance _ => true
  | .unnamedInstantiator _ => false
  | .namedInstantiator _ => false

/-- No slot holds an empty entry: an instance slot holds a live
SharedPtrWapper around a non-null handle, an instantiator slot a live
InstantiatorWrapper. -/
def World.Typed {F E : Type} (σ : World F E) : Prop :=
  ∀ s p, σ.iocc.slot s = some p →
    if s.isInstance = true then ∃ q, q ≠ 0 ∧ σ.heap.live p = some (.SharedPtrWapper q)
    else ∃ f, σ.heap.live p = some (.InstantiatorWrapper f)

/-- Every wrapper ever allocated is either held by a slot and not deleted,
or held by no slot and deleted exactly once. -/
def World.Tidy {F E : Type} (σ : World F E) : Prop :=
  ∀ p c, σ.heap.cell p = some c →
    (c.deleted = 0 ∧ ∃ s, σ.iocc.slot s = some p) ∨
    (c.deleted = 1 ∧ ∀ s, σ.iocc.slot s ≠ some p)

/-- The state reached from the empty container, in a program whose other state
is app, by a sequence of registering calls. -/
def reached {F E : Type} (app : E) (calls : List (Registration F)) : World F E :=
  applyAll calls (World.init app)

/-! ## The reference model of the instance maps -/

/-- A key of the instance maps: the one Store<T> and Retrieve<T> address, or
the one their overloads with a name address. -/
inductive InstanceKey where
  | unnamed (T : CppType)
  | named (T : CppType) (name : String)
  deriving DecidableEq, Repr

/-- The slot of an instance key. -/
def InstanceKey.slot : InstanceKey → Slot
  | .unnamed T => .unnamedInstance (typeid T)
  | .named T name => .namedInstance (typeid T, name)

/-- A call of Store: the key it is addressed to and the handle it brings. -/
structure StoreCall where
  key : InstanceKey
  handle : SharedPtr
  deriving DecidableEq, Repr

/-- The registering call a Store call is. -/
def StoreCall.toRegistration (F : Type) (c : StoreCall) : Registration F :=
  match c.key with
  | .unnamed T => .Store T c.handle
  | .named T name => .StoreNamed T name c.handle

/-- Retrieve at an instance key. -/
def RetrieveAt {F E : Type} (typeName : TypeIndex → String) (k : InstanceKey) (σ : World F E) :
    Result Ptr :=
  match k with
  | .unnamed T => Retrieve typeName T σ
  | .named T name => RetrieveNamed typeName T name σ

/-- The description of an instance key in a ResolverException. -/
def InstanceKey.describe (typeName : TypeIndex → String) : InstanceKey → String
  | .unnamed T => Key.ToString typeName (typeid T : UnnamedTypeKey)
  | .named T name => Key.ToString typeName ((typeid T, name) : NamedTypeKey)

/-- The reference model in the words of the specification, one step: a
partial map in which a non-null store sets the key and a null store unsets
it. -/
def referenceStore (m : InstanceKey → Option SharedPtr) (c : StoreCall) :
    InstanceKey → Option SharedPtr :=
  fun k => if k = c.key then (if c.handle ≠ 0 then some c.handle else none) else m k

/-- The reference model after a sequence of Store calls on the empty partial
map. -/
def referenceMap (calls : List StoreCall) : InstanceKey → Option SharedPtr :=
  calls.foldl referenceStore (fun _ => none)

/-- The handle of the last Store call of a sequence that is addressed to the
key, if there is one. -/
def lastStore (calls : List StoreCall) (k : InstanceKey) : Option SharedPtr :=
  (calls.reverse.find? (fun c => decide (c.key = k))).map StoreCall.handle

/-- The state holds at every instance key what the partial map says: the
wrapper of the handle where the map is set, no entry where it is not. -/
def Refines {F E : Type} (σ : World F E) (m : InstanceKey → Option SharedPtr) : Prop :=
  ∀ k, match m k with
    | some h => h ≠ 0 ∧ ∃ w, σ.iocc.slot k.slot = some w ∧
        σ.heap.live w = some (.SharedPtrWapper h)
    | none => σ.iocc.slot k.slot = none

/-! ## Callables that call back into the container -/

/-- The body of a callable, as far as the container is concerned: the calls
it makes on the container, in the order in which it makes them, each with
what the body does with the handle it gets, and the return statement that
ends it. The return statement builds its object in the application state
and may throw. The body catches no exception. -/
inductive Body (F V E : Type) where
  | result (make : E → Result SharedPtr × E)
  | New (T : CppType) (args : List (Arg V)) (next : SharedPtr → Body F V E)
  | NewNamed (T : CppType) (name : String) (args : List (Arg V)) (next : SharedPtr → Body F V E)
  | Retrieve (T : CppType) (next : SharedPtr → Body F V E)
  | RetrieveNamed (T : CppType) (name : String) (next : SharedPtr → Body F V E)
  | register (call : Registration F) (next : Body F V E)

/-- How the call of a stored callable ends: callee w f args σ is the call, in
state σ and on the arguments args, of the std::function f that lives inside
the wrapper at w; none when the call has not ended within the fuel given. -/
abbrev Callee (F V E : Type) :=
  Ptr → F → List (Arg V) → World F E → Option (Result SharedPtr × World F E)

/-- Instantiate, for callables given by a Callee: GetInstantiator returns a
reference, so the callable is called in place, inside its wrapper. -/
def InstantiateIn {F V E K : Type} [DecidableEq K] [Key K] (callee : Callee F V E)
    (name : TypeIndex → String) (map : StdMap K Ptr) (key : K) (args : List (Arg V))
    (σ : World F E) : Option (Result SharedPtr × World F E) :=
  match map.find key with
  | some instantiatorWrapper =>
    match σ.heap.GetInstantiator instantiatorWrapper with
    | some f => callee instantiatorWrapper f args σ
    | none => some (.undefined, σ)
  | none => some (.raised (.InstantiatorException (Key.ToString name key)), σ)

/-- What a body does after a call it made: it goes on with the handle the
call returned; an exception, undefined behaviour and a call that does not
end are the end of the body too. -/
def continueWith {F E : Type} (r : Option (Result SharedPtr × World F E))
    (k : SharedPtr → World F E → Option (Result SharedPtr × World F E)) :
    Option (Result SharedPtr × World F E) :=
  match r with
  | none => none
  | some (.returned d, τ) => k d τ
  | some (.raised e, τ) => some (.raised e, τ)
  | some (.undefined, τ) => some (.undefined, τ)

/-- Copy-initialisation of a handle from the reference a Retrieve returned,
as in auto dep = iocc->Retrieve<T>(). -/
def World.copy {F E : Type} (σ : World F E) : Result Ptr → Result SharedPtr
  | .returned ref =>
    match σ.deref ref with
    | some d => .returned d
    | none => .undefined
  | .raised e => .raised e
  | .undefined => .undefined

/-- Whether the wrapper at p, and with it the callable stored in it, is
alive. -/
def Heap.alive {F : Type} (h : Heap F) (p : Ptr) : Bool := (h.live p).isSome

/-- The run of the body of the callable stored in the wrapper at self. As
the lambdas of Example.cpp do, a body reaches the container through a handle
that the callable captured: every call on the container reads the closure,
which is undefined behaviour once the wrapper at self has been deleted. -/
def execBody {F V E : Type} (callee : Callee F V E) (typeName : TypeIndex → String)
    (self : Ptr) : Body F V E → World F E → Option (Result SharedPtr × World F E)
  | .result make, σ => some ((make σ.app).1, { σ with app := (make σ.app).2 })
  | .New T args next, σ =>
    if σ.heap.alive self = true then
      continueWith
        (InstantiateIn callee typeName σ.iocc.unnamedInstantiatorMap
          (InstantiatorType T (args.map Arg.type)) args σ)
        (fun d τ => execBody callee typeName self (next d) τ)
    else some (.undefined, σ)
  | .NewNamed T name args next, σ =>
    if σ.heap.alive self = true then
      continueWith
        (InstantiateIn callee typeName σ.iocc.namedInstantiatorMap
          ((InstantiatorType T (args.map Arg.type), name) : NamedTypeKey) args σ)
        (fun d τ => execBody callee typeName self (next d) τ)
    else some (.undefined, σ)
  | .Retrieve T next, σ =>
    if σ.heap.alive self = true then
      continueWith (some (σ.copy (ioc.Retrieve typeName T σ), σ))
        (fun d τ => execBody callee typeName self (next d) τ)
    else some (.undefined, σ)
  | .RetrieveNamed T name next, σ =>
    if σ.heap.alive self = true then
      continueWith (some (σ.copy (ioc.RetrieveNamed typeName T name σ), σ))
        (fun d τ => execBody callee typeName self (next d) τ)
    else some (.undefined, σ)
  | .register call next, σ =>
    if σ.heap.alive self = true then execBody callee typeName self next (call.apply σ)
    else some (.undefined, σ)

/-- The calls of the callables whose bodies are given by body, with fuel for
the depth of nested calls. -/
def callFuel {F V E : Type} (body : F → List (Arg V) → Body F V E)
    (typeName : TypeIndex → String) : Nat → Callee F V E
  | 0 => fun _ _ _ _ => none
  | fuel + 1 => fun self f args σ =>
    execBody (callFuel body typeName fuel) typeName self (body f args) σ

/-- New<T>(args...) for callables given by their bodies. -/
def NewFuel {F V E : Type} (body : F → List (Arg V) → Body F V E)
    (typeName : TypeIndex → String) (fuel : Nat) (T : CppType) (args : List (Arg V))
    (σ : World F E) : Option (Result SharedPtr × World F E) :=
  let key : UnnamedTypeKey := InstantiatorType T (args.map Arg.type)
  InstantiateIn (callFuel body typeName fuel) typeName σ.iocc.unnamedInstantiatorMap key args σ

/-- NewNamed<T>(name, args...) for callables given by their bodies. -/
def NewNamedFuel {F V E : Type} (body : F → List (Arg V) → Body F V E)
    (typeName : TypeIndex → String) (fuel : Nat) (T : CppType) (name : String)
    (args : List (Arg V)) (σ : World F E) : Option (Result SharedPtr × World F E) :=
  let key : NamedTypeKey := (InstantiatorType T (args.map Arg.type), name)
  InstantiateIn (callFuel body typeName fuel) typeName σ.iocc.namedInstantiatorMap key args σ

/-- A body that only asks for objects: it makes no registering call, and
every New it makes, whatever handles its earlier calls returned, is
addressed to a slot that satisfies P. -/
def Body.Requests {F V E : Type} (P : Slot → Prop) : Body F V E → Prop
  | .result _ => True
  | .New T args next =>
    P (.unnamedInstantiator (InstantiatorType T (args.map Arg.type))) ∧
      ∀ d, Body.Requests P (next d)
  | .NewNamed T name args next =>
    P (.namedInstantiator (InstantiatorType T (args.map Arg.type), name)) ∧
      ∀ d, Body.Requests P (next d)
  | .Retrieve _ next => ∀ d, Body.Requests P (next d)
  | .RetrieveNamed _ _ next => ∀ d, Body.Requests P (next d)
  | .register _ _ => False

/-! ## Example.cpp with its callables that call back -/

/-- The objects Example.cpp makes: a Dependency with its data, a Service with
its two injected handles and its two supplied data. -/
inductive ExampleObject where
  | Dependency (i : Int)
  | Service (injected_dependency0 injected_dependency1 : SharedPtr)
      (supplied_data0 supplied_data1 : Int)
  deriving DecidableEq, Repr

/-- The five lambdas Example.cpp registers, in the order of the source. -/
inductive ExampleLambda where
  | dependency4
  | dependencyOf
  | dependencyAdd1
  | service
  | serviceWith
  deriving DecidableEq, Repr

/-- The expression std::make_shared<C>(...) for the object it builds: the
application state lists the objects made so far, the handle names the new
one. -/
def makeShared (object : ExampleObject) (objects : List ExampleObject) :
    Result SharedPtr × List ExampleObject :=
  (.returned (objects.length + 1), objects ++ [object])

/-- The bodies of the five lambdas. The two for IService ask the container
for a new IDependency and for the stored one named nine, left argument
first. A call with arguments that do not fit the signature is not a C++
program. -/
def exampleBody : ExampleLambda → List (Arg Int) →
    Body ExampleLambda Int (List ExampleObject)
  | .dependency4, [] => .result (makeShared (.Dependency 4))
  | .dependencyOf, [i] => .result (makeShared (.Dependency i.value))
  | .dependencyAdd1, [i] => .result (makeShared (.Dependency (i.value + 1)))
  | .service, [] =>
    .New IDependency [] fun d0 =>
      .RetrieveNamed IDependency "nine" fun d1 =>
        .result (makeShared (.Service d0 d1 0 0))
  | .serviceWith, [param0, param1, param2] =>
    .New IDependency [⟨int, param0.value⟩] fun d0 =>
      .RetrieveNamed IDependency "nine" fun d1 =>
        .result (makeShared (.Service d0 d1 param1.value param2.value))
  | _, _ => .result fun objects => (.undefined, objects)

/-- The five RegisterInstantiator calls of Example0::main. -/
def exampleFactories : World ExampleLambda (List ExampleObject) :=
  RegisterInstantiator ⟨.sharedPtr IService, [int, int, int]⟩ .serviceWith
    (RegisterInstantiator ⟨.sharedPtr IService, []⟩ .service
      (RegisterInstantiatorNamed ⟨.sharedPtr IDependency, [int]⟩ "add1" .dependencyAdd1
        (RegisterInstantiator ⟨.sharedPtr IDependency, [int]⟩ .dependencyOf
          (RegisterInstantiator ⟨.sharedPtr IDependency, []⟩ .dependency4 (World.init [])))))

/-- The two Store calls of Example0::main, iocc->Store(iocc->New<IDependency>())
and iocc->Store<IDependency>("nine", iocc->New<IDependency>(9)), on
exampleFactories: handle 1 names the Dependency(4) and handle 2 the
Dependency(9) the two New calls made. -/
def exampleMain : World ExampleLambda (List ExampleObject) :=
  StoreNamed IDependency "nine" 2
    (Store IDependency 1
      { exampleFactories with app := [.Dependency 4, .Dependency 9] })

/-- The depth of the nested calls of the lambdas: those for IService call
those for IDependency. -/
def exampleRank : ExampleLambda → Nat
  | .service => 1
  | .serviceWith => 1
  | _ => 0

/-- A callable for IService that asks the container for a new IService: its
own product. -/
def cyclicBody : Unit → List (Arg Unit) → Body Unit Unit Unit :=
  fun _ _ => .New IService [] fun d => .result fun app => (.returned d, app)

/-- A container in which the cyclic callable is the factory of IService. -/
def cyclicWorld : World Unit Unit :=
  RegisterInstantiator ⟨.sharedPtr IService, []⟩ () (World.init ())

/-! ## Callables that register -/

/-- The body that makes the registering calls of a list, first call first, and
then goes on as last. -/
def registerAll {F V E : Type} (calls : List (Registration F)) (last : Body F V E) :
    Body F V E :=
  calls.foldr Body.register last

/-- Three callables for shared_ptr<IDependency>(): replaceThenStore registers
replacement under its own signature and then stores an instance,
replaceThenReturn registers replacement under its own signature and returns,
replacement only returns. -/
inductive Replacing where
  | replaceThenStore
  | replaceThenReturn
  | replacement
  deriving DecidableEq, Repr

/-- The bodies of the callables of Replacing; the handles they return, 1 and
2, name objects made elsewhere. -/
def replacingBody : Replacing → List (Arg Unit) → Body Replacing Unit Unit
  | .replaceThenStore, _ =>
    .register (.RegisterInstantiator ⟨.sharedPtr IDependency, []⟩ .replacement)
      (.register (.Store IService 5) (.result fun app => (.returned 1, app)))
  | .replaceThenReturn, _ =>
    .register (.RegisterInstantiator ⟨.sharedPtr IDependency, []⟩ .replacement)
      (.result fun app => (.returned 1, app))
  | .replacement, _ => .result fun app => (.returned 2, app)

/-- A container whose factory for shared_ptr<IDependency>() is the given
callable. -/
def replacingWorld (f : Replacing) : World Replacing Unit :=
  RegisterInstantiator ⟨.sharedPtr IDependency, []⟩ f (World.init ())

/-! ## Lemmas on maps -/

section maplemmas
variable {K V : Type} [DecidableEq K]

theorem lookupEntry_replaceEntry (k k' : K) (v : V) (es : List (K × V)) :
    lookupEntry k' (replaceEntry k v es) =
      if k' = k then (lookupEntry k es).map (fun _ => v) else lookupEntry k' es := by
  induction es with
  | nil => simp [lookupEntry, replaceEntry]
  | cons e es ih =>
    by_cases h : e.1 = k
    · by_cases h' : k' = k
      · subst h'; simp [lookupEntry, replaceEntry, h]
      · have hk : ¬ k = k' := fun hh => h' hh.symm
        simp [lookupEntry, replaceEntry, h, h', hk]
    · by_cases h' : k' = k
      · subst h'; simp [lookupEntry, replaceEntry, h, ih]
      · simp [lookupEntry, replaceEntry, h, h', ih]

theorem lookupEntry_eraseEntry (k k' : K) (es : List (K × V)) (hn : (es.map Prod.fst).Nodup) :
    lookupEntry k' (eraseEntry k es) = if k' = k then none else lookupEntry k' es := by
  induction es with
  | nil => simp [lookupEntry, eraseEntry]
  | cons e es ih =>
    rw [List.map_cons, List.nodup_cons] at hn
    by_cases h : e.1 = k
    · by_cases h' : k' = k
      · subst h'
        simp only [eraseEntry, h, if_true]
        rw [lookupEntry_eq_none]; exact h ▸ hn.1
      · have hk : ¬ k = k' := fun hh => h' hh.symm
        simp [lookupEntry, eraseEntry, h, h', hk]
    · by_cases h' : k' = k
      · subst h'; simp [lookupEntry, eraseEntry, h, ih hn.2]
      · simp [lookupEntry, eraseEntry, h, h', ih hn.2]

theorem lookupEntry_append (k k' : K) (v : V) (es : List (K × V)) :
    lookupEntry k' (es ++ [(k, v)]) =
      match lookupEntry k' es with
      | some x => some x
      | none => if k = k' then some v else none := by
  induction es with
  | nil => simp [lookupEntry]
  | cons e es ih =>
    by_cases h : e.1 = k'
    · simp [lookupEntry, h]
    · simp [lookupEntry, h, ih]

namespace StdMap

theorem find_empty (k : K) : (empty : StdMap K V).find k = none := rfl

theorem find_assign (m : StdMap K V) (k k' : K) (v : V) :
    (m.assign k v).find k' = if k' = k then (m.find k).map (fun _ => v) else m.find k' :=
  lookupEntry_replaceEntry k k' v m.entries

theorem find_erase (m : StdMap K V) (k k' : K) :
    (m.erase k).find k' = if k' = k then none else m.find k' :=
  lookupEntry_eraseEntry k k' m.entries m.unique

theorem find_subscriptAssign (m : StdMap K V) (k k' : K) (v : V) :
    (m.subscriptAssign k v).find k' = if k' = k then some v else m.find k' := by
  unfold subscriptAssign
  split
  · rename_i h
    show lookupEntry k' (m.entries ++ [(k, v)]) = _
    rw [lookupEntry_append]
    by_cases h' : k' = k
    · subst h'; simp [h]
    · have : ¬ k = k' := fun hh => h' hh.symm
      simp only [h', this, if_false, find]
      cases lookupEntry k' m.entries <;> rfl
  · rename_i x h
    rw [find_assign]
    by_cases h' : k' = k
    · simp [h', find, h]
    · simp [h']

theorem count_eq (m : StdMap K V) (k : K) :
    m.count k = if (m.find k).isSome then 1 else 0 := by
  obtain ⟨es, hn⟩ := m
  simp only [count, find]
  induction es with
  | nil => simp [lookupEntry]
  | cons e es ih =>
    rw [List.map_cons, List.nodup_cons] at hn
    by_cases h : e.1 = k
    · have hnone : lookupEntry k es = none := by
        rw [lookupEntry_eq_none]; exact h ▸ hn.1
      have := ih hn.2
      simp [hnone] at this
      simp [lookupEntry, h, List.filter_cons]
      exact this
    · simp [lookupEntry, h, List.filter_cons, ih hn.2]

end StdMap
end maplemmas

/-! ## Lemmas on the heap -/

section heaplemmas
variable {F : Type}

theorem markDeleted_getElem? (a b : Nat) (cs : List (Cell F)) :
    (markDeleted a cs)[b]? =
      if b = a then cs[b]?.map (fun c => ⟨c.object, c.deleted + 1⟩) else cs[b]? := by
  induction cs generalizing a b with
  | nil => simp [markDeleted]
  | cons c cs ih =>
    cases a with
    | zero =>
      cases b with
      | zero => simp [markDeleted]
      | succ b => simp [markDeleted]
    | succ a =>
      cases b with
      | zero => simp [markDeleted]
      | succ b => simp [markDeleted, ih]

namespace Heap

theorem cell_empty (p : Ptr) : (empty : Heap F).cell p = none := by
  cases p <;> simp [cell, empty]

theorem new_fst_ne_zero (h : Heap F) (w : Wrapper F) : (h.new w).1 ≠ 0 := by
  simp [new]

theorem cell_fresh (h : Heap F) (w : Wrapper F) : h.cell (h.new w).1 = none := by
  simp [new, cell]

theorem cell_new (h : Heap F) (w : Wrapper F) (p : Ptr) :
    (h.new w).2.cell p =
      if p = (h.new w).1 then some ⟨w, 0⟩ else h.cell p := by
  cases p with
  | zero => simp [new, cell]
  | succ a =>
    by_cases ha : a = h.cells.length
    · subst ha; simp [new, cell]
    · have hne : ¬ a + 1 = h.cells.length + 1 := by omega
      simp only [new, cell, hne, if_false]
      rcases Nat.lt_or_gt_of_ne ha with hlt | hgt
      · rw [List.getElem?_append_left hlt]
      · rw [List.getElem?_eq_none (by simp; omega), List.getElem?_eq_none (by omega)]

theorem cell_delete (h : Heap F) (q p : Ptr) :
    (h.delete q).cell p =
      if p = q then (h.cell p).map (fun c => ⟨c.object, c.deleted + 1⟩) else h.cell p := by
  cases q with
  | zero =>
    cases p with
    | zero => simp [delete, cell]
    | succ a => simp [delete, cell]
  | succ b =>
    cases p with
    | zero => simp [delete, cell]
    | succ a => simp [delete, cell, markDeleted_getElem?]

theorem live_new (h : Heap F) (w : Wrapper F) (p : Ptr) :
    (h.new w).2.live p = if p = (h.new w).1 then some w else h.live p := by
  unfold live
  rw [cell_new]
  by_cases hp : p = (h.new w).1
  · simp [hp]
  · simp [hp]

theorem live_delete (h : Heap F) (q p : Ptr) :
    (h.delete q).live p = if p = q then none else h.live p := by
  unfold live
  rw [cell_delete]
  by_cases hp : p = q
  · simp only [hp, if_true]
    cases h.cell q <;> simp
  · simp [hp]

theorem live_fresh (h : Heap F) (w : Wrapper F) : h.live (h.new w).1 = none := by
  unfold live; rw [cell_fresh]

theorem released_new (h : Heap F) (w : Wrapper F) (p : Ptr) :
    (h.new w).2.released p = h.released p := by
  unfold released
  rw [cell_new]
  by_cases hp : p = (h.new w).1
  · simp [hp, cell_fresh]
  · simp [hp]

theorem released_delete (h : Heap F) (q p : Ptr) :
    (h.delete q).released p =
      if p = q ∧ (h.cell p).isSome then h.released p + 1 else h.released p := by
  unfold released
  rw [cell_delete]
  by_cases hp : p = q
  · subst hp
    cases h.cell p <;> simp
  · simp [hp]

theorem released_of_live (h : Heap F) (p : Ptr) (hl : (h.live p).isSome = true) :
    h.released p = 0 ∧ (h.cell p).isSome = true := by
  unfold live at hl
  unfold released
  cases hc : h.cell p with
  | none => simp [hc] at hl
  | some c =>
    simp only [hc] at hl ⊢
    by_cases hd : c.deleted = 0
    · simp [hd]
    · simp [hd] at hl

theorem GetShared_eq (h : Heap F) (p : Ptr) (q : SharedPtr) :
    h.GetShared p = some q ↔ h.live p = some (.SharedPtrWapper q) := by
  unfold GetShared
  cases h.live p with
  | none => simp
  | some w => cases w <;> simp

theorem GetInstantiator_eq (h : Heap F) (p : Ptr) (f : F) :
    h.GetInstantiator p = some f ↔ h.live p = some (.InstantiatorWrapper f) := by
  unfold GetInstantiator
  cases h.live p with
  | none => simp
  | some w => cases w <;> simp

end Heap
end heaplemmas

/-! ## Register__ as an update of one slot -/

section registerlemmas
variable {F E K : Type} [DecidableEq K]

theorem Register___find (map : StdMap K Ptr) (heap : Heap F) (key : K) (wrapper : Ptr) (k : K) :
    (Register__ map heap key wrapper).1.find k =
      if k = key then (if wrapper ≠ 0 then some wrapper else none) else map.find k := by
  unfold Register__
  cases hf : map.find key with
  | none =>
    by_cases hw : wrapper ≠ 0
    · simp only [if_pos hw, StdMap.find_subscriptAssign]
    · simp only [if_neg hw]
      by_cases hk : k = key
      · simp [hk, hf]
      · simp [hk]
  | some second =>
    by_cases hw : wrapper ≠ 0
    · simp only [if_pos hw, StdMap.find_assign, hf, Option.map_some']
    · simp only [if_neg hw, StdMap.find_erase]

theorem Register___heap (map : StdMap K Ptr) (heap : Heap F) (key : K) (wrapper : Ptr) :
    (Register__ map heap key wrapper).2 = heap.delete ((map.find key).getD 0) := by
  unfold Register__
  cases hf : map.find key with
  | none => by_cases hw : wrapper ≠ 0 <;> simp [hw, Heap.delete]
  | some second => by_cases hw : wrapper ≠ 0 <;> simp [hw]

theorem RegisterInstance___find (map : StdMap K Ptr) (heap : Heap F) (key : K) (inst : SharedPtr)
    (k : K) :
    (RegisterInstance__ map heap key inst).1.find k =
      if k = key then (if inst ≠ 0 then some (heap.cells.length + 1) else none)
      else map.find k := by
  unfold RegisterInstance__
  rw [Register___find]
  by_cases hi : inst ≠ 0
  · simp [hi, Heap.new]
  · simp [hi]

theorem RegisterInstance___heap (map : StdMap K Ptr) (heap : Heap F) (key : K)
    (inst : SharedPtr) :
    (RegisterInstance__ map heap key inst).2 =
      (if inst ≠ 0 then (heap.new (.SharedPtrWapper inst)).2 else heap).delete
        ((map.find key).getD 0) := by
  unfold RegisterInstance__
  rw [Register___heap]
  by_cases hi : inst ≠ 0
  · simp [hi]
  · simp [hi]

theorem RegisterInstantiator___find (map : StdMap K Ptr) (heap : Heap F) (key : K) (inst : F)
    (k : K) :
    (RegisterInstantiator__ map heap key inst).1.find k =
      if k = key then some (heap.cells.length + 1) else map.find k := by
  unfold RegisterInstantiator__
  rw [Register___find]
  simp [Heap.new]

theorem RegisterInstantiator___heap (map : StdMap K Ptr) (heap : Heap F) (key : K) (inst : F) :
    (RegisterInstantiator__ map heap key inst).2 =
      (heap.new (.InstantiatorWrapper inst)).2.delete ((map.find key).getD 0) := by
  unfold RegisterInstantiator__
  rw [Register___heap]

theorem Store_registered (T : CppType) (inst : SharedPtr) (σ : World F E) :
    Registered (.unnamedInstance (typeid T)) (instanceObject F inst) σ (Store T inst σ) := by
  refine ⟨?_, ?_, rfl⟩
  · intro s
    cases s with
    | unnamedInstance k =>
      simp only [Store, IoCC.slot, RegisterInstance___find, Slot.unnamedInstance.injEq,
        instanceObject]
      by_cases hi : inst ≠ 0 <;> simp [hi]
    | namedInstance k => simp [Store, IoCC.slot]
    | unnamedInstantiator k => simp [Store, IoCC.slot]
    | namedInstantiator k => simp [Store, IoCC.slot]
  · simp only [Store, RegisterInstance___heap, IoCC.slot, instanceObject]
    by_cases hi : inst ≠ 0 <;> simp [hi]

theorem StoreNamed_registered (T : CppType) (name : String) (inst : SharedPtr) (σ : World F E) :
    Registered (.namedInstance (typeid T, name)) (instanceObject F inst) σ
      (StoreNamed T name inst σ) := by
  refine ⟨?_, ?_, rfl⟩
  · intro s
    cases s with
    | unnamedInstance k => simp [StoreNamed, IoCC.slot]
    | namedInstance k =>
      simp only [StoreNamed, IoCC.slot, RegisterInstance___find, Slot.namedInstance.injEq,
        instanceObject]
      by_cases hi : inst ≠ 0 <;> simp [hi]
    | unnamedInstantiator k => simp [StoreNamed, IoCC.slot]
    | namedInstantiator k => simp [StoreNamed, IoCC.slot]
  · simp only [StoreNamed, RegisterInstance___heap, IoCC.slot, instanceObject]
    by_cases hi : inst ≠ 0 <;> simp [hi]

theorem RegisterInstantiator_registered (sig : Signature) (f : F) (σ : World F E) :
    Registered (.unnamedInstantiator (.ofFunction sig)) (some (.InstantiatorWrapper f)) σ
      (RegisterInstantiator sig f σ) := by
  refine ⟨?_, ?_, rfl⟩
  · intro s
    cases s with
    | unnamedInstance k => simp [RegisterInstantiator, IoCC.slot]
    | namedInstance k => simp [RegisterInstantiator, IoCC.slot]
    | unnamedInstantiator k =>
      simp [RegisterInstantiator, IoCC.slot, RegisterInstantiator___find]
    | namedInstantiator k => simp [RegisterInstantiator, IoCC.slot]
  · simp [RegisterInstantiator, RegisterInstantiator___heap, IoCC.slot]

theorem RegisterInstantiatorNamed_registered (sig : Signature) (name : String) (f : F)
    (σ : World F E) :
    Registered (.namedInstantiator (.ofFunction sig, name)) (some (.InstantiatorWrapper f)) σ
      (RegisterInstantiatorNamed sig name f σ) := by
  refine ⟨?_, ?_, rfl⟩
  · intro s
    cases s with
    | unnamedInstance k => simp [RegisterInstantiatorNamed, IoCC.slot]
    | namedInstance k => simp [RegisterInstantiatorNamed, IoCC.slot]
    | unnamedInstantiator k => simp [RegisterInstantiatorNamed, IoCC.slot]
    | namedInstantiator k =>
      simp [RegisterInstantiatorNamed, IoCC.slot, RegisterInstantiator___find]
  · simp [RegisterInstantiatorNamed, RegisterInstantiator___heap, IoCC.slot]

end registerlemmas

/-! ## The invariant is established and preserved -/

section validlemmas
variable {F E : Type}

theorem Heap.live_zero (h : Heap F) : h.live 0 = none := rfl

theorem Heap.live_length_succ (h : Heap F) : h.live (h.cells.length + 1) = none := by
  simp [Heap.live, Heap.cell]

theorem Valid_init (app : E) : (World.init app : World F E).Valid := by
  intro s p h
  cases s <;> simp [World.init, IoCC.empty, IoCC.slot, StdMap.find_empty] at h

theorem Valid.ne_fresh {σ : World F E} (hv : σ.Valid) {s : Slot} {p : Ptr}
    (hp : σ.iocc.slot s = some p) : p ≠ σ.heap.cells.length + 1 ∧ p ≠ 0 := by
  have hl := (hv s p hp).1
  constructor
  · intro h; rw [h, Heap.live_length_succ] at hl; simp at hl
  · intro h; rw [h, Heap.live_zero] at hl; simp at hl

theorem Registered.live_eq {s0 : Slot} {obj : Option (Wrapper F)} {σ σ' : World F E}
    (hr : Registered s0 obj σ σ') (p : Ptr) :
    σ'.heap.live p =
      if p = (σ.iocc.slot s0).getD 0 then none
      else if p = σ.heap.cells.length + 1 then obj else σ.heap.live p := by
  rw [hr.heap, Heap.live_delete]
  cases obj with
  | none =>
    by_cases h1 : p = (σ.iocc.slot s0).getD 0
    · simp [h1]
    · by_cases h2 : p = σ.heap.cells.length + 1
      · simp [h1, h2, Heap.live_length_succ]
      · simp [h1, h2]
  | some w =>
    simp only [Heap.live_new]
    rfl

theorem Registered.old_ne_fresh {s0 : Slot} {obj : Option (Wrapper F)} {σ σ' : World F E}
    (_hr : Registered s0 obj σ σ') (hv : σ.Valid) :
    σ.heap.cells.length + 1 ≠ (σ.iocc.slot s0).getD 0 := by
  cases ho : σ.iocc.slot s0 with
  | none => simp
  | some old => simpa using fun h => (Valid.ne_fresh hv ho).1 h.symm

theorem Registered.live_new_wrapper {s0 : Slot} {obj : Option (Wrapper F)} {σ σ' : World F E}
    (hr : Registered s0 obj σ σ') (hv : σ.Valid) :
    σ'.heap.live (σ.heap.cells.length + 1) = obj := by
  rw [hr.live_eq, if_neg (hr.old_ne_fresh hv), if_pos rfl]

theorem Registered.live_other {s0 : Slot} {obj : Option (Wrapper F)} {σ σ' : World F E}
    (hr : Registered s0 obj σ σ') (hv : σ.Valid) {s : Slot} {p : Ptr} (hs : s ≠ s0)
    (hp : σ.iocc.slot s = some p) : σ'.heap.live p = σ.heap.live p := by
  have hne := Valid.ne_fresh hv hp
  rw [hr.live_eq, if_neg, if_neg hne.1]
  cases ho : σ.iocc.slot s0 with
  | none => simpa using hne.2
  | some old =>
    simp only [Option.getD_some]
    intro h
    exact hs ((hv s0 old ho).2 s (h ▸ hp))

theorem Registered.slot_self {s0 : Slot} {obj : Option (Wrapper F)} {σ σ' : World F E}
    (hr : Registered s0 obj σ σ') :
    σ'.iocc.slot s0 = obj.map (fun _ => σ.heap.cells.length + 1) := by
  rw [hr.slot, if_pos rfl]

theorem Registered.slot_other {s0 : Slot} {obj : Option (Wrapper F)} {σ σ' : World F E}
    (hr : Registered s0 obj σ σ') {s : Slot} (hs : s ≠ s0) :
    σ'.iocc.slot s = σ.iocc.slot s := by
  rw [hr.slot, if_neg hs]

theorem Registered.valid {s0 : Slot} {obj : Option (Wrapper F)} {σ σ' : World F E}
    (hr : Registered s0 obj σ σ') (hv : σ.Valid) : σ'.Valid := by
  intro s p hp
  by_cases hs : s = s0
  · subst hs
    rw [hr.slot_self] at hp
    cases obj with
    | none => simp at hp
    | some w =>
      simp only [Option.map_some', Option.some.injEq] at hp
      subst hp
      refine ⟨by rw [hr.live_new_wrapper hv]; rfl, ?_⟩
      intro s' hs'
      by_contra hne
      rw [hr.slot_other hne] at hs'
      exact (Valid.ne_fresh hv hs').1 rfl
  · rw [hr.slot_other hs] at hp
    refine ⟨by rw [hr.live_other hv hs hp]; exact (hv s p hp).1, ?_⟩
    intro s' hs'
    by_cases hs0 : s' = s0
    · subst hs0
      rw [hr.slot_self] at hs'
      cases obj with
      | none => simp at hs'
      | some w =>
        simp only [Option.map_some', Option.some.injEq] at hs'
        exact absurd hs'.symm (Valid.ne_fresh hv hp).1
    · rw [hr.slot_other hs0] at hs'
      exact (hv s p hp).2 s' hs'

theorem Registered.released_old {s0 : Slot} {obj : Option (Wrapper F)} {σ σ' : World F E}
    (hr : Registered s0 obj σ σ') (hv : σ.Valid) {old : Ptr} (ho : σ.iocc.slot s0 = some old) :
    σ'.heap.released old = 1 ∧ σ'.heap.live old = none ∧ ∀ s, σ'.iocc.slot s ≠ some old := by
  have hlive := (hv s0 old ho).1
  have hne := Valid.ne_fresh hv ho
  have hrel := Heap.released_of_live σ.heap old hlive
  refine ⟨?_, ?_, ?_⟩
  · rw [hr.heap, Heap.released_delete, ho]
    simp only [Option.getD_some, true_and]
    cases obj with
    | none => simp [hrel.1, hrel.2]
    | some w =>
      simp only
      have hne' : ¬ old = (σ.heap.new w).1 := hne.1
      rw [Heap.released_new, Heap.cell_new, if_neg hne']
      simp [hrel.1, hrel.2]
  · rw [hr.live_eq, ho]; simp
  · intro s hs
    have hv' := hr.valid hv
    have := (hv' s old hs).1
    rw [hr.live_eq, ho] at this
    simp at this

theorem Valid_Store {σ : World F E} (hv : σ.Valid) (T : CppType) (inst : SharedPtr) :
    (Store T inst σ).Valid := (Store_registered T inst σ).valid hv

theorem Valid_StoreNamed {σ : World F E} (hv : σ.Valid) (T : CppType) (name : String)
    (inst : SharedPtr) : (StoreNamed T name inst σ).Valid :=
  (StoreNamed_registered T name inst σ).valid hv

theorem Valid_RegisterInstantiator {σ : World F E} (hv : σ.Valid) (sig : Signature) (f : F) :
    (RegisterInstantiator sig f σ).Valid := (RegisterInstantiator_registered sig f σ).valid hv

theorem Valid_RegisterInstantiatorNamed {σ : World F E} (hv : σ.Valid) (sig : Signature)
    (name : String) (f : F) : (RegisterInstantiatorNamed sig name f σ).Valid :=
  (RegisterInstantiatorNamed_registered sig name f σ).valid hv

end validlemmas

/-! ## Evaluating the lookups -/

section lookuplemmas
variable {F V E : Type}

theorem instanceObject_of_ne_zero {h : SharedPtr} (hh : h ≠ 0) :
    instanceObject F h = some (.SharedPtrWapper h) := by
  simp [instanceObject, hh]

theorem instanceObject_zero : instanceObject F 0 = none := by
  simp [instanceObject]

theorem ResolveInstance_hit {K : Type} [DecidableEq K] [Key K] (typeName : TypeIndex → String)
    (map : StdMap K Ptr) (heap : Heap F) (key : K) {w : Ptr} {q : SharedPtr}
    (hf : map.find key = some w) (hl : heap.live w = some (.SharedPtrWapper q)) :
    ResolveInstance typeName map heap key = .returned w ∧ heap.GetShared w = some q := by
  have hg : heap.GetShared w = some q := (Heap.GetShared_eq heap w q).2 hl
  simp [ResolveInstance, hf, hg]

theorem ResolveInstance_miss {K : Type} [DecidableEq K] [Key K] (typeName : TypeIndex → String)
    (map : StdMap K Ptr) (heap : Heap F) (key : K) (hf : map.find key = none) :
    ResolveInstance typeName map heap key =
      .raised (.ResolverException (Key.ToString typeName key)) := by
  simp [ResolveInstance, hf]

theorem ResolveInstance_raised_iff {K : Type} [DecidableEq K] [Key K]
    (typeName : TypeIndex → String) (map : StdMap K Ptr) (heap : Heap F) (key : K) :
    (∃ e, ResolveInstance typeName map heap key = .raised e) ↔ map.find key = none := by
  constructor
  · rintro ⟨e, he⟩
    cases hf : map.find key with
    | none => rfl
    | some w =>
      simp only [ResolveInstance, hf] at he
      cases hg : heap.GetShared w <;> simp [hg] at he
  · intro hf
    exact ⟨_, ResolveInstance_miss typeName map heap key hf⟩

theorem Instantiate_hit {K : Type} [DecidableEq K] [Key K] (invoke : Invoke F V E)
    (typeName : TypeIndex → String) (map : StdMap K Ptr) (key : K) (args : List (Arg V))
    (σ : World F E) {w : Ptr} {f : F} (hf : map.find key = some w)
    (hl : σ.heap.live w = some (.InstantiatorWrapper f)) :
    Instantiate invoke typeName map key args σ = invoke f args σ := by
  have hg : σ.heap.GetInstantiator w = some f := (Heap.GetInstantiator_eq σ.heap w f).2 hl
  simp [Instantiate, hf, hg]

theorem Instantiate_miss {K : Type} [DecidableEq K] [Key K] (invoke : Invoke F V E)
    (typeName : TypeIndex → String) (map : StdMap K Ptr) (key : K) (args : List (Arg V))
    (σ : World F E) (hf : map.find key = none) :
    Instantiate invoke typeName map key args σ =
      (.raised (.InstantiatorException (Key.ToString typeName key)), σ) := by
  simp [Instantiate, hf]

/-- Instantiate ends with its own InstantiatorException, whatever the stored
callables do, exactly when the key has no entry. -/
theorem Instantiate_own_error_iff {K : Type} [DecidableEq K] [Key K]
    (typeName : TypeIndex → String) (map : StdMap K Ptr) (key : K) (args : List (Arg V))
    (σ : World F E) :
    (∀ invoke : Invoke F V E, Instantiate invoke typeName map key args σ =
      (.raised (.InstantiatorException (Key.ToString typeName key)), σ)) ↔
    map.find key = none := by
  constructor
  · intro h
    cases hf : map.find key with
    | none => rfl
    | some w =>
      have := h (fun _ _ τ => (.returned 0, τ))
      simp only [Instantiate, hf] at this
      cases hg : σ.heap.GetInstantiator w <;> simp [hg] at this
  · intro hf invoke
    exact Instantiate_miss invoke typeName map key args σ hf

/-- After a registration of a wrapper object in a valid state the slot holds a
pointer to exactly that object, live. -/
theorem Registered.holds {s0 : Slot} {w : Wrapper F} {σ σ' : World F E}
    (hr : Registered s0 (some w) σ σ') (hv : σ.Valid) :
    σ'.iocc.slot s0 = some (σ.heap.cells.length + 1) ∧
      σ'.heap.live (σ.heap.cells.length + 1) = some w :=
  ⟨by rw [hr.slot_self]; rfl, hr.live_new_wrapper hv⟩

/-- A registration leaves what every other slot holds, and the object it
points to, as they were. -/
theorem Registered.frame {s0 : Slot} {obj : Option (Wrapper F)} {σ σ' : World F E}
    (hr : Registered s0 obj σ σ') (hv : σ.Valid) {s : Slot} (hs : s ≠ s0) {p : Ptr} {w : Wrapper F}
    (hp : σ.iocc.slot s = some p) (hl : σ.heap.live p = some w) :
    σ'.iocc.slot s = some p ∧ σ'.heap.live p = some w :=
  ⟨by rw [hr.slot_other hs]; exact hp, by rw [hr.live_other hv hs hp]; exact hl⟩

end lookuplemmas

/-! ## Sequences of registrations keep the invariant -/

theorem Registration.registered {F E : Type} (call : Registration F) (σ : World F E) :
    Registered call.slot call.object σ (call.apply σ) := by
  cases call with
  | Store T inst => exact Store_registered T inst σ
  | StoreNamed T name inst => exact StoreNamed_registered T name inst σ
  | RegisterInstantiator sig f => exact RegisterInstantiator_registered sig f σ
  | RegisterInstantiatorNamed sig name f => exact RegisterInstantiatorNamed_registered sig name f σ

theorem Valid_applyAll {F E : Type} (calls : List (Registration F)) {σ : World F E}
    (hv : σ.Valid) : (applyAll calls σ).Valid := by
  induction calls generalizing σ with
  | nil => exact hv
  | cons call calls ih => exact ih ((call.registered σ).valid hv)

theorem slot_applyAll_of_not_addressed {F E : Type} (calls : List (Registration F))
    (σ : World F E) (s : Slot) (hs : ∀ call ∈ calls, call.slot ≠ s) :
    (applyAll calls σ).iocc.slot s = σ.iocc.slot s := by
  induction calls generalizing σ with
  | nil => rfl
  | cons call calls ih =>
    have h1 := ih (call.apply σ) (fun c hc => hs c (List.mem_cons_of_mem _ hc))
    have h2 := (call.registered σ).slot_other (s := s)
      (fun h => hs call (List.mem_cons_self _ _) h.symm)
    exact h1.trans h2

/-! ## Sample states and two registrations at one slot -/

theorem sampleInstances_valid : sampleInstances.Valid :=
  Valid_StoreNamed (Valid_Store (Valid_init ()) _ _) _ _ _

theorem sampleFactories_valid : sampleFactories.Valid :=
  Valid_RegisterInstantiatorNamed
    (Valid_RegisterInstantiator (Valid_RegisterInstantiator (Valid_init []) _ _) _ _) _ _ _

/-- Two registrations of wrapper objects at one slot: the second wrapper is
held, the first is held nowhere and has been deleted once. -/
theorem Registered.twice {F E : Type} {s0 : Slot} {w1 w2 : Wrapper F} {σ σ1 σ2 : World F E}
    (hr1 : Registered s0 (some w1) σ σ1) (hr2 : Registered s0 (some w2) σ1 σ2)
    (hv : σ.Valid) :
    ∃ e1 e2, σ1.iocc.slot s0 = some e1 ∧ σ1.heap.live e1 = some w1 ∧
      σ1.heap.released e1 = 0 ∧ σ2.iocc.slot s0 = some e2 ∧ σ2.heap.live e2 = some w2 ∧
      e1 ≠ e2 ∧ (∀ s, σ2.iocc.slot s ≠ some e1) ∧ σ2.heap.released e1 = 1 := by
  have hv1 := hr1.valid hv
  obtain ⟨hs1, hl1⟩ := hr1.holds hv
  obtain ⟨hs2, hl2⟩ := hr2.holds hv1
  obtain ⟨b1, _, b3⟩ := hr2.released_old hv1 hs1
  refine ⟨_, _, hs1, hl1, ?_, hs2, hl2, (Valid.ne_fresh hv1 hs1).1, b3, b1⟩
  exact (Heap.released_of_live _ _ (by rw [hl1]; rfl)).1

/-- Two registrations of wrapper objects at different slots: both wrappers are
held afterwards, each by its slot. -/
theorem Registered.both {F E : Type} {s1 s2 : Slot} {w1 w2 : Wrapper F} {σ σ1 σ2 : World F E}
    (hne : s1 ≠ s2) (hr1 : Registered s1 (some w1) σ σ1) (hr2 : Registered s2 (some w2) σ1 σ2)
    (hv : σ.Valid) :
    ∃ e1 e2, e1 ≠ e2 ∧ σ2.iocc.slot s1 = some e1 ∧ σ2.heap.live e1 = some w1 ∧
      σ2.iocc.slot s2 = some e2 ∧ σ2.heap.live e2 = some w2 := by
  have hv1 := hr1.valid hv
  obtain ⟨hs1, hl1⟩ := hr1.holds hv
  obtain ⟨hs2, hl2⟩ := hr2.holds hv1
  obtain ⟨hs1', hl1'⟩ := hr2.frame hv1 hne hs1 hl1
  exact ⟨_, _, (Valid.ne_fresh hv1 hs1).1, hs1', hl1', hs2, hl2⟩

/-! ## The claims -/

/-- C1 (round trip). In a valid state, after Store<T>(h) with a non-null
handle h, Retrieve<T>() returns normally, and the handle read through the
reference it returns is h. -/
theorem C1_store_retrieve_round_trip {F E : Type} (typeName : TypeIndex → String) (T : CppType)
    (h : SharedPtr) (σ : World F E) (hv : σ.Valid) (hh : h ≠ 0) :
    ∃ ref, Retrieve typeName T (Store T h σ) = .returned ref ∧
      (Store T h σ).deref ref = some h := by
  have hr := Store_registered T h σ
  rw [instanceObject_of_ne_zero hh] at hr
  obtain ⟨hs, hl⟩ := hr.holds hv
  exact ⟨_, ResolveInstance_hit typeName _ _ _ hs hl⟩

/-- Witness of C1: storing handle 9 over the unnamed instance 7. -/
theorem C1_store_retrieve_round_trip_witness :
    sampleInstances.Valid ∧ (9 : SharedPtr) ≠ 0 ∧
    ∃ ref, Retrieve exampleName IDependency (Store IDependency 9 sampleInstances) =
        .returned ref ∧
      (Store IDependency 9 sampleInstances).deref ref = some 9 :=
  ⟨sampleInstances_valid, by decide,
    C1_store_retrieve_round_trip exampleName IDependency 9 sampleInstances
      sampleInstances_valid (by decide)⟩

/-- C2 (named isolation). In a valid state, for different names a and b and
non-null handles h1 and h2, after Store<T>(a, h1); Store<T>(b, h2) the call
Retrieve<T>(a) returns a reference to h1 and Retrieve<T>(b) one to h2; the
unnamed Retrieve<T>() has the outcome it had before the two stores, the
handle behind a reference it returns is the same as before, and it throws the
ResolverException when the unnamed map had no entry of T. -/
theorem C2_named_isolation {F E : Type} (typeName : TypeIndex → String) (T : CppType)
    (a b : String) (h1 h2 : SharedPtr) (σ : World F E) (hv : σ.Valid) (hab : a ≠ b)
    (hh1 : h1 ≠ 0) (hh2 : h2 ≠ 0) :
    (∃ r1, RetrieveNamed typeName T a (StoreNamed T b h2 (StoreNamed T a h1 σ)) = .returned r1 ∧
      (StoreNamed T b h2 (StoreNamed T a h1 σ)).deref r1 = some h1) ∧
    (∃ r2, RetrieveNamed typeName T b (StoreNamed T b h2 (StoreNamed T a h1 σ)) = .returned r2 ∧
      (StoreNamed T b h2 (StoreNamed T a h1 σ)).deref r2 = some h2) ∧
    Retrieve typeName T (StoreNamed T b h2 (StoreNamed T a h1 σ)) = Retrieve typeName T σ ∧
    (∀ r, Retrieve typeName T σ = .returned r →
      (StoreNamed T b h2 (StoreNamed T a h1 σ)).deref r = σ.deref r) ∧
    (σ.iocc.unnamedInstanceMap.find (typeid T) = none →
      Retrieve typeName T (StoreNamed T b h2 (StoreNamed T a h1 σ)) =
        .raised (.ResolverException (typeName (typeid T)))) := by
  have hr1 := StoreNamed_registered T a h1 σ
  rw [instanceObject_of_ne_zero hh1] at hr1
  have hv1 := hr1.valid hv
  have hr2 := StoreNamed_registered T b h2 (StoreNamed T a h1 σ)
  rw [instanceObject_of_ne_zero hh2] at hr2
  obtain ⟨hs1, hl1⟩ := hr1.holds hv
  obtain ⟨hs2, hl2⟩ := hr2.holds hv1
  have hne : Slot.namedInstance (typeid T, a) ≠ Slot.namedInstance (typeid T, b) := by
    intro h
    injection h with h
    exact hab (Prod.mk.inj h).2
  obtain ⟨hs1', hl1'⟩ := hr2.frame hv1 hne hs1 hl1
  have hmap : (StoreNamed T b h2 (StoreNamed T a h1 σ)).iocc.unnamedInstanceMap =
      σ.iocc.unnamedInstanceMap := rfl
  have hderef : ∀ r, σ.iocc.unnamedInstanceMap.find (typeid T) = some r →
      (StoreNamed T b h2 (StoreNamed T a h1 σ)).heap.live r = σ.heap.live r := by
    intro r hr
    have hsr : σ.iocc.slot (.unnamedInstance (typeid T)) = some r := hr
    have e1 := hr1.live_other hv (s := .unnamedInstance (typeid T)) (by simp) hsr
    have hsr1 : (StoreNamed T a h1 σ).iocc.slot (.unnamedInstance (typeid T)) = some r := hr
    have e2 := hr2.live_other hv1 (s := .unnamedInstance (typeid T)) (by simp) hsr1
    rw [e2, e1]
  refine ⟨⟨_, ResolveInstance_hit typeName _ _ _ hs1' hl1'⟩,
    ⟨_, ResolveInstance_hit typeName _ _ _ hs2 hl2⟩, ?_, ?_, ?_⟩
  · unfold Retrieve
    rw [hmap]
    unfold ResolveInstance
    cases hf : σ.iocc.unnamedInstanceMap.find (typeid T) with
    | none => rfl
    | some r => simp only [Heap.GetShared, hderef r hf]
  · intro r hr
    unfold Retrieve ResolveInstance at hr
    cases hf : σ.iocc.unnamedInstanceMap.find (typeid T) with
    | none => simp [hf] at hr
    | some w =>
      simp only [hf] at hr
      cases hg : σ.heap.GetShared w with
      | none => simp [hg] at hr
      | some q =>
        simp only [hg, Result.returned.injEq] at hr
        subst hr
        simp only [World.deref, Heap.GetShared, hderef w hf]
  · intro hf
    exact ResolveInstance_miss typeName _ _ _ (by rw [hmap]; exact hf)

/-- Witness of C2: names a and b over a container that already holds an
unnamed instance and an instance named a. -/
theorem C2_named_isolation_witness :
    sampleInstances.Valid ∧ "a" ≠ "b" ∧ (4 : SharedPtr) ≠ 0 ∧ (5 : SharedPtr) ≠ 0 ∧
    ((∃ r1, RetrieveNamed exampleName IDependency "a"
        (StoreNamed IDependency "b" 5 (StoreNamed IDependency "a" 4 sampleInstances)) =
          .returned r1 ∧
      (StoreNamed IDependency "b" 5 (StoreNamed IDependency "a" 4 sampleInstances)).deref r1 =
        some 4) ∧
    (∃ r2, RetrieveNamed exampleName IDependency "b"
        (StoreNamed IDependency "b" 5 (StoreNamed IDependency "a" 4 sampleInstances)) =
          .returned r2 ∧
      (StoreNamed IDependency "b" 5 (StoreNamed IDependency "a" 4 sampleInstances)).deref r2 =
        some 5) ∧
    Retrieve exampleName IDependency
        (StoreNamed IDependency "b" 5 (StoreNamed IDependency "a" 4 sampleInstances)) =
      Retrieve exampleName IDependency sampleInstances ∧
    (∀ r, Retrieve exampleName IDependency sampleInstances = .returned r →
      (StoreNamed IDependency "b" 5 (StoreNamed IDependency "a" 4 sampleInstances)).deref r =
        sampleInstances.deref r) ∧
    (sampleInstances.iocc.unnamedInstanceMap.find (typeid IDependency) = none →
      Retrieve exampleName IDependency
          (StoreNamed IDependency "b" 5 (StoreNamed IDependency "a" 4 sampleInstances)) =
        .raised (.ResolverException (exampleName (typeid IDependency))))) :=
  ⟨sampleInstances_valid, by decide, by decide, by decide,
    C2_named_isolation exampleName IDependency "a" "b" 4 5 sampleInstances
      sampleInstances_valid (by decide) (by decide) (by decide)⟩

/-- C3 (overwrite). In a valid state, for non-null handles h1 and h2, after
Store<T>(h1); Store<T>(h2) the call Retrieve<T>() returns a reference to h2;
the unnamed instance map has exactly one entry for T, the wrapper of h2; the
wrapper e1 that held h1 after the first store is held by no slot any more and
delete has run on it exactly once (and not at all before the second store).
The same holds for Store<T>(name, h1); Store<T>(name, h2) and the named
instance map. -/
theorem C3_overwrite {F E : Type} (typeName : TypeIndex → String) (T : CppType) (name : String)
    (h1 h2 : SharedPtr) (σ : World F E) (hv : σ.Valid) (hh1 : h1 ≠ 0) (hh2 : h2 ≠ 0) :
    (∃ e1 e2,
      (Store T h1 σ).iocc.unnamedInstanceMap.find (typeid T) = some e1 ∧
      (Store T h1 σ).deref e1 = some h1 ∧
      (Store T h1 σ).heap.released e1 = 0 ∧
      Retrieve typeName T (Store T h2 (Store T h1 σ)) = .returned e2 ∧
      (Store T h2 (Store T h1 σ)).deref e2 = some h2 ∧
      (Store T h2 (Store T h1 σ)).iocc.unnamedInstanceMap.count (typeid T) = 1 ∧
      (Store T h2 (Store T h1 σ)).iocc.unnamedInstanceMap.find (typeid T) = some e2 ∧
      e1 ≠ e2 ∧
      (∀ s, (Store T h2 (Store T h1 σ)).iocc.slot s ≠ some e1) ∧
      (Store T h2 (Store T h1 σ)).heap.released e1 = 1) ∧
    (∃ e1 e2,
      (StoreNamed T name h1 σ).iocc.namedInstanceMap.find (typeid T, name) = some e1 ∧
      (StoreNamed T name h1 σ).deref e1 = some h1 ∧
      (StoreNamed T name h1 σ).heap.released e1 = 0 ∧
      RetrieveNamed typeName T name (StoreNamed T name h2 (StoreNamed T name h1 σ)) =
        .returned e2 ∧
      (StoreNamed T name h2 (StoreNamed T name h1 σ)).deref e2 = some h2 ∧
      (StoreNamed T name h2 (StoreNamed T name h1 σ)).iocc.namedInstanceMap.count
        (typeid T, name) = 1 ∧
      (StoreNamed T name h2 (StoreNamed T name h1 σ)).iocc.namedInstanceMap.find
        (typeid T, name) = some e2 ∧
      e1 ≠ e2 ∧
      (∀ s, (StoreNamed T name h2 (StoreNamed T name h1 σ)).iocc.slot s ≠ some e1) ∧
      (StoreNamed T name h2 (StoreNamed T name h1 σ)).heap.released e1 = 1) := by
  constructor
  · have hr1 := Store_registered T h1 σ
    rw [instanceObject_of_ne_zero hh1] at hr1
    have hr2 := Store_registered T h2 (Store T h1 σ)
    rw [instanceObject_of_ne_zero hh2] at hr2
    obtain ⟨e1, e2, a1, a2, a3, a4, a5, a6, a7, a8⟩ := Registered.twice hr1 hr2 hv
    refine ⟨e1, e2, a1, (Heap.GetShared_eq _ _ _).2 a2, a3,
      (ResolveInstance_hit typeName _ _ _ a4 a5).1, (Heap.GetShared_eq _ _ _).2 a5, ?_, a4, a6,
      a7, a8⟩
    rw [StdMap.count_eq]
    have : (Store T h2 (Store T h1 σ)).iocc.unnamedInstanceMap.find (typeid T) = some e2 := a4
    simp [this]
  · have hr1 := StoreNamed_registered T name h1 σ
    rw [instanceObject_of_ne_zero hh1] at hr1
    have hr2 := StoreNamed_registered T name h2 (StoreNamed T name h1 σ)
    rw [instanceObject_of_ne_zero hh2] at hr2
    obtain ⟨e1, e2, a1, a2, a3, a4, a5, a6, a7, a8⟩ := Registered.twice hr1 hr2 hv
    refine ⟨e1, e2, a1, (Heap.GetShared_eq _ _ _).2 a2, a3,
      (ResolveInstance_hit typeName _ _ _ a4 a5).1, (Heap.GetShared_eq _ _ _).2 a5, ?_, a4, a6,
      a7, a8⟩
    rw [StdMap.count_eq]
    have : (StoreNamed T name h2 (StoreNamed T name h1 σ)).iocc.namedInstanceMap.find
        (typeid T, name) = some e2 := a4
    simp [this]

/-- Witness of C3: handles 8 and 9 stored over the sample container, unnamed
and under the name a. -/
theorem C3_overwrite_witness :
    sampleInstances.Valid ∧ (8 : SharedPtr) ≠ 0 ∧ (9 : SharedPtr) ≠ 0 ∧
    Retrieve exampleName IDependency (Store IDependency 9 (Store IDependency 8 sampleInstances)) =
      .returned 4 ∧
    (Store IDependency 9 (Store IDependency 8 sampleInstances)).deref 4 = some 9 ∧
    (Store IDependency 9 (Store IDependency 8 sampleInstances)).heap.released 3 = 1 ∧
    ((∃ e1 e2,
      (Store IDependency 8 sampleInstances).iocc.unnamedInstanceMap.find (typeid IDependency) =
        some e1 ∧
      (Store IDependency 8 sampleInstances).deref e1 = some 8 ∧
      (Store IDependency 8 sampleInstances).heap.released e1 = 0 ∧
      Retrieve exampleName IDependency
        (Store IDependency 9 (Store IDependency 8 sampleInstances)) = .returned e2 ∧
      (Store IDependency 9 (Store IDependency 8 sampleInstances)).deref e2 = some 9 ∧
      (Store IDependency 9 (Store IDependency 8 sampleInstances)).iocc.unnamedInstanceMap.count
        (typeid IDependency) = 1 ∧
      (Store IDependency 9 (Store IDependency 8 sampleInstances)).iocc.unnamedInstanceMap.find
        (typeid IDependency) = some e2 ∧
      e1 ≠ e2 ∧
      (∀ s, (Store IDependency 9 (Store IDependency 8 sampleInstances)).iocc.slot s ≠ some e1) ∧
      (Store IDependency 9 (Store IDependency 8 sampleInstances)).heap.released e1 = 1) ∧
    (∃ e1 e2,
      (StoreNamed IDependency "a" 8 sampleInstances).iocc.namedInstanceMap.find
        (typeid IDependency, "a") = some e1 ∧
      (StoreNamed IDependency "a" 8 sampleInstances).deref e1 = some 8 ∧
      (StoreNamed IDependency "a" 8 sampleInstances).heap.released e1 = 0 ∧
      RetrieveNamed exampleName IDependency "a"
        (StoreNamed IDependency "a" 9 (StoreNamed IDependency "a" 8 sampleInstances)) =
          .returned e2 ∧
      (StoreNamed IDependency "a" 9 (StoreNamed IDependency "a" 8 sampleInstances)).deref e2 =
        some 9 ∧
      (StoreNamed IDependency "a" 9
        (StoreNamed IDependency "a" 8 sampleInstances)).iocc.namedInstanceMap.count
          (typeid IDependency, "a") = 1 ∧
      (StoreNamed IDependency "a" 9
        (StoreNamed IDependency "a" 8 sampleInstances)).iocc.namedInstanceMap.find
          (typeid IDependency, "a") = some e2 ∧
      e1 ≠ e2 ∧
      (∀ s, (StoreNamed IDependency "a" 9
        (StoreNamed IDependency "a" 8 sampleInstances)).iocc.slot s ≠ some e1) ∧
      (StoreNamed IDependency "a" 9
        (StoreNamed IDependency "a" 8 sampleInstances)).heap.released e1 = 1)) :=
  ⟨sampleInstances_valid, by decide, by decide, by decide, by decide, by decide,
    C3_overwrite exampleName IDependency "a" 8 9 sampleInstances sampleInstances_valid
      (by decide) (by decide)⟩

/-- C4 (deregistration). For a non-null handle h1, Store<T>(h1) leaves an
entry for T in the unnamed instance map; after the following Store<T>(nullptr)
the map has no entry for T and Retrieve<T>() throws the ResolverException.
Likewise for Store<T>(name, h1); Store<T>(name, nullptr); Retrieve<T>(name)
and the named instance map. -/
theorem C4_deregistration {F E : Type} (typeName : TypeIndex → String) (T : CppType)
    (name : String) (h1 : SharedPtr) (σ : World F E) (hh1 : h1 ≠ 0) :
    (((Store T h1 σ).iocc.unnamedInstanceMap.find (typeid T)).isSome = true ∧
      (Store T 0 (Store T h1 σ)).iocc.unnamedInstanceMap.find (typeid T) = none ∧
      (Store T 0 (Store T h1 σ)).iocc.unnamedInstanceMap.count (typeid T) = 0 ∧
      Retrieve typeName T (Store T 0 (Store T h1 σ)) =
        .raised (.ResolverException (typeName (typeid T)))) ∧
    (((StoreNamed T name h1 σ).iocc.namedInstanceMap.find (typeid T, name)).isSome = true ∧
      (StoreNamed T name 0 (StoreNamed T name h1 σ)).iocc.namedInstanceMap.find
        (typeid T, name) = none ∧
      (StoreNamed T name 0 (StoreNamed T name h1 σ)).iocc.namedInstanceMap.count
        (typeid T, name) = 0 ∧
      RetrieveNamed typeName T name (StoreNamed T name 0 (StoreNamed T name h1 σ)) =
        .raised (.ResolverException (typeName (typeid T) ++ " \"" ++ name ++ " \""))) := by
  constructor
  · have hr1 := (Store_registered T h1 σ).slot_self
    rw [instanceObject_of_ne_zero hh1] at hr1
    have hr2 := (Store_registered T 0 (Store T h1 σ)).slot_self
    rw [instanceObject_zero] at hr2
    have hnone : (Store T 0 (Store T h1 σ)).iocc.unnamedInstanceMap.find (typeid T) = none := hr2
    refine ⟨?_, hnone, ?_, ResolveInstance_miss typeName _ _ _ hnone⟩
    · have : (Store T h1 σ).iocc.unnamedInstanceMap.find (typeid T) = some _ := hr1
      rw [this]; rfl
    · rw [StdMap.count_eq, hnone]; rfl
  · have hr1 := (StoreNamed_registered T name h1 σ).slot_self
    rw [instanceObject_of_ne_zero hh1] at hr1
    have hr2 := (StoreNamed_registered T name 0 (StoreNamed T name h1 σ)).slot_self
    rw [instanceObject_zero] at hr2
    have hnone : (StoreNamed T name 0 (StoreNamed T name h1 σ)).iocc.namedInstanceMap.find
        (typeid T, name) = none := hr2
    refine ⟨?_, hnone, ?_, ResolveInstance_miss typeName _ _ _ hnone⟩
    · have : (StoreNamed T name h1 σ).iocc.namedInstanceMap.find (typeid T, name) = some _ := hr1
      rw [this]; rfl
    · rw [StdMap.count_eq, hnone]; rfl

/-- Witness of C4: handle 8 stored over the sample container and removed
again, unnamed and under the name a. -/
theorem C4_deregistration_witness :
    (8 : SharedPtr) ≠ 0 ∧
    (((Store IDependency 8 sampleInstances).iocc.unnamedInstanceMap.find
        (typeid IDependency)).isSome = true ∧
      (Store IDependency 0 (Store IDependency 8 sampleInstances)).iocc.unnamedInstanceMap.find
        (typeid IDependency) = none ∧
      (Store IDependency 0 (Store IDependency 8 sampleInstances)).iocc.unnamedInstanceMap.count
        (typeid IDependency) = 0 ∧
      Retrieve exampleName IDependency (Store IDependency 0 (Store IDependency 8 sampleInstances)) =
        .raised (.ResolverException (exampleName (typeid IDependency)))) ∧
    (((StoreNamed IDependency "a" 8 sampleInstances).iocc.namedInstanceMap.find
        (typeid IDependency, "a")).isSome = true ∧
      (StoreNamed IDependency "a" 0
        (StoreNamed IDependency "a" 8 sampleInstances)).iocc.namedInstanceMap.find
          (typeid IDependency, "a") = none ∧
      (StoreNamed IDependency "a" 0
        (StoreNamed IDependency "a" 8 sampleInstances)).iocc.namedInstanceMap.count
          (typeid IDependency, "a") = 0 ∧
      RetrieveNamed exampleName IDependency "a"
          (StoreNamed IDependency "a" 0 (StoreNamed IDependency "a" 8 sampleInstances)) =
        .raised (.ResolverException (exampleName (typeid IDependency) ++ " \"" ++ "a" ++ " \""))) :=
  ⟨by decide, C4_deregistration exampleName IDependency "a" 8 sampleInstances (by decide)⟩

/-- C5 (Retrieve fails exactly on a miss). Retrieve<T>() throws the
ResolverException exactly when the unnamed instance map has no entry at the
key of T, and it throws nothing else; the same for Retrieve<T>(n) and the
entry at (T, n) of the named instance map. On a hit whose wrapper holds the
handle q both return a reference to q. Both throw in every state reached from
the empty container by registering calls none of which addresses the slot. -/
theorem C5_retrieve_fails_iff_miss {F E : Type} (typeName : TypeIndex → String) (T : CppType)
    (n : String) (σ : World F E) :
    (Retrieve typeName T σ = .raised (.ResolverException (typeName (typeid T))) ↔
      σ.iocc.unnamedInstanceMap.find (typeid T) = none) ∧
    (∀ e, Retrieve typeName T σ = .raised e →
      σ.iocc.unnamedInstanceMap.find (typeid T) = none) ∧
    (RetrieveNamed typeName T n σ =
        .raised (.ResolverException (typeName (typeid T) ++ " \"" ++ n ++ " \"")) ↔
      σ.iocc.namedInstanceMap.find (typeid T, n) = none) ∧
    (∀ e, RetrieveNamed typeName T n σ = .raised e →
      σ.iocc.namedInstanceMap.find (typeid T, n) = none) ∧
    (∀ w q, σ.iocc.unnamedInstanceMap.find (typeid T) = some w → σ.heap.GetShared w = some q →
      Retrieve typeName T σ = .returned w ∧ σ.deref w = some q) ∧
    (∀ w q, σ.iocc.namedInstanceMap.find (typeid T, n) = some w → σ.heap.GetShared w = some q →
      RetrieveNamed typeName T n σ = .returned w ∧ σ.deref w = some q) ∧
    (∀ (app : E) (calls : List (Registration F)),
      (∀ call ∈ calls, call.slot ≠ .unnamedInstance (typeid T)) →
      Retrieve typeName T (applyAll calls (World.init app : World F E)) =
        .raised (.ResolverException (typeName (typeid T)))) ∧
    (∀ (app : E) (calls : List (Registration F)),
      (∀ call ∈ calls, call.slot ≠ .namedInstance (typeid T, n)) →
      RetrieveNamed typeName T n (applyAll calls (World.init app : World F E)) =
        .raised (.ResolverException (typeName (typeid T) ++ " \"" ++ n ++ " \""))) := by
  refine ⟨⟨?_, ?_⟩, ?_, ⟨?_, ?_⟩, ?_, ?_, ?_, ?_, ?_⟩
  · intro h
    exact (ResolveInstance_raised_iff typeName _ σ.heap _).1 ⟨_, h⟩
  · exact ResolveInstance_miss typeName _ _ _
  · intro e h
    exact (ResolveInstance_raised_iff typeName _ σ.heap _).1 ⟨_, h⟩
  · intro h
    exact (ResolveInstance_raised_iff typeName _ σ.heap _).1 ⟨_, h⟩
  · exact ResolveInstance_miss typeName _ _ _
  · intro e h
    exact (ResolveInstance_raised_iff typeName _ σ.heap _).1 ⟨_, h⟩
  · intro w q hf hg
    exact ResolveInstance_hit typeName _ _ _ hf ((Heap.GetShared_eq _ _ _).1 hg)
  · intro w q hf hg
    exact ResolveInstance_hit typeName _ _ _ hf ((Heap.GetShared_eq _ _ _).1 hg)
  · intro app calls hc
    exact ResolveInstance_miss typeName _ _ _
      ((slot_applyAll_of_not_addressed calls _ _ hc).trans rfl)
  · intro app calls hc
    exact ResolveInstance_miss typeName _ _ _
      ((slot_applyAll_of_not_addressed calls _ _ hc).trans rfl)

/-- C6 (New fails exactly on a signature miss). New<T>(args...) ends with the
InstantiatorException of its own lookup and an unchanged state, whatever the
registered callables do, exactly when the unnamed instantiator map has no
entry at the type index of std::function<shared_ptr<T>(Args...)>, Args the
types of the arguments; NewNamed<T>(n, args...) likewise for the named map and
the pair of that type index and n. After registering a factory for
shared<T>(A), the lookups of New<T>(), of New<T>(a, b) and of New<U>(a) with
U different from T find what they found before, so they throw when nothing
was registered under their own signature. -/
theorem C6_new_fails_iff_signature_miss {F V E : Type} (typeName : TypeIndex → String)
    (T U : CppType) (n : String) (args : List (Arg V)) (a b : Arg V) (f : F) (σ : World F E) :
    ((∀ invoke : Invoke F V E, New invoke typeName T args σ =
        (.raised (.InstantiatorException (typeName (InstantiatorType T (args.map Arg.type)))),
          σ)) ↔
      σ.iocc.unnamedInstantiatorMap.find (InstantiatorType T (args.map Arg.type)) = none) ∧
    ((∀ invoke : Invoke F V E, NewNamed invoke typeName T n args σ =
        (.raised (.InstantiatorException
          (typeName (InstantiatorType T (args.map Arg.type)) ++ " \"" ++ n ++ " \"")), σ)) ↔
      σ.iocc.namedInstantiatorMap.find (InstantiatorType T (args.map Arg.type), n) = none) ∧
    (∀ invoke : Invoke F V E,
      σ.iocc.unnamedInstantiatorMap.find (InstantiatorType T []) = none →
      New invoke typeName T [] (RegisterInstantiator ⟨.sharedPtr T, [a.type]⟩ f σ) =
        (.raised (.InstantiatorException (typeName (InstantiatorType T []))),
          RegisterInstantiator ⟨.sharedPtr T, [a.type]⟩ f σ)) ∧
    (∀ invoke : Invoke F V E,
      σ.iocc.unnamedInstantiatorMap.find (InstantiatorType T [a.type, b.type]) = none →
      New invoke typeName T [a, b] (RegisterInstantiator ⟨.sharedPtr T, [a.type]⟩ f σ) =
        (.raised (.InstantiatorException (typeName (InstantiatorType T [a.type, b.type]))),
          RegisterInstantiator ⟨.sharedPtr T, [a.type]⟩ f σ)) ∧
    (∀ invoke : Invoke F V E, U ≠ T →
      σ.iocc.unnamedInstantiatorMap.find (InstantiatorType U [a.type]) = none →
      New invoke typeName U [a] (RegisterInstantiator ⟨.sharedPtr T, [a.type]⟩ f σ) =
        (.raised (.InstantiatorException (typeName (InstantiatorType U [a.type]))),
          RegisterInstantiator ⟨.sharedPtr T, [a.type]⟩ f σ)) := by
  have hr := RegisterInstantiator_registered (E := E) ⟨.sharedPtr T, [a.type]⟩ f σ
  refine ⟨Instantiate_own_error_iff typeName _ _ args σ,
    Instantiate_own_error_iff typeName _ _ args σ, ?_, ?_, ?_⟩
  · intro invoke hf
    refine Instantiate_miss invoke typeName _ _ _ _ ?_
    have := hr.slot_other (s := .unnamedInstantiator (InstantiatorType T []))
      (by simp [InstantiatorType])
    exact this.trans hf
  · intro invoke hf
    refine Instantiate_miss invoke typeName _ _ _ _ ?_
    have := hr.slot_other (s := .unnamedInstantiator (InstantiatorType T [a.type, b.type]))
      (by simp [InstantiatorType])
    exact this.trans hf
  · intro invoke hU hf
    refine Instantiate_miss invoke typeName _ _ _ _ ?_
    have := hr.slot_other (s := .unnamedInstantiator (InstantiatorType U [a.type]))
      (by simp [InstantiatorType, hU])
    exact this.trans hf

/-- C7 (factory wiring without caching). When the unnamed instantiator map
holds, at the signature of the call, a live wrapper of the callable f, the
call New<T>(args) is one invocation of f on args in the state of the call: it
ends with the result and the state that invocation ends with. So when f
leaves the four maps as they are, they are the same after New; and when f
leaves maps and wrappers as they are, a second New<T>(args) is a second
invocation of f, in the state the first one left. -/
theorem C7_new_invokes_factory_each_call {F V E : Type} (invoke : Invoke F V E)
    (typeName : TypeIndex → String) (T : CppType) (args : List (Arg V)) (f : F) (w : Ptr)
    (σ : World F E)
    (hreg : σ.iocc.unnamedInstantiatorMap.find (InstantiatorType T (args.map Arg.type)) = some w)
    (hf : σ.heap.GetInstantiator w = some f) :
    New invoke typeName T args σ = invoke f args σ ∧
    ((invoke f args σ).2.iocc = σ.iocc → (New invoke typeName T args σ).2.iocc = σ.iocc) ∧
    ((invoke f args σ).2.iocc = σ.iocc → (invoke f args σ).2.heap = σ.heap →
      New invoke typeName T args (New invoke typeName T args σ).2 =
        invoke f args (invoke f args σ).2) := by
  have h1 : New invoke typeName T args σ = invoke f args σ :=
    Instantiate_hit invoke typeName _ _ args σ hreg ((Heap.GetInstantiator_eq _ _ _).1 hf)
  refine ⟨h1, fun h => by rw [h1]; exact h, ?_⟩
  intro hi hh
  rw [h1]
  refine Instantiate_hit invoke typeName _ _ args _ (w := w) ?_ ?_
  · rw [hi]; exact hreg
  · rw [hh]; exact (Heap.GetInstantiator_eq _ _ _).1 hf

/-- Witness of C7: New<IDependency>(20) in the container of the example, for
the factory that makes Dependency(i). One call makes one object, two calls
make two different objects, both with data 20. -/
theorem C7_new_invokes_factory_each_call_witness :
    sampleFactories.iocc.unnamedInstantiatorMap.find
      (InstantiatorType IDependency ([(⟨int, 20⟩ : Arg Int)].map Arg.type)) = some 2 ∧
    sampleFactories.heap.GetInstantiator 2 = some ExampleFactory.dependencyOf ∧
    (New exampleInvoke exampleName IDependency [⟨int, 20⟩] sampleFactories).1 = .returned 1 ∧
    (New exampleInvoke exampleName IDependency [⟨int, 20⟩] sampleFactories).2.app = [20] ∧
    (New exampleInvoke exampleName IDependency [⟨int, 20⟩]
      (New exampleInvoke exampleName IDependency [⟨int, 20⟩] sampleFactories).2).1 =
        .returned 2 ∧
    (New exampleInvoke exampleName IDependency [⟨int, 20⟩]
      (New exampleInvoke exampleName IDependency [⟨int, 20⟩] sampleFactories).2).2.app =
        [20, 20] ∧
    (New exampleInvoke exampleName IDependency [⟨int, 20⟩] sampleFactories =
        exampleInvoke .dependencyOf [⟨int, 20⟩] sampleFactories ∧
      ((exampleInvoke .dependencyOf [⟨int, 20⟩] sampleFactories).2.iocc = sampleFactories.iocc →
        (New exampleInvoke exampleName IDependency [⟨int, 20⟩] sampleFactories).2.iocc =
          sampleFactories.iocc) ∧
      ((exampleInvoke .dependencyOf [⟨int, 20⟩] sampleFactories).2.iocc = sampleFactories.iocc →
        (exampleInvoke .dependencyOf [⟨int, 20⟩] sampleFactories).2.heap = sampleFactories.heap →
        New exampleInvoke exampleName IDependency [⟨int, 20⟩]
            (New exampleInvoke exampleName IDependency [⟨int, 20⟩] sampleFactories).2 =
          exampleInvoke .dependencyOf [⟨int, 20⟩]
            (exampleInvoke .dependencyOf [⟨int, 20⟩] sampleFactories).2)) :=
  ⟨by decide, by decide, by decide, by decide, by decide, by decide,
    C7_new_invokes_factory_each_call exampleInvoke exampleName IDependency [⟨int, 20⟩]
      .dependencyOf 2 sampleFactories (by decide) (by decide)⟩

/-- C8 (signature disambiguation). In a valid state, registering the
factory f0 under shared<T>() and the factory f1 under shared<T>(A), both
unnamed and in either order, leaves two different entries in the unnamed
instantiator map, the wrapper of f0 and the wrapper of f1; New<T>() is then
an invocation of f0 and New<T>(a), for an argument a of type A, one of f1. -/
theorem C8_signature_disambiguation {F V E : Type} (invoke : Invoke F V E)
    (typeName : TypeIndex → String) (T A : CppType) (a : V) (f0 f1 : F) (σ : World F E)
    (hv : σ.Valid) :
    ∀ τ : World F E,
      τ = RegisterInstantiator ⟨.sharedPtr T, [A]⟩ f1
            (RegisterInstantiator ⟨.sharedPtr T, []⟩ f0 σ) ∨
      τ = RegisterInstantiator ⟨.sharedPtr T, []⟩ f0
            (RegisterInstantiator ⟨.sharedPtr T, [A]⟩ f1 σ) →
      (∃ w0 w1, w0 ≠ w1 ∧
        τ.iocc.unnamedInstantiatorMap.find (InstantiatorType T []) = some w0 ∧
        τ.heap.GetInstantiator w0 = some f0 ∧
        τ.iocc.unnamedInstantiatorMap.find (InstantiatorType T [A]) = some w1 ∧
        τ.heap.GetInstantiator w1 = some f1) ∧
      New invoke typeName T [] τ = invoke f0 [] τ ∧
      New invoke typeName T [⟨A, a⟩] τ = invoke f1 [⟨A, a⟩] τ := by
  have hne : Slot.unnamedInstantiator (.ofFunction ⟨.sharedPtr T, []⟩) ≠
      Slot.unnamedInstantiator (.ofFunction ⟨.sharedPtr T, [A]⟩) := by simp
  intro τ hτ
  rcases hτ with rfl | rfl
  · obtain ⟨e0, e1, hd, s0, l0, s1, l1⟩ := Registered.both hne
      (RegisterInstantiator_registered _ f0 σ) (RegisterInstantiator_registered _ f1 _) hv
    exact ⟨⟨e0, e1, hd, s0, (Heap.GetInstantiator_eq _ _ _).2 l0, s1,
        (Heap.GetInstantiator_eq _ _ _).2 l1⟩,
      Instantiate_hit invoke typeName _ _ _ _ s0 l0,
      Instantiate_hit invoke typeName _ _ _ _ s1 l1⟩
  · obtain ⟨e1, e0, hd, s1, l1, s0, l0⟩ := Registered.both hne.symm
      (RegisterInstantiator_registered _ f1 σ) (RegisterInstantiator_registered _ f0 _) hv
    exact ⟨⟨e0, e1, hd.symm, s0, (Heap.GetInstantiator_eq _ _ _).2 l0, s1,
        (Heap.GetInstantiator_eq _ _ _).2 l1⟩,
      Instantiate_hit invoke typeName _ _ _ _ s0 l0,
      Instantiate_hit invoke typeName _ _ _ _ s1 l1⟩

/-- Witness of C8: the factories of the example for shared<IDependency>()
and shared<IDependency>(int), registered in the order of the example over its
container, and New<IDependency>(5). -/
theorem C8_signature_disambiguation_witness :
    sampleFactories.Valid ∧
    (New exampleInvoke exampleName IDependency []
      (RegisterInstantiator ⟨.sharedPtr IDependency, [int]⟩ .dependencyOf
        (RegisterInstantiator ⟨.sharedPtr IDependency, []⟩ .dependency4 sampleFactories))).2.app =
      [4] ∧
    (New exampleInvoke exampleName IDependency [⟨int, 5⟩]
      (RegisterInstantiator ⟨.sharedPtr IDependency, [int]⟩ .dependencyOf
        (RegisterInstantiator ⟨.sharedPtr IDependency, []⟩ .dependency4 sampleFactories))).2.app =
      [5] ∧
    ((∃ w0 w1, w0 ≠ w1 ∧
        (RegisterInstantiator ⟨.sharedPtr IDependency, [int]⟩ .dependencyOf
          (RegisterInstantiator ⟨.sharedPtr IDependency, []⟩ .dependency4
            sampleFactories)).iocc.unnamedInstantiatorMap.find
              (InstantiatorType IDependency []) = some w0 ∧
        (RegisterInstantiator ⟨.sharedPtr IDependency, [int]⟩ .dependencyOf
          (RegisterInstantiator ⟨.sharedPtr IDependency, []⟩ .dependency4
            sampleFactories)).heap.GetInstantiator w0 = some .dependency4 ∧
        (RegisterInstantiator ⟨.sharedPtr IDependency, [int]⟩ .dependencyOf
          (RegisterInstantiator ⟨.sharedPtr IDependency, []⟩ .dependency4
            sampleFactories)).iocc.unnamedInstantiatorMap.find
              (InstantiatorType IDependency [int]) = some w1 ∧
        (RegisterInstantiator ⟨.sharedPtr IDependency, [int]⟩ .dependencyOf
          (RegisterInstantiator ⟨.sharedPtr IDependency, []⟩ .dependency4
            sampleFactories)).heap.GetInstantiator w1 = some .dependencyOf) ∧
      New exampleInvoke exampleName IDependency []
          (RegisterInstantiator ⟨.sharedPtr IDependency, [int]⟩ .dependencyOf
            (RegisterInstantiator ⟨.sharedPtr IDependency, []⟩ .dependency4 sampleFactories)) =
        exampleInvoke .dependency4 []
          (RegisterInstantiator ⟨.sharedPtr IDependency, [int]⟩ .dependencyOf
            (RegisterInstantiator ⟨.sharedPtr IDependency, []⟩ .dependency4 sampleFactories)) ∧
      New exampleInvoke exampleName IDependency [⟨int, 5⟩]
          (RegisterInstantiator ⟨.sharedPtr IDependency, [int]⟩ .dependencyOf
            (RegisterInstantiator ⟨.sharedPtr IDependency, []⟩ .dependency4 sampleFactories)) =
        exampleInvoke .dependencyOf [⟨int, 5⟩]
          (RegisterInstantiator ⟨.sharedPtr IDependency, [int]⟩ .dependencyOf
            (RegisterInstantiator ⟨.sharedPtr IDependency, []⟩ .dependency4 sampleFactories))) :=
  ⟨sampleFactories_valid, by decide, by decide,
    C8_signature_disambiguation exampleInvoke exampleName IDependency int 5 .dependency4
      .dependencyOf sampleFactories sampleFactories_valid _ (Or.inl rfl)⟩

/-- C9 (a named factory is independent of an unnamed one with the same
signature). In a valid state, after registering g unnamed and h under the
name n for the signature shared<T>(Args...), in either order, both maps hold
their wrapper, New<T>(args) is an invocation of g and NewNamed<T>(n, args)
one of h, and NewNamed<T>(m, args) throws the InstantiatorException for every
other name m under which the signature had no entry. -/
theorem C9_named_factory_independent {F V E : Type} (invoke : Invoke F V E)
    (typeName : TypeIndex → String) (T : CppType) (n : String) (args : List (Arg V)) (g h : F)
    (σ : World F E) (hv : σ.Valid) :
    ∀ τ : World F E,
      τ = RegisterInstantiatorNamed ⟨.sharedPtr T, args.map Arg.type⟩ n h
            (RegisterInstantiator ⟨.sharedPtr T, args.map Arg.type⟩ g σ) ∨
      τ = RegisterInstantiator ⟨.sharedPtr T, args.map Arg.type⟩ g
            (RegisterInstantiatorNamed ⟨.sharedPtr T, args.map Arg.type⟩ n h σ) →
      (∃ wg wh, wg ≠ wh ∧
        τ.iocc.unnamedInstantiatorMap.find (InstantiatorType T (args.map Arg.type)) = some wg ∧
        τ.heap.GetInstantiator wg = some g ∧
        τ.iocc.namedInstantiatorMap.find (InstantiatorType T (args.map Arg.type), n) = some wh ∧
        τ.heap.GetInstantiator wh = some h) ∧
      New invoke typeName T args τ = invoke g args τ ∧
      NewNamed invoke typeName T n args τ = invoke h args τ ∧
      (∀ m, m ≠ n →
        σ.iocc.namedInstantiatorMap.find (InstantiatorType T (args.map Arg.type), m) = none →
        NewNamed invoke typeName T m args τ =
          (.raised (.InstantiatorException
            (typeName (InstantiatorType T (args.map Arg.type)) ++ " \"" ++ m ++ " \"")), τ)) := by
  have hne : Slot.unnamedInstantiator (.ofFunction ⟨.sharedPtr T, args.map Arg.type⟩) ≠
      Slot.namedInstantiator (.ofFunction ⟨.sharedPtr T, args.map Arg.type⟩, n) := by simp
  have hm : ∀ m, m ≠ n →
      Slot.namedInstantiator (InstantiatorType T (args.map Arg.type), m) ≠
        Slot.namedInstantiator (.ofFunction ⟨.sharedPtr T, args.map Arg.type⟩, n) := by
    intro m hmn hs
    injection hs with hs
    exact hmn (Prod.mk.inj hs).2
  have hu : ∀ m, Slot.namedInstantiator (InstantiatorType T (args.map Arg.type), m) ≠
      Slot.unnamedInstantiator (.ofFunction ⟨.sharedPtr T, args.map Arg.type⟩) := by
    intro m; simp
  intro τ hτ
  rcases hτ with rfl | rfl
  · have hr1 := RegisterInstantiator_registered (E := E) ⟨.sharedPtr T, args.map Arg.type⟩ g σ
    have hr2 := RegisterInstantiatorNamed_registered ⟨.sharedPtr T, args.map Arg.type⟩ n h
      (RegisterInstantiator ⟨.sharedPtr T, args.map Arg.type⟩ g σ)
    obtain ⟨eg, eh, hd, sg, lg, sh, lh⟩ := Registered.both hne hr1 hr2 hv
    refine ⟨⟨eg, eh, hd, sg, (Heap.GetInstantiator_eq _ _ _).2 lg, sh,
        (Heap.GetInstantiator_eq _ _ _).2 lh⟩,
      Instantiate_hit invoke typeName _ _ _ _ sg lg,
      Instantiate_hit invoke typeName _ _ _ _ sh lh, ?_⟩
    intro m hmn hf
    refine Instantiate_miss invoke typeName _ _ _ _ ?_
    exact ((hr2.slot_other (hm m hmn)).trans (hr1.slot_other (hu m))).trans hf
  · have hr1 := RegisterInstantiatorNamed_registered (E := E)
      ⟨.sharedPtr T, args.map Arg.type⟩ n h σ
    have hr2 := RegisterInstantiator_registered ⟨.sharedPtr T, args.map Arg.type⟩ g
      (RegisterInstantiatorNamed ⟨.sharedPtr T, args.map Arg.type⟩ n h σ)
    obtain ⟨eh, eg, hd, sh, lh, sg, lg⟩ := Registered.both hne.symm hr1 hr2 hv
    refine ⟨⟨eg, eh, hd.symm, sg, (Heap.GetInstantiator_eq _ _ _).2 lg, sh,
        (Heap.GetInstantiator_eq _ _ _).2 lh⟩,
      Instantiate_hit invoke typeName _ _ _ _ sg lg,
      Instantiate_hit invoke typeName _ _ _ _ sh lh, ?_⟩
    intro m hmn hf
    refine Instantiate_miss invoke typeName _ _ _ _ ?_
    exact ((hr2.slot_other (hu m)).trans (hr1.slot_other (hm m hmn))).trans hf

/-- Witness of C9: the unnamed and the add1-named factory of the example for
shared<IDependency>(int), registered over its container, called with 20. -/
theorem C9_named_factory_independent_witness :
    sampleFactories.Valid ∧
    (New exampleInvoke exampleName IDependency [⟨int, 20⟩]
      (RegisterInstantiatorNamed
        ⟨.sharedPtr IDependency, [(⟨int, 20⟩ : Arg Int)].map Arg.type⟩ "add1" .dependencyAdd1
        (RegisterInstantiator
          ⟨.sharedPtr IDependency, [(⟨int, 20⟩ : Arg Int)].map Arg.type⟩ .dependencyOf
          sampleFactories))).2.app = [20] ∧
    (NewNamed exampleInvoke exampleName IDependency "add1" [⟨int, 20⟩]
      (RegisterInstantiatorNamed
        ⟨.sharedPtr IDependency, [(⟨int, 20⟩ : Arg Int)].map Arg.type⟩ "add1" .dependencyAdd1
        (RegisterInstantiator
          ⟨.sharedPtr IDependency, [(⟨int, 20⟩ : Arg Int)].map Arg.type⟩ .dependencyOf
          sampleFactories))).2.app = [21] ∧
    (NewNamed exampleInvoke exampleName IDependency "add2" [⟨int, 20⟩]
      (RegisterInstantiatorNamed
        ⟨.sharedPtr IDependency, [(⟨int, 20⟩ : Arg Int)].map Arg.type⟩ "add1" .dependencyAdd1
        (RegisterInstantiator
          ⟨.sharedPtr IDependency, [(⟨int, 20⟩ : Arg Int)].map Arg.type⟩ .dependencyOf
          sampleFactories))).1 = .raised (.InstantiatorException "T \"add2 \"") ∧
    (New exampleInvoke exampleName IDependency [⟨int, 20⟩]
        (RegisterInstantiatorNamed
          ⟨.sharedPtr IDependency, [(⟨int, 20⟩ : Arg Int)].map Arg.type⟩ "add1" .dependencyAdd1
          (RegisterInstantiator
            ⟨.sharedPtr IDependency, [(⟨int, 20⟩ : Arg Int)].map Arg.type⟩ .dependencyOf
            sampleFactories)) =
      exampleInvoke .dependencyOf [⟨int, 20⟩]
        (RegisterInstantiatorNamed
          ⟨.sharedPtr IDependency, [(⟨int, 20⟩ : Arg Int)].map Arg.type⟩ "add1" .dependencyAdd1
          (RegisterInstantiator
            ⟨.sharedPtr IDependency, [(⟨int, 20⟩ : Arg Int)].map Arg.type⟩ .dependencyOf
            sampleFactories))) ∧
    (NewNamed exampleInvoke exampleName IDependency "add1" [⟨int, 20⟩]
        (RegisterInstantiatorNamed
          ⟨.sharedPtr IDependency, [(⟨int, 20⟩ : Arg Int)].map Arg.type⟩ "add1" .dependencyAdd1
          (RegisterInstantiator
            ⟨.sharedPtr IDependency, [(⟨int, 20⟩ : Arg Int)].map Arg.type⟩ .dependencyOf
            sampleFactories)) =
      exampleInvoke .dependencyAdd1 [⟨int, 20⟩]
        (RegisterInstantiatorNamed
          ⟨.sharedPtr IDependency, [(⟨int, 20⟩ : Arg Int)].map Arg.type⟩ "add1" .dependencyAdd1
          (RegisterInstantiator
            ⟨.sharedPtr IDependency, [(⟨int, 20⟩ : Arg Int)].map Arg.type⟩ .dependencyOf
            sampleFactories))) :=
  ⟨sampleFactories_valid, by decide, by decide, by decide,
    (C9_named_factory_independent exampleInvoke exampleName IDependency "add1" [⟨int, 20⟩]
      .dependencyOf .dependencyAdd1 sampleFactories sampleFactories_valid _ (Or.inl rfl)).2.1,
    (C9_named_factory_independent exampleInvoke exampleName IDependency "add1" [⟨int, 20⟩]
      .dependencyOf .dependencyAdd1 sampleFactories sampleFactories_valid _ (Or.inl rfl)).2.2.1⟩

/-- C10 (registering a factory is an unconditional insert-or-replace). In a
valid state, after RegisterInstantiator<sig>(f) the unnamed instantiator map
has exactly one entry at the key of sig, a live wrapper of f; after
registering f and then f2 for shared<T>(Args...) the wrapper that held f is
held by no slot and New<T>(args) is an invocation of f2; and every slot of
the four maps that held an entry before a registration holds one after it.
The same for the overload with a name, the named instantiator map and
NewNamed. -/
theorem C10_register_instantiator_insert_or_replace {F V E : Type} (invoke : Invoke F V E)
    (typeName : TypeIndex → String) (sig : Signature) (T : CppType) (n : String)
    (args : List (Arg V)) (f f2 : F) (σ : World F E) (hv : σ.Valid) :
    ((RegisterInstantiator sig f σ).iocc.unnamedInstantiatorMap.count (.ofFunction sig) = 1 ∧
      (∃ w, (RegisterInstantiator sig f σ).iocc.unnamedInstantiatorMap.find (.ofFunction sig) =
          some w ∧
        (RegisterInstantiator sig f σ).heap.GetInstantiator w = some f) ∧
      (∃ w, (RegisterInstantiator ⟨.sharedPtr T, args.map Arg.type⟩ f σ).iocc.slot
          (.unnamedInstantiator (InstantiatorType T (args.map Arg.type))) = some w ∧
        ∀ s, (RegisterInstantiator ⟨.sharedPtr T, args.map Arg.type⟩ f2
          (RegisterInstantiator ⟨.sharedPtr T, args.map Arg.type⟩ f σ)).iocc.slot s ≠ some w) ∧
      New invoke typeName T args
          (RegisterInstantiator ⟨.sharedPtr T, args.map Arg.type⟩ f2
            (RegisterInstantiator ⟨.sharedPtr T, args.map Arg.type⟩ f σ)) =
        invoke f2 args
          (RegisterInstantiator ⟨.sharedPtr T, args.map Arg.type⟩ f2
            (RegisterInstantiator ⟨.sharedPtr T, args.map Arg.type⟩ f σ)) ∧
      (∀ s, (σ.iocc.slot s).isSome = true →
        ((RegisterInstantiator sig f σ).iocc.slot s).isSome = true)) ∧
    ((RegisterInstantiatorNamed sig n f σ).iocc.namedInstantiatorMap.count
        (.ofFunction sig, n) = 1 ∧
      (∃ w, (RegisterInstantiatorNamed sig n f σ).iocc.namedInstantiatorMap.find
          (.ofFunction sig, n) = some w ∧
        (RegisterInstantiatorNamed sig n f σ).heap.GetInstantiator w = some f) ∧
      (∃ w, (RegisterInstantiatorNamed ⟨.sharedPtr T, args.map Arg.type⟩ n f σ).iocc.slot
          (.namedInstantiator (InstantiatorType T (args.map Arg.type), n)) = some w ∧
        ∀ s, (RegisterInstantiatorNamed ⟨.sharedPtr T, args.map Arg.type⟩ n f2
          (RegisterInstantiatorNamed ⟨.sharedPtr T, args.map Arg.type⟩ n f σ)).iocc.slot s ≠
            some w) ∧
      NewNamed invoke typeName T n args
          (RegisterInstantiatorNamed ⟨.sharedPtr T, args.map Arg.type⟩ n f2
            (RegisterInstantiatorNamed ⟨.sharedPtr T, args.map Arg.type⟩ n f σ)) =
        invoke f2 args
          (RegisterInstantiatorNamed ⟨.sharedPtr T, args.map Arg.type⟩ n f2
            (RegisterInstantiatorNamed ⟨.sharedPtr T, args.map Arg.type⟩ n f σ)) ∧
      (∀ s, (σ.iocc.slot s).isSome = true →
        ((RegisterInstantiatorNamed sig n f σ).iocc.slot s).isSome = true)) := by
  constructor
  · have hr := RegisterInstantiator_registered (E := E) sig f σ
    obtain ⟨hs, hl⟩ := hr.holds hv
    have hfind : (RegisterInstantiator sig f σ).iocc.unnamedInstantiatorMap.find
        (.ofFunction sig) = some (σ.heap.cells.length + 1) := hs
    obtain ⟨e1, e2, a1, _, _, a4, a5, _, a7, _⟩ := Registered.twice
      (RegisterInstantiator_registered (E := E) ⟨.sharedPtr T, args.map Arg.type⟩ f σ)
      (RegisterInstantiator_registered ⟨.sharedPtr T, args.map Arg.type⟩ f2 _) hv
    refine ⟨?_, ⟨_, hfind, (Heap.GetInstantiator_eq _ _ _).2 hl⟩, ⟨e1, a1, a7⟩,
      Instantiate_hit invoke typeName _ _ _ _ a4 a5, ?_⟩
    · rw [StdMap.count_eq, hfind]; rfl
    · intro s hsome
      by_cases hs0 : s = .unnamedInstantiator (.ofFunction sig)
      · rw [hs0, hs]; rfl
      · rw [hr.slot_other hs0]; exact hsome
  · have hr := RegisterInstantiatorNamed_registered (E := E) sig n f σ
    obtain ⟨hs, hl⟩ := hr.holds hv
    have hfind : (RegisterInstantiatorNamed sig n f σ).iocc.namedInstantiatorMap.find
        (.ofFunction sig, n) = some (σ.heap.cells.length + 1) := hs
    obtain ⟨e1, e2, a1, _, _, a4, a5, _, a7, _⟩ := Registered.twice
      (RegisterInstantiatorNamed_registered (E := E) ⟨.sharedPtr T, args.map Arg.type⟩ n f σ)
      (RegisterInstantiatorNamed_registered ⟨.sharedPtr T, args.map Arg.type⟩ n f2 _) hv
    refine ⟨?_, ⟨_, hfind, (Heap.GetInstantiator_eq _ _ _).2 hl⟩, ⟨e1, a1, a7⟩,
      Instantiate_hit invoke typeName _ _ _ _ a4 a5, ?_⟩
    · rw [StdMap.count_eq, hfind]; rfl
    · intro s hsome
      by_cases hs0 : s = .namedInstantiator (.ofFunction sig, n)
      · rw [hs0, hs]; rfl
      · rw [hr.slot_other hs0]; exact hsome

/-- Witness of C10: the factory that makes Dependency(i+1) registered over
the one that makes Dependency(i), unnamed, in the container of the example;
New<IDependency>(20) then makes a Dependency with data 21. -/
theorem C10_register_instantiator_insert_or_replace_witness :
    sampleFactories.Valid ∧
    (New exampleInvoke exampleName IDependency [⟨int, 20⟩]
      (RegisterInstantiator ⟨.sharedPtr IDependency, [int]⟩ .dependencyAdd1
        (RegisterInstantiator ⟨.sharedPtr IDependency, [int]⟩ .dependencyOf
          sampleFactories))).2.app = [21] ∧
    (RegisterInstantiator ⟨.sharedPtr IDependency, [int]⟩ .dependencyAdd1
      sampleFactories).iocc.unnamedInstantiatorMap.entries.length = 2 ∧
    (RegisterInstantiator ⟨.sharedPtr IDependency, [int]⟩ .dependencyAdd1
      sampleFactories).iocc.unnamedInstantiatorMap.count
        (.ofFunction ⟨.sharedPtr IDependency, [int]⟩) = 1 ∧
    New exampleInvoke exampleName IDependency [⟨int, 20⟩]
        (RegisterInstantiator
          ⟨.sharedPtr IDependency, [(⟨int, 20⟩ : Arg Int)].map Arg.type⟩ .dependencyAdd1
          (RegisterInstantiator
            ⟨.sharedPtr IDependency, [(⟨int, 20⟩ : Arg Int)].map Arg.type⟩ .dependencyOf
            sampleFactories)) =
      exampleInvoke .dependencyAdd1 [⟨int, 20⟩]
        (RegisterInstantiator
          ⟨.sharedPtr IDependency, [(⟨int, 20⟩ : Arg Int)].map Arg.type⟩ .dependencyAdd1
          (RegisterInstantiator
            ⟨.sharedPtr IDependency, [(⟨int, 20⟩ : Arg Int)].map Arg.type⟩ .dependencyOf
            sampleFactories)) :=
  ⟨sampleFactories_valid, by decide, by decide, by decide,
    (C10_register_instantiator_insert_or_replace exampleInvoke exampleName
      ⟨.sharedPtr IDependency, [int]⟩ IDependency "add1" [⟨int, 20⟩] .dependencyOf
      .dependencyAdd1 sampleFactories sampleFactories_valid).1.2.2.2.1⟩

/-! ## Frame lemmas for the lookups -/

theorem ResolveInstance_congr {F K : Type} [DecidableEq K] [Key K] (typeName : TypeIndex → String)
    (map map' : StdMap K Ptr) (heap heap' : Heap F) (key : K)
    (hf : map'.find key = map.find key)
    (hl : ∀ w, map.find key = some w → heap'.live w = heap.live w) :
    ResolveInstance typeName map' heap' key = ResolveInstance typeName map heap key := by
  unfold ResolveInstance
  rw [hf]
  cases hk : map.find key with
  | none => rfl
  | some w => simp only [Heap.GetShared, hl w hk]

theorem ResolveInstance_returned {F K : Type} [DecidableEq K] [Key K]
    (typeName : TypeIndex → String) (map : StdMap K Ptr) (heap : Heap F) (key : K) (r : Ptr)
    (h : ResolveInstance typeName map heap key = .returned r) :
    map.find key = some r ∧ ∃ q, heap.live r = some (.SharedPtrWapper q) := by
  unfold ResolveInstance at h
  cases hf : map.find key with
  | none => simp [hf] at h
  | some w =>
    simp only [hf] at h
    cases hg : heap.GetShared w with
    | none => simp [hg] at h
    | some q =>
      simp only [hg, Result.returned.injEq] at h
      subst h
      exact ⟨rfl, q, (Heap.GetShared_eq _ _ _).1 hg⟩

theorem Instantiate_congr {F V E K : Type} [DecidableEq K] [Key K] (invoke : Invoke F V E)
    (typeName : TypeIndex → String) (map map' : StdMap K Ptr) (key : K) (args : List (Arg V))
    (σ σ' : World F E) (hf : map'.find key = map.find key)
    (hl : ∀ w, map.find key = some w → σ'.heap.live w = σ.heap.live w) :
    (∀ w f, map.find key = some w → σ.heap.GetInstantiator w = some f →
      Instantiate invoke typeName map' key args σ' = invoke f args σ') ∧
    (map.find key = none → Instantiate invoke typeName map' key args σ' =
      (.raised (.InstantiatorException (Key.ToString typeName key)), σ')) := by
  constructor
  · intro w f hw hg
    refine Instantiate_hit invoke typeName map' key args σ' (hf.trans hw) ?_
    rw [hl w hw]
    exact (Heap.GetInstantiator_eq _ _ _).1 hg
  · intro hn
    exact Instantiate_miss invoke typeName map' key args σ' (hf.trans hn)

/-- C11 (error descriptions). On a miss, the message of Retrieve<T>() is
exactly the name of typeid(T) and the message of New<T>(args...) exactly the
name of the type index of the factory signature; the message of a named
lookup is that type name, a blank, a double quote, the name n, a blank and a
double quote, so it starts with the type name and contains n. The name is
not put between the double quotes as it is: Retrieve<IDependency>("nine") on
the empty container throws with the message T "nine ", in which the text
"nine" with its two double quotes does not occur. -/
theorem C11_named_message_has_blank_before_closing_quote {F V E : Type}
    (typeName : TypeIndex → String) (T : CppType) (n : String) (args : List (Arg V))
    (σ : World F E) :
    (σ.iocc.unnamedInstanceMap.find (typeid T) = none →
      Retrieve typeName T σ = .raised (.ResolverException (typeName (typeid T)))) ∧
    (∀ invoke : Invoke F V E,
      σ.iocc.unnamedInstantiatorMap.find (InstantiatorType T (args.map Arg.type)) = none →
      (New invoke typeName T args σ).1 =
        .raised (.InstantiatorException (typeName (InstantiatorType T (args.map Arg.type))))) ∧
    (σ.iocc.namedInstanceMap.find (typeid T, n) = none →
      RetrieveNamed typeName T n σ =
        .raised (.ResolverException (typeName (typeid T) ++ " \"" ++ n ++ " \""))) ∧
    (∀ invoke : Invoke F V E,
      σ.iocc.namedInstantiatorMap.find (InstantiatorType T (args.map Arg.type), n) = none →
      (NewNamed invoke typeName T n args σ).1 =
        .raised (.InstantiatorException
          (typeName (InstantiatorType T (args.map Arg.type)) ++ " \"" ++ n ++ " \""))) ∧
    (typeName (typeid T)).toList <+: (typeName (typeid T) ++ " \"" ++ n ++ " \"").toList ∧
    n.toList <:+: (typeName (typeid T) ++ " \"" ++ n ++ " \"").toList ∧
    RetrieveNamed exampleName IDependency "nine" (World.init () : World Unit Unit) =
      .raised (.ResolverException "T \"nine \"") ∧
    ¬ "\"nine\"".toList <:+: "T \"nine \"".toList := by
  refine ⟨ResolveInstance_miss typeName _ _ _, ?_, ResolveInstance_miss typeName _ _ _, ?_,
    ?_, ?_, by decide, by decide⟩
  · intro invoke hf
    exact congrArg Prod.fst (Instantiate_miss invoke typeName _ _ args σ hf)
  · intro invoke hf
    exact congrArg Prod.fst (Instantiate_miss invoke typeName _ _ args σ hf)
  · simp only [String.toList, String.data_append, List.append_assoc]
    exact List.prefix_append _ _
  · simp only [String.toList, String.data_append]
    exact ⟨(typeName (typeid T)).data ++ " \"".data, " \"".data, rfl⟩

/-! ## What a registration deletes -/

theorem released_delete_held {F : Type} (h0 h1 : Heap F) (o : Option Ptr) (p : Ptr)
    (hrel : ∀ q, h1.released q = h0.released q)
    (hcell : ∀ q, (h0.live q).isSome = true → (h1.cell q).isSome = true)
    (hzero : h1.cell 0 = none)
    (hlive : ∀ old, o = some old → (h0.live old).isSome = true) :
    (h1.delete (o.getD 0)).released p = if o = some p then 1 else h0.released p := by
  rw [Heap.released_delete, hrel]
  cases o with
  | none =>
    have : ¬ (p = 0 ∧ (h1.cell p).isSome = true) := by
      rintro ⟨rfl, h⟩
      rw [hzero] at h
      simp at h
    simp [this]
  | some old =>
    by_cases hp : p = old
    · subst hp
      have hl := hlive p rfl
      simp [hcell p hl, (Heap.released_of_live h0 p hl).1]
    · have h1' : ¬ old = p := fun h => hp h.symm
      simp [hp, h1']

theorem Registered.released_eq {F E : Type} {s0 : Slot} {obj : Option (Wrapper F)}
    {σ σ' : World F E} (hr : Registered s0 obj σ σ') (hv : σ.Valid) (p : Ptr) :
    σ'.heap.released p = if σ.iocc.slot s0 = some p then 1 else σ.heap.released p := by
  have hlive : ∀ old, σ.iocc.slot s0 = some old → (σ.heap.live old).isSome = true :=
    fun old ho => (hv s0 old ho).1
  rw [hr.heap]
  cases obj with
  | none =>
    exact released_delete_held σ.heap σ.heap _ p (fun _ => rfl)
      (fun q hq => (Heap.released_of_live _ _ hq).2) rfl hlive
  | some w =>
    refine released_delete_held σ.heap (σ.heap.new w).2 _ p (Heap.released_new _ _) ?_ rfl hlive
    intro q hq
    rw [Heap.cell_new]
    by_cases hn : q = (σ.heap.new w).1
    · simp [hn]
    · simp only [if_neg hn]
      exact (Heap.released_of_live _ _ hq).2

theorem Store_null_of_miss {F E : Type} (T : CppType) (σ : World F E)
    (hf : σ.iocc.unnamedInstanceMap.find (typeid T) = none) : Store T 0 σ = σ := by
  simp [Store, RegisterInstance__, Register__, hf]

theorem StoreNamed_null_of_miss {F E : Type} (T : CppType) (name : String) (σ : World F E)
    (hf : σ.iocc.namedInstanceMap.find (typeid T, name) = none) : StoreNamed T name 0 σ = σ := by
  simp [StoreNamed, RegisterInstance__, Register__, hf]

/-- C12 (registration never fails). Store and RegisterInstantiator, named or
unnamed, have no failing path: each is a total function from states to
states, and in a valid state the only delete it runs is on the live wrapper
its slot held, which ends deleted exactly once, so the state it leaves is
valid again. A call that brings a wrapper object leaves that object in its
slot, whether or not the slot held an entry; a null store at a key without
entry leaves the whole state, all four maps included, as it was. -/
theorem C12_registration_never_fails {F E : Type} (call : Registration F) (T : CppType)
    (n : String) (σ : World F E) (hv : σ.Valid) :
    (call.apply σ).Valid ∧
    (∀ p, (call.apply σ).heap.released p =
      if σ.iocc.slot call.slot = some p then 1 else σ.heap.released p) ∧
    (∀ w, call.object = some w →
      ∃ e, (call.apply σ).iocc.slot call.slot = some e ∧
        (call.apply σ).heap.live e = some w) ∧
    (σ.iocc.unnamedInstanceMap.find (typeid T) = none → Store T 0 σ = σ) ∧
    (σ.iocc.namedInstanceMap.find (typeid T, n) = none → StoreNamed T n 0 σ = σ) := by
  have hr := call.registered σ
  refine ⟨hr.valid hv, hr.released_eq hv, ?_, Store_null_of_miss T σ,
    StoreNamed_null_of_miss T n σ⟩
  intro w hw
  rw [hw] at hr
  exact ⟨_, hr.holds hv⟩

/-- Witness of C12: storing handle 9 over the unnamed instance of the sample
container deletes the old wrapper, number 1, once and leaves wrapper number 3
with handle 9 in the slot; a null store under the unused name b changes
nothing. -/
theorem C12_registration_never_fails_witness :
    sampleInstances.Valid ∧
    (Store IDependency 9 sampleInstances).heap.released 1 = 1 ∧
    (Store IDependency 9 sampleInstances).iocc.unnamedInstanceMap.find (typeid IDependency) =
      some 3 ∧
    (((Registration.Store IDependency 9 : Registration Unit).apply sampleInstances).Valid ∧
    (∀ p, ((Registration.Store IDependency 9 : Registration Unit).apply
        sampleInstances).heap.released p =
      if sampleInstances.iocc.slot (Registration.Store IDependency 9 : Registration Unit).slot =
        some p then 1 else sampleInstances.heap.released p) ∧
    (∀ w, (Registration.Store IDependency 9 : Registration Unit).object = some w →
      ∃ e, ((Registration.Store IDependency 9 : Registration Unit).apply
          sampleInstances).iocc.slot (Registration.Store IDependency 9 : Registration Unit).slot =
            some e ∧
        ((Registration.Store IDependency 9 : Registration Unit).apply
          sampleInstances).heap.live e = some w) ∧
    (sampleInstances.iocc.unnamedInstanceMap.find (typeid IDependency) = none →
      Store IDependency 0 sampleInstances = sampleInstances) ∧
    (sampleInstances.iocc.namedInstanceMap.find (typeid IDependency, "b") = none →
      StoreNamed IDependency "b" 0 sampleInstances = sampleInstances)) :=
  ⟨sampleInstances_valid, by decide, by decide,
    C12_registration_never_fails (Registration.Store IDependency 9) IDependency "b"
      sampleInstances sampleInstances_valid⟩

/-! ## Writing through a reference -/

theorem writeShared_getElem? {F : Type} (q : SharedPtr) (a b : Nat) (cs : List (Cell F)) :
    (writeShared q a cs)[b]? =
      if b = a then cs[b]?.map (fun c =>
        match c.object with
        | .SharedPtrWapper _ => ⟨.SharedPtrWapper q, c.deleted⟩
        | .InstantiatorWrapper _ => c)
      else cs[b]? := by
  induction cs generalizing a b with
  | nil => simp [writeShared]
  | cons c cs ih =>
    cases a with
    | zero =>
      cases b with
      | zero =>
        obtain ⟨o, d⟩ := c
        cases o <;> simp [writeShared]
      | succ b => simp [writeShared]
    | succ a =>
      cases b with
      | zero => simp [writeShared]
      | succ b => simp [writeShared, ih]

theorem Heap.live_assignShared {F : Type} (h : Heap F) (p r : Ptr) (q : SharedPtr) :
    (h.assignShared p q).live r =
      if r = p then
        (match h.live p with
          | some (.SharedPtrWapper _) => some (.SharedPtrWapper q)
          | other => other)
      else h.live r := by
  cases p with
  | zero =>
    by_cases hr : r = 0
    · subst hr; rfl
    · simp [Heap.assignShared, hr]
  | succ a =>
    cases r with
    | zero => simp [Heap.assignShared, Heap.live, Heap.cell]
    | succ b =>
      simp only [Heap.assignShared, Heap.live, Heap.cell, writeShared_getElem?,
        Nat.add_right_cancel_iff]
      by_cases hb : b = a
      · subst hb
        simp only [if_true]
        cases hc : h.cells[b]? with
        | none => rfl
        | some c =>
          obtain ⟨o, d⟩ := c
          cases o <;> by_cases hd : d = 0 <;> simp [hd]
      · simp [hb]

/-- C15 (Retrieve returns a reference, not a copy). When Retrieve<T>() returns
the reference ref, assigning any handle h2 through ref leaves the four maps as
they are and makes the next Retrieve<T>() return the same reference, now to
h2; for the null handle too, so that Retrieve then returns a reference to the
null handle and does not throw. The same for Retrieve<T>(n). Retrieve itself
is a function of the state that yields no new state: a body that retrieves
twice in a row gets the same handle twice. In the sample container
the unnamed instance 7 is behind reference 1, and after the null handle is
assigned through it Retrieve still returns reference 1, to the null handle. -/
theorem C15_retrieve_returns_reference {F E : Type} (typeName : TypeIndex → String)
    (T : CppType) (n : String) (h2 : SharedPtr) (σ : World F E) :
    (∀ ref, Retrieve typeName T σ = .returned ref →
      (σ.assignThrough ref h2).iocc = σ.iocc ∧
      Retrieve typeName T (σ.assignThrough ref h2) = .returned ref ∧
      (σ.assignThrough ref h2).deref ref = some h2) ∧
    (∀ ref, RetrieveNamed typeName T n σ = .returned ref →
      (σ.assignThrough ref h2).iocc = σ.iocc ∧
      RetrieveNamed typeName T n (σ.assignThrough ref h2) = .returned ref ∧
      (σ.assignThrough ref h2).deref ref = some h2) ∧
    (∀ ref, Retrieve typeName T σ = .returned ref →
      Retrieve typeName T (σ.assignThrough ref 0) = .returned ref ∧
      (σ.assignThrough ref 0).deref ref = some 0) ∧
    (∀ (callee : Callee F Unit E) (self : Ptr) (next : SharedPtr → SharedPtr → Body F Unit E)
        ref d, σ.heap.alive self = true → Retrieve typeName T σ = .returned ref →
      σ.deref ref = some d →
      execBody callee typeName self
          (.Retrieve T fun d1 => .Retrieve T fun d2 => next d1 d2) σ =
        execBody callee typeName self (next d d) σ) ∧
    Retrieve exampleName IDependency sampleInstances = .returned 1 ∧
    sampleInstances.deref 1 = some 7 ∧
    Retrieve exampleName IDependency (sampleInstances.assignThrough 1 0) = .returned 1 ∧
    (sampleInstances.assignThrough 1 0).deref 1 = some 0 := by
  have key : ∀ {K : Type} [DecidableEq K] [Key K] (map : StdMap K Ptr) (k : K) (ref : Ptr)
      (q : SharedPtr), ResolveInstance typeName map σ.heap k = .returned ref →
      ResolveInstance typeName map (σ.heap.assignShared ref q) k = .returned ref ∧
        (σ.heap.assignShared ref q).GetShared ref = some q := by
    intro K _ _ map k ref q h
    obtain ⟨hf, q0, hl⟩ := ResolveInstance_returned typeName map σ.heap k ref h
    have hl' : (σ.heap.assignShared ref q).live ref = some (.SharedPtrWapper q) := by
      rw [Heap.live_assignShared, if_pos rfl, hl]
    exact ResolveInstance_hit typeName map _ k hf hl'
  refine ⟨fun ref h => ⟨rfl, key _ _ ref h2 h⟩, fun ref h => ⟨rfl, key _ _ ref h2 h⟩,
    fun ref h => key _ _ ref 0 h, ?_, by decide, by decide, by decide, by decide⟩
  intro callee self next ref d ha hr hd
  simp only [execBody, ha, if_true, hr, World.copy, hd, continueWith]

/-! ## A registration leaves the lookups at other slots as they were -/

theorem Registered.Retrieve_frame {F E : Type} {s0 : Slot} {obj : Option (Wrapper F)}
    {σ σ' : World F E} (hr : Registered s0 obj σ σ') (hv : σ.Valid)
    (typeName : TypeIndex → String) (T : CppType)
    (hs : Slot.unnamedInstance (typeid T) ≠ s0) :
    Retrieve typeName T σ' = Retrieve typeName T σ ∧
      ∀ r, Retrieve typeName T σ = .returned r → σ'.deref r = σ.deref r := by
  have hl : ∀ w, σ.iocc.unnamedInstanceMap.find (typeid T) = some w →
      σ'.heap.live w = σ.heap.live w := fun w hw => hr.live_other hv hs hw
  refine ⟨ResolveInstance_congr typeName _ _ _ _ _ (hr.slot_other hs) hl, ?_⟩
  intro r h
  obtain ⟨hf, _⟩ := ResolveInstance_returned typeName _ _ _ r h
  simp only [World.deref, Heap.GetShared, hl r hf]

theorem Registered.RetrieveNamed_frame {F E : Type} {s0 : Slot} {obj : Option (Wrapper F)}
    {σ σ' : World F E} (hr : Registered s0 obj σ σ') (hv : σ.Valid)
    (typeName : TypeIndex → String) (T : CppType) (n : String)
    (hs : Slot.namedInstance (typeid T, n) ≠ s0) :
    RetrieveNamed typeName T n σ' = RetrieveNamed typeName T n σ ∧
      ∀ r, RetrieveNamed typeName T n σ = .returned r → σ'.deref r = σ.deref r := by
  have hl : ∀ w, σ.iocc.namedInstanceMap.find (typeid T, n) = some w →
      σ'.heap.live w = σ.heap.live w := fun w hw => hr.live_other hv hs hw
  refine ⟨ResolveInstance_congr typeName _ _ _ _ _ (hr.slot_other hs) hl, ?_⟩
  intro r h
  obtain ⟨hf, _⟩ := ResolveInstance_returned typeName _ _ _ r h
  simp only [World.deref, Heap.GetShared, hl r hf]

/-- C17 (each registration touches exactly one slot). Two keys address the
same slot exactly when their type indexes, and for named keys their names,
are equal. In a valid state a registering call leaves every slot other than
its own holding what it held, with the wrapper it points to untouched, and
the three maps it is not addressed to are unchanged as maps. So
Store<T>(n, h) leaves Retrieve<U>(m) as it was unless U = T and m = n, a
registration under the empty name and the unnamed one do not meet, and after
Store<T>(h) the call New<T>(args) invokes the factory it found before, or
throws as before when there was none. -/
theorem C17_registration_touches_one_slot {F V E : Type} (invoke : Invoke F V E)
    (typeName : TypeIndex → String) (call : Registration F) (T U : CppType) (n m : String)
    (h : SharedPtr) (sig : Signature) (f : F) (args : List (Arg V)) (σ : World F E)
    (hv : σ.Valid) :
    ((typeid T = typeid U ↔ T = U) ∧
      (Slot.unnamedInstance (typeid T) = Slot.unnamedInstance (typeid U) ↔ T = U) ∧
      (Slot.namedInstance (typeid T, n) = Slot.namedInstance (typeid U, m) ↔ T = U ∧ n = m) ∧
      (∀ s1 s2 : Signature, Slot.unnamedInstantiator (.ofFunction s1) =
        Slot.unnamedInstantiator (.ofFunction s2) ↔ s1 = s2) ∧
      (∀ s1 s2 : Signature, Slot.namedInstantiator (.ofFunction s1, n) =
        Slot.namedInstantiator (.ofFunction s2, m) ↔ s1 = s2 ∧ n = m)) ∧
    (∀ s, s ≠ call.slot →
      (call.apply σ).iocc.slot s = σ.iocc.slot s ∧
      ∀ p, σ.iocc.slot s = some p → (call.apply σ).heap.live p = σ.heap.live p) ∧
    ((Store T h σ).iocc.namedInstanceMap = σ.iocc.namedInstanceMap ∧
      (Store T h σ).iocc.unnamedInstantiatorMap = σ.iocc.unnamedInstantiatorMap ∧
      (Store T h σ).iocc.namedInstantiatorMap = σ.iocc.namedInstantiatorMap) ∧
    ((StoreNamed T n h σ).iocc.unnamedInstanceMap = σ.iocc.unnamedInstanceMap ∧
      (StoreNamed T n h σ).iocc.unnamedInstantiatorMap = σ.iocc.unnamedInstantiatorMap ∧
      (StoreNamed T n h σ).iocc.namedInstantiatorMap = σ.iocc.namedInstantiatorMap) ∧
    ((RegisterInstantiator sig f σ).iocc.unnamedInstanceMap = σ.iocc.unnamedInstanceMap ∧
      (RegisterInstantiator sig f σ).iocc.namedInstanceMap = σ.iocc.namedInstanceMap ∧
      (RegisterInstantiator sig f σ).iocc.namedInstantiatorMap = σ.iocc.namedInstantiatorMap) ∧
    ((RegisterInstantiatorNamed sig n f σ).iocc.unnamedInstanceMap = σ.iocc.unnamedInstanceMap ∧
      (RegisterInstantiatorNamed sig n f σ).iocc.namedInstanceMap = σ.iocc.namedInstanceMap ∧
      (RegisterInstantiatorNamed sig n f σ).iocc.unnamedInstantiatorMap =
        σ.iocc.unnamedInstantiatorMap) ∧
    (¬ (U = T ∧ m = n) →
      RetrieveNamed typeName U m (StoreNamed T n h σ) = RetrieveNamed typeName U m σ ∧
      ∀ r, RetrieveNamed typeName U m σ = .returned r →
        (StoreNamed T n h σ).deref r = σ.deref r) ∧
    (Retrieve typeName T (StoreNamed T "" h σ) = Retrieve typeName T σ ∧
      ∀ r, Retrieve typeName T σ = .returned r → (StoreNamed T "" h σ).deref r = σ.deref r) ∧
    (RetrieveNamed typeName T "" (Store T h σ) = RetrieveNamed typeName T "" σ ∧
      ∀ r, RetrieveNamed typeName T "" σ = .returned r →
        (Store T h σ).deref r = σ.deref r) ∧
    (∀ w g, σ.iocc.unnamedInstantiatorMap.find (InstantiatorType T (args.map Arg.type)) =
        some w → σ.heap.GetInstantiator w = some g →
      New invoke typeName T args (Store T h σ) = invoke g args (Store T h σ)) ∧
    (σ.iocc.unnamedInstantiatorMap.find (InstantiatorType T (args.map Arg.type)) = none →
      New invoke typeName T args (Store T h σ) =
        (.raised (.InstantiatorException (typeName (InstantiatorType T (args.map Arg.type)))),
          Store T h σ)) := by
  have hS := Store_registered (E := E) (F := F) T h σ
  have hN := StoreNamed_registered (E := E) (F := F) T n h σ
  have hE := StoreNamed_registered (E := E) (F := F) T "" h σ
  have hnew := Instantiate_congr invoke typeName σ.iocc.unnamedInstantiatorMap
    (Store T h σ).iocc.unnamedInstantiatorMap (InstantiatorType T (args.map Arg.type)) args
    σ (Store T h σ) rfl
    (fun w hw => hS.live_other hv
      (s := .unnamedInstantiator (InstantiatorType T (args.map Arg.type))) (by simp) hw)
  refine ⟨⟨by simp [typeid], by simp [typeid], by simp [typeid], by simp, by simp⟩, ?_,
    ⟨rfl, rfl, rfl⟩, ⟨rfl, rfl, rfl⟩, ⟨rfl, rfl, rfl⟩, ⟨rfl, rfl, rfl⟩, ?_, ?_, ?_,
    hnew.1, hnew.2⟩
  · intro s hs
    have hr := call.registered σ
    exact ⟨hr.slot_other hs, fun p hp => hr.live_other hv hs hp⟩
  · intro hne
    refine hN.RetrieveNamed_frame hv typeName U m ?_
    intro hs
    injection hs with hs
    have h1 := (Prod.mk.inj hs).1
    have h2 := (Prod.mk.inj hs).2
    simp only [typeid, TypeIndex.ofType.injEq] at h1
    exact hne ⟨h1, h2⟩
  · exact hE.Retrieve_frame hv typeName T (by simp)
  · exact hS.RetrieveNamed_frame hv typeName T "" (by simp)

/-- Witness of C17: the sample container, with a store under the name b. The
instance named a, behind reference 2, is left as it was. -/
theorem C17_registration_touches_one_slot_witness :
    sampleInstances.Valid ∧
    RetrieveNamed exampleName IDependency "a" (StoreNamed IDependency "b" 5 sampleInstances) =
      .returned 2 ∧
    (StoreNamed IDependency "b" 5 sampleInstances).deref 2 = some 3 ∧
    (StoreNamed IDependency "b" 5 sampleInstances).iocc.unnamedInstanceMap =
      sampleInstances.iocc.unnamedInstanceMap ∧
    (¬ (IDependency = IDependency ∧ "a" = "b") →
      RetrieveNamed exampleName IDependency "a" (StoreNamed IDependency "b" 5 sampleInstances) =
        RetrieveNamed exampleName IDependency "a" sampleInstances ∧
      ∀ r, RetrieveNamed exampleName IDependency "a" sampleInstances = .returned r →
        (StoreNamed IDependency "b" 5 sampleInstances).deref r = sampleInstances.deref r) :=
  ⟨sampleInstances_valid, by decide, by decide,
    (C17_registration_touches_one_slot (fun (_ : Unit) (_ : List (Arg Unit)) τ => (.returned 0, τ))
      exampleName (Registration.StoreNamed IDependency "b" 5) IDependency IDependency "b" "a" 5
      ⟨.sharedPtr IDependency, []⟩ () [] sampleInstances sampleInstances_valid).2.2.2.1.1,
    (C17_registration_touches_one_slot (fun (_ : Unit) (_ : List (Arg Unit)) τ => (.returned 0, τ))
      exampleName (Registration.StoreNamed IDependency "b" 5) IDependency IDependency "b" "a" 5
      ⟨.sharedPtr IDependency, []⟩ () [] sampleInstances
      sampleInstances_valid).2.2.2.2.2.2.1⟩

/-! ## Invariants of the states reached by registering calls -/

section reachable
variable {F E : Type}

theorem Typed_init (app : E) : (World.init app : World F E).Typed := by
  intro s p h
  cases s <;> simp [World.init, IoCC.empty, IoCC.slot, StdMap.find_empty] at h

theorem Tidy_init (app : E) : (World.init app : World F E).Tidy := by
  intro p c h
  rw [show (World.init app : World F E).heap = Heap.empty from rfl, Heap.cell_empty] at h
  simp at h

theorem Registration.object_typed (call : Registration F) (w : Wrapper F)
    (hw : call.object = some w) :
    if call.slot.isInstance = true then ∃ q, q ≠ 0 ∧ w = .SharedPtrWapper q
    else ∃ f, w = .InstantiatorWrapper f := by
  cases call with
  | Store T inst =>
    simp only [Registration.object, instanceObject] at hw
    by_cases hi : inst ≠ 0
    · rw [if_pos hi] at hw
      exact ⟨inst, hi, (Option.some.inj hw).symm⟩
    · rw [if_neg hi] at hw; simp at hw
  | StoreNamed T name inst =>
    simp only [Registration.object, instanceObject] at hw
    by_cases hi : inst ≠ 0
    · rw [if_pos hi] at hw
      exact ⟨inst, hi, (Option.some.inj hw).symm⟩
    · rw [if_neg hi] at hw; simp at hw
  | RegisterInstantiator sig f =>
    exact ⟨f, (Option.some.inj hw).symm⟩
  | RegisterInstantiatorNamed sig name f =>
    exact ⟨f, (Option.some.inj hw).symm⟩

theorem Registered.typed {s0 : Slot} {obj : Option (Wrapper F)} {σ σ' : World F E}
    (hr : Registered s0 obj σ σ') (hv : σ.Valid) (ht : σ.Typed)
    (ho : ∀ w, obj = some w →
      if s0.isInstance = true then ∃ q, q ≠ 0 ∧ w = .SharedPtrWapper q
      else ∃ f, w = .InstantiatorWrapper f) : σ'.Typed := by
  intro s p hp
  by_cases hs : s = s0
  · subst hs
    rw [hr.slot_self] at hp
    cases obj with
    | none => simp at hp
    | some w =>
      simp only [Option.map_some', Option.some.injEq] at hp
      subst hp
      have hl := hr.live_new_wrapper hv
      have := ho w rfl
      by_cases hi : s.isInstance = true
      · rw [if_pos hi] at this ⊢
        obtain ⟨q, hq, rfl⟩ := this
        exact ⟨q, hq, hl⟩
      · rw [if_neg hi] at this ⊢
        obtain ⟨f, rfl⟩ := this
        exact ⟨f, hl⟩
  · rw [hr.slot_other hs] at hp
    have := ht s p hp
    rw [hr.live_other hv hs hp]
    exact this

theorem Registered.cell_eq {s0 : Slot} {obj : Option (Wrapper F)} {σ σ' : World F E}
    (hr : Registered s0 obj σ σ') (hv : σ.Valid) (p : Ptr) :
    σ'.heap.cell p =
      if σ.iocc.slot s0 = some p then
        (σ.heap.cell p).map (fun c => ⟨c.object, c.deleted + 1⟩)
      else if p = σ.heap.cells.length + 1 then obj.map (fun w => ⟨w, 0⟩)
      else σ.heap.cell p := by
  have hfresh : σ.heap.cell (σ.heap.cells.length + 1) = none := by simp [Heap.cell]
  rw [hr.heap, Heap.cell_delete]
  cases ho : σ.iocc.slot s0 with
  | none =>
    simp only [Option.getD_none]
    have h0 : ∀ q : Ptr, ¬ (none : Option Ptr) = some q := fun q h => by simp at h
    simp only [h0, if_false]
    by_cases hp : p = 0
    · subst hp
      cases obj <;> simp [Heap.cell, Heap.new]
    · simp only [if_neg hp]
      cases obj with
      | none =>
        by_cases hn : p = σ.heap.cells.length + 1
        · simp [hn, hfresh]
        · simp [hn]
      | some w => simp only [Heap.cell_new]; rfl
  | some old =>
    have hne := (Valid.ne_fresh hv ho).1
    simp only [Option.getD_some, Option.some.injEq]
    by_cases hp : p = old
    · subst hp
      simp only [if_true]
      cases obj with
      | none => rfl
      | some w =>
        have hne' : ¬ p = (σ.heap.new w).1 := hne
        simp only [Heap.cell_new, if_neg hne']
    · have hp' : ¬ old = p := fun h => hp h.symm
      simp only [if_neg hp, if_neg hp']
      cases obj with
      | none =>
        by_cases hn : p = σ.heap.cells.length + 1
        · simp [hn, hfresh]
        · simp [hn]
      | some w => simp only [Heap.cell_new]; rfl

theorem Registered.tidy {s0 : Slot} {obj : Option (Wrapper F)} {σ σ' : World F E}
    (hr : Registered s0 obj σ σ') (hv : σ.Valid) (ht : σ.Tidy) : σ'.Tidy := by
  intro p c hc
  rw [hr.cell_eq hv] at hc
  by_cases hold : σ.iocc.slot s0 = some p
  · rw [if_pos hold] at hc
    cases hc0 : σ.heap.cell p with
    | none => simp [hc0] at hc
    | some c0 =>
      simp only [hc0, Option.map_some', Option.some.injEq] at hc
      subst hc
      right
      rcases ht p c0 hc0 with ⟨hd, _⟩ | ⟨_, hnot⟩
      · exact ⟨by simp [hd], (hr.released_old hv hold).2.2⟩
      · exact absurd hold (hnot s0)
  · rw [if_neg hold] at hc
    by_cases hn : p = σ.heap.cells.length + 1
    · rw [if_pos hn] at hc
      cases obj with
      | none => simp at hc
      | some w =>
        simp only [Option.map_some', Option.some.injEq] at hc
        subst hc
        left
        exact ⟨rfl, s0, by rw [hr.slot_self, hn]; rfl⟩
    · rw [if_neg hn] at hc
      rcases ht p c hc with ⟨hd, s, hs⟩ | ⟨hd, hnot⟩
      · left
        refine ⟨hd, s, ?_⟩
        have hs0 : s ≠ s0 := fun h => hold (h ▸ hs)
        rw [hr.slot_other hs0]; exact hs
      · right
        refine ⟨hd, ?_⟩
        intro s hs
        by_cases hs0 : s = s0
        · subst hs0
          rw [hr.slot_self] at hs
          cases obj with
          | none => simp at hs
          | some w =>
            simp only [Option.map_some', Option.some.injEq] at hs
            exact hn hs.symm
        · rw [hr.slot_other hs0] at hs
          exact hnot s hs

/-- The three invariants hold in every state reached from the empty container
by registering calls. -/
theorem reached_invariants (app : E) (calls : List (Registration F)) :
    (applyAll calls (World.init app : World F E)).Valid ∧
    (applyAll calls (World.init app : World F E)).Typed ∧
    (applyAll calls (World.init app : World F E)).Tidy := by
  have step : ∀ (calls : List (Registration F)) (σ : World F E),
      σ.Valid ∧ σ.Typed ∧ σ.Tidy →
      (applyAll calls σ).Valid ∧ (applyAll calls σ).Typed ∧ (applyAll calls σ).Tidy := by
    intro calls
    induction calls with
    | nil => intro σ h; exact h
    | cons call calls ih =>
      intro σ h
      have hr := call.registered σ
      exact ih (call.apply σ)
        ⟨hr.valid h.1, hr.typed h.1 h.2.1 (call.object_typed), hr.tidy h.1 h.2.2⟩
  exact step calls _ ⟨Valid_init app, Typed_init app, Tidy_init app⟩

end reachable

/-! ## The entries held and the destructor -/

theorem StdMap.mem_entries_iff {K V : Type} [DecidableEq K] (m : StdMap K V) (k : K) (v : V) :
    (k, v) ∈ m.entries ↔ m.find k = some v := by
  obtain ⟨es, hn⟩ := m
  simp only [StdMap.find]
  induction es with
  | nil => simp [lookupEntry]
  | cons e es ih =>
    rw [List.map_cons, List.nodup_cons] at hn
    by_cases hk : e.1 = k
    · simp only [lookupEntry, hk, if_true, List.mem_cons, Option.some.injEq]
      constructor
      · rintro (h | h)
        · rw [← h]
        · exact absurd (List.mem_map_of_mem Prod.fst h) (hk ▸ hn.1)
      · intro h
        left
        rw [← h, ← hk]
    · simp only [lookupEntry, hk, if_false, List.mem_cons]
      rw [← ih hn.2]
      constructor
      · rintro (h | h)
        · exact absurd (by rw [← h]) hk
        · exact h
      · exact Or.inr

theorem StdMap.nodup_entries {K V : Type} (m : StdMap K V) : m.entries.Nodup :=
  List.Nodup.of_map _ m.unique

theorem IoCC.mem_slot_entries_iff (c : IoCC) (s : Slot) (p : Ptr) :
    (s, p) ∈ c.entries ↔ c.slot s = some p := by
  cases s with
  | unnamedInstance k =>
    simp [IoCC.entries, IoCC.slot, ← StdMap.mem_entries_iff]
  | namedInstance k =>
    simp [IoCC.entries, IoCC.slot, ← StdMap.mem_entries_iff]
  | unnamedInstantiator k =>
    simp [IoCC.entries, IoCC.slot, ← StdMap.mem_entries_iff]
  | namedInstantiator k =>
    simp [IoCC.entries, IoCC.slot, ← StdMap.mem_entries_iff]

theorem IoCC.mem_held_iff (c : IoCC) (p : Ptr) :
    p ∈ c.held ↔ ∃ s, c.slot s = some p := by
  simp only [IoCC.held, List.mem_map]
  constructor
  · rintro ⟨⟨s, q⟩, hm, rfl⟩
    exact ⟨s, (c.mem_slot_entries_iff s q).1 hm⟩
  · rintro ⟨s, hs⟩
    exact ⟨(s, p), (c.mem_slot_entries_iff s p).2 hs, rfl⟩

theorem IoCC.nodup_slot_entries (c : IoCC) : c.entries.Nodup := by
  have inj1 : Function.Injective (fun i : UnnamedTypeKey × Ptr => (Slot.unnamedInstance i.1, i.2)) := by
    rintro ⟨a, b⟩ ⟨a', b'⟩ h
    simpa using h
  have inj2 : Function.Injective (fun i : NamedTypeKey × Ptr => (Slot.namedInstance i.1, i.2)) := by
    rintro ⟨a, b⟩ ⟨a', b'⟩ h
    simpa using h
  have inj3 : Function.Injective
      (fun i : UnnamedTypeKey × Ptr => (Slot.unnamedInstantiator i.1, i.2)) := by
    rintro ⟨a, b⟩ ⟨a', b'⟩ h
    simpa using h
  have inj4 : Function.Injective
      (fun i : NamedTypeKey × Ptr => (Slot.namedInstantiator i.1, i.2)) := by
    rintro ⟨a, b⟩ ⟨a', b'⟩ h
    simpa using h
  unfold IoCC.entries
  refine List.Nodup.append (c.unnamedInstanceMap.nodup_entries.map inj1)
    (List.Nodup.append (c.namedInstanceMap.nodup_entries.map inj2)
      (List.Nodup.append (c.unnamedInstantiatorMap.nodup_entries.map inj3)
        (c.namedInstantiatorMap.nodup_entries.map inj4) ?_) ?_) ?_
  · intro a h1 h2
    simp only [List.mem_map] at h1 h2
    obtain ⟨i, _, rfl⟩ := h1
    obtain ⟨j, _, hj⟩ := h2
    simp at hj
  · intro a h1 h2
    simp only [List.mem_map, List.mem_append] at h1 h2
    obtain ⟨i, _, rfl⟩ := h1
    rcases h2 with ⟨j, _, hj⟩ | ⟨j, _, hj⟩ <;> simp at hj
  · intro a h1 h2
    simp only [List.mem_map, List.mem_append] at h1 h2
    obtain ⟨i, _, rfl⟩ := h1
    rcases h2 with ⟨j, _, hj⟩ | ⟨j, _, hj⟩ | ⟨j, _, hj⟩ <;> simp at hj

theorem Valid.nodup_held {F E : Type} {σ : World F E} (hv : σ.Valid) : σ.iocc.held.Nodup := by
  unfold IoCC.held
  refine List.Nodup.map_on ?_ σ.iocc.nodup_slot_entries
  rintro ⟨s, p⟩ hx ⟨s', p'⟩ hy hp
  simp only at hp
  subst hp
  have h1 := (σ.iocc.mem_slot_entries_iff s p).1 hx
  have h2 := (σ.iocc.mem_slot_entries_iff s' p).1 hy
  rw [(hv s p h1).2 s' h2]

theorem Heap.ext_cell {F : Type} (h1 h2 : Heap F) (h : ∀ p, h1.cell p = h2.cell p) : h1 = h2 := by
  obtain ⟨c1⟩ := h1
  obtain ⟨c2⟩ := h2
  congr
  apply List.ext_getElem?
  intro a
  exact h (a + 1)

theorem cell_deletePointers {F : Type} (ps : List Ptr) (hn : ps.Nodup) (h : Heap F) (p : Ptr) :
    (deletePointers ps h).cell p =
      if p ∈ ps then (h.cell p).map (fun c => ⟨c.object, c.deleted + 1⟩) else h.cell p := by
  induction ps generalizing h with
  | nil => simp [deletePointers]
  | cons a ps ih =>
    rw [List.nodup_cons] at hn
    have : deletePointers (a :: ps) h = deletePointers ps (h.delete a) := rfl
    rw [this, ih hn.2, Heap.cell_delete]
    by_cases hpa : p = a
    · subst hpa
      simp [hn.1]
    · simp [hpa]

theorem deleteEntries_eq {F K : Type} (heap : Heap F) (map : StdMap K Ptr) :
    deleteEntries heap map = deletePointers (map.entries.map Prod.snd) heap := by
  simp [deleteEntries, deletePointers, List.foldl_map]

theorem destructor_heap {F E : Type} (σ : World F E) :
    (destructor σ).heap = deletePointers σ.iocc.held σ.heap := by
  simp only [destructor, deleteEntries_eq, IoCC.held, IoCC.entries, List.map_append,
    List.map_map, deletePointers, List.foldl_append]
  rfl

/-- C14 (teardown releases everything exactly once). In every state reached
from the empty container by registering calls, a held wrapper is held by
exactly one slot, and the pointers held are pairwise different. The
destructor runs delete exactly once on each held wrapper, none of which was
deleted before; afterwards every wrapper ever allocated has been deleted
exactly once and no slot holds anything. Visiting the entries in another order
ends with the same heap. -/
theorem C14_teardown_releases_once {F E : Type} (app : E) (calls : List (Registration F)) :
    (∀ s p, (reached app calls : World F E).iocc.slot s = some p →
      ∀ s2, (reached app calls : World F E).iocc.slot s2 = some p → s2 = s) ∧
    (∀ p, p ∈ (reached app calls : World F E).iocc.held ↔
      ∃ s, (reached app calls : World F E).iocc.slot s = some p) ∧
    (reached app calls : World F E).iocc.held.Nodup ∧
    (∀ p, p ∈ (reached app calls : World F E).iocc.held →
      (reached app calls : World F E).heap.released p = 0 ∧
      (destructor (reached app calls : World F E)).heap.released p = 1) ∧
    (∀ p c, (destructor (reached app calls : World F E)).heap.cell p = some c →
      c.deleted = 1) ∧
    (∀ s, (destructor (reached app calls : World F E)).iocc.slot s = none) ∧
    (∀ order : List Ptr, order.Perm (reached app calls : World F E).iocc.held →
      deletePointers order (reached app calls : World F E).heap =
        (destructor (reached app calls : World F E)).heap) := by
  have hinv : (reached app calls : World F E).Valid ∧ (reached app calls : World F E).Typed ∧
      (reached app calls : World F E).Tidy := reached_invariants app calls
  obtain ⟨hv, _, ht⟩ := hinv
  have hnd := Valid.nodup_held hv
  have hcell : ∀ p c, (destructor (reached app calls : World F E)).heap.cell p = some c →
      c.deleted = 1 := by
    intro p c hc
    rw [destructor_heap, cell_deletePointers _ hnd] at hc
    by_cases hp : p ∈ (reached app calls : World F E).iocc.held
    · rw [if_pos hp] at hc
      cases hc0 : (reached app calls : World F E).heap.cell p with
      | none => simp [hc0] at hc
      | some c0 =>
        simp only [hc0, Option.map_some', Option.some.injEq] at hc
        subst hc
        rcases ht p c0 hc0 with ⟨hd, _⟩ | ⟨_, hnot⟩
        · simp [hd]
        · obtain ⟨s, hs⟩ := (IoCC.mem_held_iff _ p).1 hp
          exact absurd hs (hnot s)
    · rw [if_neg hp] at hc
      rcases ht p c hc with ⟨_, s, hs⟩ | ⟨hd, _⟩
      · exact absurd ((IoCC.mem_held_iff _ p).2 ⟨s, hs⟩) hp
      · exact hd
  refine ⟨fun s p hs => (hv s p hs).2, IoCC.mem_held_iff _, hnd, ?_, hcell, ?_, ?_⟩
  · intro p hp
    obtain ⟨s, hs⟩ := (IoCC.mem_held_iff _ p).1 hp
    have hlive := (hv s p hs).1
    have h0 := Heap.released_of_live _ p hlive
    refine ⟨h0.1, ?_⟩
    have hsome : ((destructor (reached app calls : World F E)).heap.cell p).isSome = true := by
      rw [destructor_heap, cell_deletePointers _ hnd, if_pos hp]
      cases hc0 : (reached app calls : World F E).heap.cell p with
      | none => rw [hc0] at h0; simp at h0
      | some c0 => rfl
    cases hc : (destructor (reached app calls : World F E)).heap.cell p with
    | none => rw [hc] at hsome; simp at hsome
    | some c =>
      simp only [Heap.released, hc]
      exact hcell p c hc
  · intro s
    cases s <;> rfl
  · intro order hperm
    apply Heap.ext_cell
    intro p
    rw [destructor_heap, cell_deletePointers _ hnd, cell_deletePointers _ (hperm.nodup_iff.2 hnd)]
    simp only [hperm.mem_iff]

/-- C18 (no mapping ever holds an empty entry). In every state reached from the
empty container by registering calls, each entry of the two instance maps is a
non-null pointer to a live SharedPtrWapper around a non-null handle and each
entry of the two instantiator maps a non-null pointer to a live
InstantiatorWrapper; so the handle behind a reference that Retrieve returns
is not null. -/
theorem C18_no_empty_entry {F E : Type} (typeName : TypeIndex → String) (app : E)
    (calls : List (Registration F)) (T : CppType) (n : String) :
    (∀ k w, (reached app calls : World F E).iocc.unnamedInstanceMap.find k = some w →
      w ≠ 0 ∧ ∃ q, q ≠ 0 ∧
        (reached app calls : World F E).heap.live w = some (.SharedPtrWapper q)) ∧
    (∀ k w, (reached app calls : World F E).iocc.namedInstanceMap.find k = some w →
      w ≠ 0 ∧ ∃ q, q ≠ 0 ∧
        (reached app calls : World F E).heap.live w = some (.SharedPtrWapper q)) ∧
    (∀ k w, (reached app calls : World F E).iocc.unnamedInstantiatorMap.find k = some w →
      w ≠ 0 ∧ ∃ f, (reached app calls : World F E).heap.live w = some (.InstantiatorWrapper f)) ∧
    (∀ k w, (reached app calls : World F E).iocc.namedInstantiatorMap.find k = some w →
      w ≠ 0 ∧ ∃ f, (reached app calls : World F E).heap.live w = some (.InstantiatorWrapper f)) ∧
    (∀ r, Retrieve typeName T (reached app calls : World F E) = .returned r →
      ∃ q, q ≠ 0 ∧ (reached app calls : World F E).deref r = some q) ∧
    (∀ r, RetrieveNamed typeName T n (reached app calls : World F E) = .returned r →
      ∃ q, q ≠ 0 ∧ (reached app calls : World F E).deref r = some q) := by
  have hinv : (reached app calls : World F E).Valid ∧ (reached app calls : World F E).Typed ∧
      (reached app calls : World F E).Tidy := reached_invariants app calls
  obtain ⟨hv, hty, _⟩ := hinv
  have h1 : ∀ k w, (reached app calls : World F E).iocc.unnamedInstanceMap.find k = some w →
      w ≠ 0 ∧ ∃ q, q ≠ 0 ∧
        (reached app calls : World F E).heap.live w = some (.SharedPtrWapper q) :=
    fun k w hw => ⟨(Valid.ne_fresh hv (s := .unnamedInstance k) hw).2,
      hty (.unnamedInstance k) w hw⟩
  have h2 : ∀ k w, (reached app calls : World F E).iocc.namedInstanceMap.find k = some w →
      w ≠ 0 ∧ ∃ q, q ≠ 0 ∧
        (reached app calls : World F E).heap.live w = some (.SharedPtrWapper q) :=
    fun k w hw => ⟨(Valid.ne_fresh hv (s := .namedInstance k) hw).2,
      hty (.namedInstance k) w hw⟩
  refine ⟨h1, h2,
    fun k w hw => ⟨(Valid.ne_fresh hv (s := .unnamedInstantiator k) hw).2,
      hty (.unnamedInstantiator k) w hw⟩,
    fun k w hw => ⟨(Valid.ne_fresh hv (s := .namedInstantiator k) hw).2,
      hty (.namedInstantiator k) w hw⟩, ?_, ?_⟩
  · intro r hr
    obtain ⟨hf, _⟩ := ResolveInstance_returned typeName _ _ _ r hr
    obtain ⟨_, q, hq, hl⟩ := h1 _ r hf
    exact ⟨q, hq, (Heap.GetShared_eq _ _ _).2 hl⟩
  · intro r hr
    obtain ⟨hf, _⟩ := ResolveInstance_returned typeName _ _ _ r hr
    obtain ⟨_, q, hq, hl⟩ := h2 _ r hf
    exact ⟨q, hq, (Heap.GetShared_eq _ _ _).2 hl⟩

/-! ## Register__ refines the partial map -/

theorem InstanceKey.slot_injective : Function.Injective InstanceKey.slot := by
  intro a b h
  cases a <;> cases b <;> simp [InstanceKey.slot, typeid] at h ⊢
  · exact h
  · exact h

theorem StoreCall.toRegistration_slot (F : Type) (c : StoreCall) :
    (c.toRegistration F).slot = c.key.slot := by
  obtain ⟨k, h⟩ := c
  cases k <;> rfl

theorem StoreCall.toRegistration_object (F : Type) (c : StoreCall) :
    (c.toRegistration F).object = instanceObject F c.handle := by
  obtain ⟨k, h⟩ := c
  cases k <;> rfl

theorem Refines.step {F E : Type} {σ : World F E} {m : InstanceKey → Option SharedPtr}
    (hv : σ.Valid) (hm : Refines σ m) (c : StoreCall) :
    Refines ((c.toRegistration F).apply σ) (referenceStore m c) := by
  have hr := (c.toRegistration F).registered σ
  rw [StoreCall.toRegistration_slot, StoreCall.toRegistration_object] at hr
  intro k
  by_cases hk : k = c.key
  · subst hk
    simp only [referenceStore, if_true]
    by_cases hh : c.handle ≠ 0
    · rw [if_pos hh]
      rw [instanceObject_of_ne_zero hh] at hr
      exact ⟨hh, _, hr.holds hv⟩
    · rw [if_neg hh]
      have h0 : c.handle = 0 := not_not.1 hh
      rw [h0, instanceObject_zero] at hr
      simpa using hr.slot_self
  · have hs : k.slot ≠ c.key.slot := fun h => hk (InstanceKey.slot_injective h)
    simp only [referenceStore, if_neg hk]
    have := hm k
    cases hmk : m k with
    | none =>
      rw [hmk] at this
      simp only at this ⊢
      rw [hr.slot_other hs]; exact this
    | some h =>
      rw [hmk] at this
      simp only at this ⊢
      obtain ⟨hne, w, hw, hl⟩ := this
      exact ⟨hne, w, hr.frame hv hs hw hl⟩

theorem Refines.applyAll {F E : Type} (calls : List StoreCall) :
    ∀ (σ : World F E) (m : InstanceKey → Option SharedPtr), σ.Valid → Refines σ m →
      Refines (ioc.applyAll (calls.map (StoreCall.toRegistration F)) σ)
        (calls.foldl referenceStore m) := by
  induction calls with
  | nil => intro σ m _ hm; exact hm
  | cons c calls ih =>
    intro σ m hv hm
    exact ih _ _ (((c.toRegistration F).registered σ).valid hv) (hm.step hv c)

theorem referenceMap_append (calls : List StoreCall) (c : StoreCall) (k : InstanceKey) :
    referenceMap (calls ++ [c]) k =
      if k = c.key then (if c.handle ≠ 0 then some c.handle else none)
      else referenceMap calls k := by
  simp [referenceMap, List.foldl_append, referenceStore]

theorem lastStore_append (calls : List StoreCall) (c : StoreCall) (k : InstanceKey) :
    lastStore (calls ++ [c]) k = if k = c.key then some c.handle else lastStore calls k := by
  simp only [lastStore, List.reverse_append, List.reverse_cons, List.reverse_nil,
    List.nil_append, List.singleton_append, List.find?_cons]
  by_cases hk : k = c.key
  · subst hk; simp
  · have : ¬ c.key = k := fun h => hk h.symm
    simp [hk, this]

theorem referenceMap_eq_lastStore (calls : List StoreCall) (k : InstanceKey) :
    referenceMap calls k = (lastStore calls k).bind (fun h => if h ≠ 0 then some h else none) := by
  induction calls using List.reverseRecOn with
  | nil => rfl
  | append_singleton calls c ih =>
    rw [referenceMap_append, lastStore_append]
    by_cases hk : k = c.key
    · simp [hk]
    · simp [hk, ih]

theorem RetrieveAt_of_refines {F E : Type} (typeName : TypeIndex → String) {σ : World F E}
    {m : InstanceKey → Option SharedPtr} (hm : Refines σ m) (k : InstanceKey) :
    (∀ h, m k = some h →
      ∃ r, RetrieveAt typeName k σ = .returned r ∧ σ.deref r = some h) ∧
    (m k = none →
      RetrieveAt typeName k σ = .raised (.ResolverException (k.describe typeName))) := by
  have := hm k
  constructor
  · intro h hk
    rw [hk] at this
    obtain ⟨_, w, hw, hl⟩ := this
    cases k with
    | unnamed T => exact ⟨w, ResolveInstance_hit typeName _ _ _ hw hl⟩
    | named T name => exact ⟨w, ResolveInstance_hit typeName _ _ _ hw hl⟩
  · intro hk
    rw [hk] at this
    cases k with
    | unnamed T => exact ResolveInstance_miss typeName _ _ _ this
    | named T name => exact ResolveInstance_miss typeName _ _ _ this

/-- C19 (last write wins). After any sequence of Store calls on the empty
container, Retrieve at a key returns a reference to the handle of the last
call addressed to the key when that handle is not null, and throws the
ResolverException when that handle is null or no call was addressed to the
key. The same in terms of the reference model: Retrieve returns a reference
to h where the partial map is set to h, throws where it is not set, and the
partial map is the last store with the null stores left out. -/
theorem C19_last_write_wins {F E : Type} (typeName : TypeIndex → String) (app : E)
    (calls : List StoreCall) (k : InstanceKey) :
    (∀ h, lastStore calls k = some h → h ≠ 0 →
      ∃ r, RetrieveAt typeName k
          (reached app (calls.map (StoreCall.toRegistration F)) : World F E) = .returned r ∧
        (reached app (calls.map (StoreCall.toRegistration F)) : World F E).deref r = some h) ∧
    (lastStore calls k = some 0 ∨ lastStore calls k = none →
      RetrieveAt typeName k (reached app (calls.map (StoreCall.toRegistration F)) : World F E) =
        .raised (.ResolverException (k.describe typeName))) ∧
    (∀ h, referenceMap calls k = some h →
      ∃ r, RetrieveAt typeName k
          (reached app (calls.map (StoreCall.toRegistration F)) : World F E) = .returned r ∧
        (reached app (calls.map (StoreCall.toRegistration F)) : World F E).deref r = some h) ∧
    (referenceMap calls k = none →
      RetrieveAt typeName k (reached app (calls.map (StoreCall.toRegistration F)) : World F E) =
        .raised (.ResolverException (k.describe typeName))) ∧
    referenceMap calls k =
      (lastStore calls k).bind (fun h => if h ≠ 0 then some h else none) := by
  have hinit : Refines (World.init app : World F E) (fun _ => none) := by
    intro k
    cases k <;> rfl
  have hm : Refines (reached app (calls.map (StoreCall.toRegistration F)) : World F E)
      (referenceMap calls) := Refines.applyAll calls _ _ (Valid_init app) hinit
  have hk := RetrieveAt_of_refines typeName hm k
  have heq := referenceMap_eq_lastStore calls k
  refine ⟨?_, ?_, hk.1, hk.2, heq⟩
  · intro h hl hne
    apply hk.1
    rw [heq, hl]
    simp [hne]
  · intro hl
    apply hk.2
    rw [heq]
    rcases hl with hl | hl <;> simp [hl]

/-! ## Calls with fuel -/

theorem InstantiateIn_total {F V E K : Type} [DecidableEq K] [Key K] (invoke : Invoke F V E)
    (typeName : TypeIndex → String) (map : StdMap K Ptr) (key : K) (args : List (Arg V))
    (σ : World F E) :
    InstantiateIn (fun _ f a τ => some (invoke f a τ)) typeName map key args σ =
      some (Instantiate invoke typeName map key args σ) := by
  unfold InstantiateIn Instantiate
  cases hf : map.find key with
  | none => rfl
  | some w =>
    cases hg : σ.heap.GetInstantiator w with
    | none => simp [hg]
    | some g => simp [hg]

/-! ## More fuel gives the same result, and ranked callables end -/

section fuel
variable {F V E : Type}

theorem continueWith_mono {x1 x2 : Option (Result SharedPtr × World F E)}
    {k1 k2 : SharedPtr → World F E → Option (Result SharedPtr × World F E)}
    (hx : ∀ y, x1 = some y → x2 = some y)
    (hk : ∀ d τ r, k1 d τ = some r → k2 d τ = some r)
    (r : Result SharedPtr × World F E) (h : continueWith x1 k1 = some r) :
    continueWith x2 k2 = some r := by
  cases x1 with
  | none => simp [continueWith] at h
  | some y =>
    rw [hx y rfl]
    obtain ⟨res, τ⟩ := y
    cases res with
    | returned d => exact hk d τ r h
    | raised e => exact h
    | undefined => exact h

theorem InstantiateIn_mono {K : Type} [DecidableEq K] [Key K] {c1 c2 : Callee F V E}
    (hc : ∀ w f a σ r, c1 w f a σ = some r → c2 w f a σ = some r)
    (typeName : TypeIndex → String) (map : StdMap K Ptr) (key : K) (args : List (Arg V))
    (σ : World F E) (r : Result SharedPtr × World F E)
    (h : InstantiateIn c1 typeName map key args σ = some r) :
    InstantiateIn c2 typeName map key args σ = some r := by
  unfold InstantiateIn at h ⊢
  cases hf : map.find key with
  | none => rw [hf] at h; exact h
  | some w =>
    rw [hf] at h
    simp only at h ⊢
    cases hg : σ.heap.GetInstantiator w with
    | none => rw [hg] at h; exact h
    | some g =>
      rw [hg] at h
      exact hc w g args σ r h

theorem execBody_mono {c1 c2 : Callee F V E}
    (hc : ∀ w f a σ r, c1 w f a σ = some r → c2 w f a σ = some r)
    (typeName : TypeIndex → String) (self : Ptr) (b : Body F V E) :
    ∀ (σ : World F E) (r : Result SharedPtr × World F E),
      execBody c1 typeName self b σ = some r → execBody c2 typeName self b σ = some r := by
  induction b with
  | result make => intro σ r h; exact h
  | New T args next ih =>
    intro σ r h
    simp only [execBody] at h ⊢
    by_cases ha : σ.heap.alive self = true
    · rw [if_pos ha] at h ⊢
      exact continueWith_mono (fun y hy => InstantiateIn_mono hc typeName _ _ _ _ y hy)
        (fun d τ r' hr' => ih d τ r' hr') r h
    · rw [if_neg ha] at h ⊢; exact h
  | NewNamed T name args next ih =>
    intro σ r h
    simp only [execBody] at h ⊢
    by_cases ha : σ.heap.alive self = true
    · rw [if_pos ha] at h ⊢
      exact continueWith_mono (fun y hy => InstantiateIn_mono hc typeName _ _ _ _ y hy)
        (fun d τ r' hr' => ih d τ r' hr') r h
    · rw [if_neg ha] at h ⊢; exact h
  | Retrieve T next ih =>
    intro σ r h
    simp only [execBody] at h ⊢
    by_cases ha : σ.heap.alive self = true
    · rw [if_pos ha] at h ⊢
      exact continueWith_mono (fun y hy => hy) (fun d τ r' hr' => ih d τ r' hr') r h
    · rw [if_neg ha] at h ⊢; exact h
  | RetrieveNamed T name next ih =>
    intro σ r h
    simp only [execBody] at h ⊢
    by_cases ha : σ.heap.alive self = true
    · rw [if_pos ha] at h ⊢
      exact continueWith_mono (fun y hy => hy) (fun d τ r' hr' => ih d τ r' hr') r h
    · rw [if_neg ha] at h ⊢; exact h
  | register call next ih =>
    intro σ r h
    simp only [execBody] at h ⊢
    by_cases ha : σ.heap.alive self = true
    · rw [if_pos ha] at h ⊢
      exact ih _ r h
    · rw [if_neg ha] at h ⊢; exact h

theorem callFuel_succ (body : F → List (Arg V) → Body F V E) (typeName : TypeIndex → String)
    (n : Nat) :
    ∀ w f a (σ : World F E) r, callFuel body typeName n w f a σ = some r →
      callFuel body typeName (n + 1) w f a σ = some r := by
  induction n with
  | zero => intro w f a σ r h; simp [callFuel] at h
  | succ n ih =>
    intro w f a σ r h
    exact execBody_mono ih typeName w (body f a) σ r h

theorem callFuel_mono (body : F → List (Arg V) → Body F V E) (typeName : TypeIndex → String)
    {n m : Nat} (hnm : n ≤ m) :
    ∀ w f a (σ : World F E) r, callFuel body typeName n w f a σ = some r →
      callFuel body typeName m w f a σ = some r := by
  induction hnm with
  | refl => intro w f a σ r h; exact h
  | step _ ih =>
    intro w f a σ r h
    exact callFuel_succ body typeName _ w f a σ r (ih w f a σ r h)

/-- The run of a body that only asks for objects ends, and leaves maps and
wrappers as they are, when the calls of the factories it can reach end and
leave them so. -/
theorem execBody_complete (c : Callee F V E) (typeName : TypeIndex → String) (self : Ptr)
    (σ : World F E) (Q : Slot → Prop)
    (hc : ∀ s w2 g2 a (τ : World F E), Q s → σ.iocc.slot s = some w2 →
      σ.heap.GetInstantiator w2 = some g2 → τ.iocc = σ.iocc → τ.heap = σ.heap →
      ∃ r, c w2 g2 a τ = some r ∧ r.2.iocc = σ.iocc ∧ r.2.heap = σ.heap)
    (b : Body F V E) :
    b.Requests Q → ∀ τ : World F E, τ.iocc = σ.iocc → τ.heap = σ.heap →
      ∃ r, execBody c typeName self b τ = some r ∧ r.2.iocc = σ.iocc ∧ r.2.heap = σ.heap := by
  have hcont : ∀ (x : Result SharedPtr × World F E)
      (k : SharedPtr → World F E → Option (Result SharedPtr × World F E)),
      x.2.iocc = σ.iocc → x.2.heap = σ.heap →
      (∀ d τ, τ.iocc = σ.iocc → τ.heap = σ.heap →
        ∃ r, k d τ = some r ∧ r.2.iocc = σ.iocc ∧ r.2.heap = σ.heap) →
      ∃ r, continueWith (some x) k = some r ∧ r.2.iocc = σ.iocc ∧ r.2.heap = σ.heap := by
    intro x k hi hh hk
    obtain ⟨res, τ⟩ := x
    cases res with
    | returned d => exact hk d τ hi hh
    | raised e => exact ⟨_, rfl, hi, hh⟩
    | undefined => exact ⟨_, rfl, hi, hh⟩
  have hinst : ∀ {K : Type} [DecidableEq K] [Key K] (map : StdMap K Ptr) (key : K)
      (mk : K → Slot) (a : List (Arg V)) (τ : World F E), Q (mk key) →
      (∀ w2, map.find key = some w2 → σ.iocc.slot (mk key) = some w2) →
      τ.iocc = σ.iocc → τ.heap = σ.heap →
      ∃ r, InstantiateIn c typeName map key a τ = some r ∧ r.2.iocc = σ.iocc ∧
        r.2.heap = σ.heap := by
    intro K _ _ map key mk a τ hq hm hi hh
    unfold InstantiateIn
    cases hf : map.find key with
    | none => exact ⟨_, rfl, hi, hh⟩
    | some w2 =>
      simp only
      cases hg : τ.heap.GetInstantiator w2 with
      | none => exact ⟨_, rfl, hi, hh⟩
      | some g2 =>
        rw [hh] at hg
        exact hc (mk key) w2 g2 a τ hq (hm w2 hf) hg hi hh
  induction b with
  | result make =>
    intro _ τ hi hh
    exact ⟨_, rfl, hi, hh⟩
  | New T args next ih =>
    intro hb τ hi hh
    simp only [execBody]
    by_cases ha : τ.heap.alive self = true
    · rw [if_pos ha]
      obtain ⟨x, hx, hxi, hxh⟩ := hinst τ.iocc.unnamedInstantiatorMap
        (InstantiatorType T (args.map Arg.type)) Slot.unnamedInstantiator args τ hb.1
        (fun w2 hw => by rw [← hi]; exact hw) hi hh
      rw [hx]
      exact hcont x _ hxi hxh (fun d τ' hi' hh' => ih d (hb.2 d) τ' hi' hh')
    · rw [if_neg ha]; exact ⟨_, rfl, hi, hh⟩
  | NewNamed T name args next ih =>
    intro hb τ hi hh
    simp only [execBody]
    by_cases ha : τ.heap.alive self = true
    · rw [if_pos ha]
      obtain ⟨x, hx, hxi, hxh⟩ := hinst τ.iocc.namedInstantiatorMap
        ((InstantiatorType T (args.map Arg.type), name) : NamedTypeKey) Slot.namedInstantiator
        args τ hb.1 (fun w2 hw => by rw [← hi]; exact hw) hi hh
      rw [hx]
      exact hcont x _ hxi hxh (fun d τ' hi' hh' => ih d (hb.2 d) τ' hi' hh')
    · rw [if_neg ha]; exact ⟨_, rfl, hi, hh⟩
  | Retrieve T next ih =>
    intro hb τ hi hh
    simp only [execBody]
    by_cases ha : τ.heap.alive self = true
    · rw [if_pos ha]
      exact hcont _ _ hi hh (fun d τ' hi' hh' => ih d (hb d) τ' hi' hh')
    · rw [if_neg ha]; exact ⟨_, rfl, hi, hh⟩
  | RetrieveNamed T name next ih =>
    intro hb τ hi hh
    simp only [execBody]
    by_cases ha : τ.heap.alive self = true
    · rw [if_pos ha]
      exact hcont _ _ hi hh (fun d τ' hi' hh' => ih d (hb d) τ' hi' hh')
    · rw [if_neg ha]; exact ⟨_, rfl, hi, hh⟩
  | register call next _ =>
    intro hb
    exact absurd hb (by simp [Body.Requests])

/-- Callables whose nested New calls go to callables of lower rank end their
calls within rank + 1 levels of nesting. -/
theorem callFuel_complete (body : F → List (Arg V) → Body F V E)
    (typeName : TypeIndex → String) (rank : F → Nat) (σ : World F E)
    (hrank : ∀ g a, (body g a).Requests (fun s => ∀ w2 g2, σ.iocc.slot s = some w2 →
      σ.heap.GetInstantiator w2 = some g2 → rank g2 < rank g)) :
    ∀ n g, rank g ≤ n → ∀ self a (τ : World F E), τ.iocc = σ.iocc → τ.heap = σ.heap →
      ∃ r, callFuel body typeName (n + 1) self g a τ = some r ∧ r.2.iocc = σ.iocc ∧
        r.2.heap = σ.heap := by
  intro n
  induction n with
  | zero =>
    intro g hg self a τ hi hh
    refine execBody_complete _ typeName self σ _ ?_ (body g a) (hrank g a) τ hi hh
    intro s w2 g2 a2 τ2 hq hs hg2 _ _
    have := hq w2 g2 hs hg2
    omega
  | succ n ih =>
    intro g hg self a τ hi hh
    refine execBody_complete _ typeName self σ _ ?_ (body g a) (hrank g a) τ hi hh
    intro s w2 g2 a2 τ2 hq hs hg2 hi2 hh2
    have hlt := hq w2 g2 hs hg2
    exact ih g2 (by omega) w2 a2 τ2 hi2 hh2

end fuel

theorem NewFuel_hit {F V E : Type} (body : F → List (Arg V) → Body F V E)
    (typeName : TypeIndex → String) (n : Nat) (T : CppType) (args : List (Arg V))
    (σ : World F E) {w : Ptr} {f : F}
    (hreg : σ.iocc.unnamedInstantiatorMap.find (InstantiatorType T (args.map Arg.type)) = some w)
    (hf : σ.heap.GetInstantiator w = some f) :
    NewFuel body typeName n T args σ = callFuel body typeName n w f args σ := by
  simp [NewFuel, InstantiateIn, hreg, hf]

theorem cyclic_never_returns (n : Nat) :
    NewFuel cyclicBody exampleName n IService [] cyclicWorld = none := by
  have hreg : cyclicWorld.iocc.unnamedInstantiatorMap.find
      (InstantiatorType IService (([] : List (Arg Unit)).map Arg.type)) = some 1 := by decide
  have hf : cyclicWorld.heap.GetInstantiator 1 = some () := by decide
  have halive : cyclicWorld.heap.alive 1 = true := by decide
  induction n with
  | zero => rw [NewFuel_hit cyclicBody exampleName 0 IService [] cyclicWorld hreg hf]; rfl
  | succ n ih =>
    rw [NewFuel_hit cyclicBody exampleName (n + 1) IService [] cyclicWorld hreg hf]
    show execBody (callFuel cyclicBody exampleName n) exampleName 1
      (Body.New IService [] fun d => .result fun app => (.returned d, app)) cyclicWorld = none
    simp only [execBody, halive, if_true]
    have : InstantiateIn (callFuel cyclicBody exampleName n) exampleName
        cyclicWorld.iocc.unnamedInstantiatorMap
        (InstantiatorType IService (([] : List (Arg Unit)).map Arg.type)) [] cyclicWorld =
        none := ih
    rw [this]
    rfl

/-- Counterexample to C13 as stated: the factory of IService that asks the
container for a new IService. New<IService>() finds it, and its call never
ends, with whatever fuel. -/
theorem C13_cyclic_factory_never_returns :
    ¬ ∃ fuel r, NewFuel cyclicBody exampleName fuel IService [] cyclicWorld = some r := by
  rintro ⟨fuel, r, h⟩
  rw [cyclic_never_returns fuel] at h
  exact Option.noConfusion h

/-- C13, amended (re-entrant resolution). Let the bodies of the callables
make only New and Retrieve calls, and let every New a body makes that finds a
registered callable find one of lower rank (no callable constructs itself,
directly or through others). Then New<T>(args) for a registered callable f
ends: with rank f + 1 levels of nesting and with any more it has one and the
same outcome, and maps and wrappers are as before. That outcome is the run
of the body of f in which each nested New is the call of the callable it
finds, each nested Retrieve gives a copy of the handle stored at the time of
the call, the body goes on with the handle a nested call returns, and an
exception of a nested call ends the body as that exception. -/
theorem C13_reentrant_resolution {F V E : Type} (body : F → List (Arg V) → Body F V E)
    (typeName : TypeIndex → String) (rank : F → Nat) (T : CppType) (args : List (Arg V))
    (f : F) (w : Ptr) (σ : World F E)
    (hreg : σ.iocc.unnamedInstantiatorMap.find (InstantiatorType T (args.map Arg.type)) = some w)
    (hf : σ.heap.GetInstantiator w = some f)
    (hrank : ∀ g a, (body g a).Requests (fun s => ∀ w2 g2, σ.iocc.slot s = some w2 →
      σ.heap.GetInstantiator w2 = some g2 → rank g2 < rank g)) :
    (∃ r, (∀ n, rank f + 1 ≤ n → NewFuel body typeName n T args σ = some r) ∧
      r.2.iocc = σ.iocc ∧ r.2.heap = σ.heap) ∧
    (∀ n, NewFuel body typeName (n + 1) T args σ =
      execBody (callFuel body typeName n) typeName w (body f args) σ) ∧
    (∀ n self U a next (τ : World F E), τ.heap.alive self = true →
      execBody (callFuel body typeName n) typeName self (.New U a next) τ =
        continueWith (NewFuel body typeName n U a τ)
          (fun d τ2 => execBody (callFuel body typeName n) typeName self (next d) τ2)) ∧
    (∀ n self U m a next (τ : World F E), τ.heap.alive self = true →
      execBody (callFuel body typeName n) typeName self (.NewNamed U m a next) τ =
        continueWith (NewNamedFuel body typeName n U m a τ)
          (fun d τ2 => execBody (callFuel body typeName n) typeName self (next d) τ2)) ∧
    (∀ (k : SharedPtr → World F E → Option (Result SharedPtr × World F E)) d τ,
      continueWith (some (.returned d, τ)) k = k d τ) ∧
    (∀ (k : SharedPtr → World F E → Option (Result SharedPtr × World F E)) e τ,
      continueWith (some (.raised e, τ)) k = some (.raised e, τ)) ∧
    (∀ n self U next (τ : World F E) ref d, τ.heap.alive self = true →
      Retrieve typeName U τ = .returned ref → τ.deref ref = some d →
      execBody (callFuel body typeName n) typeName self (.Retrieve U next) τ =
        execBody (callFuel body typeName n) typeName self (next d) τ) ∧
    (∀ n self U m next (τ : World F E) ref d, τ.heap.alive self = true →
      RetrieveNamed typeName U m τ = .returned ref → τ.deref ref = some d →
      execBody (callFuel body typeName n) typeName self (.RetrieveNamed U m next) τ =
        execBody (callFuel body typeName n) typeName self (next d) τ) ∧
    (∀ n self U next (τ : World F E) e, τ.heap.alive self = true →
      Retrieve typeName U τ = .raised e →
      execBody (callFuel body typeName n) typeName self (.Retrieve U next) τ =
        some (.raised e, τ)) ∧
    (∀ n self U m next (τ : World F E) e, τ.heap.alive self = true →
      RetrieveNamed typeName U m τ = .raised e →
      execBody (callFuel body typeName n) typeName self (.RetrieveNamed U m next) τ =
        some (.raised e, τ)) := by
  refine ⟨?_, ?_, ?_, ?_, fun _ _ _ => rfl, fun _ _ _ => rfl, ?_, ?_, ?_, ?_⟩
  · obtain ⟨r, hr, hi, hh⟩ := callFuel_complete body typeName rank σ hrank (rank f) f
      (Nat.le_refl _) w args σ rfl rfl
    refine ⟨r, ?_, hi, hh⟩
    intro n hn
    rw [NewFuel_hit body typeName n T args σ hreg hf]
    exact callFuel_mono body typeName hn w f args σ r hr
  · intro n
    rw [NewFuel_hit body typeName (n + 1) T args σ hreg hf]
    rfl
  · intro n self U a next τ ha
    simp only [execBody, ha, if_true, NewFuel]
  · intro n self U m a next τ ha
    simp only [execBody, ha, if_true, NewNamedFuel]
  · intro n self U next τ ref d ha hr hd
    simp only [execBody, ha, if_true, hr, World.copy, hd, continueWith]
  · intro n self U m next τ ref d ha hr hd
    simp only [execBody, ha, if_true, hr, World.copy, hd, continueWith]
  · intro n self U next τ e ha hr
    simp only [execBody, ha, if_true, hr, World.copy, continueWith]
  · intro n self U m next τ e ha hr
    simp only [execBody, ha, if_true, hr, World.copy, continueWith]

theorem exampleBody_ranked : ∀ g a, (exampleBody g a).Requests
    (fun s => ∀ w2 g2, exampleMain.iocc.slot s = some w2 →
      exampleMain.heap.GetInstantiator w2 = some g2 → exampleRank g2 < exampleRank g) := by
  have h0 : ∀ w2 g2, exampleMain.iocc.slot
      (.unnamedInstantiator (InstantiatorType IDependency [])) = some w2 →
      exampleMain.heap.GetInstantiator w2 = some g2 → exampleRank g2 < 1 := by
    intro w2 g2 hs hg
    have h1 : exampleMain.iocc.slot
        (.unnamedInstantiator (InstantiatorType IDependency [])) = some 1 := by decide
    rw [h1] at hs
    injection hs with hs
    subst hs
    have h2 : exampleMain.heap.GetInstantiator 1 = some .dependency4 := by decide
    rw [h2] at hg
    injection hg with hg
    subst hg
    decide
  have h1 : ∀ w2 g2, exampleMain.iocc.slot
      (.unnamedInstantiator (InstantiatorType IDependency [int])) = some w2 →
      exampleMain.heap.GetInstantiator w2 = some g2 → exampleRank g2 < 1 := by
    intro w2 g2 hs hg
    have h1 : exampleMain.iocc.slot
        (.unnamedInstantiator (InstantiatorType IDependency [int])) = some 2 := by decide
    rw [h1] at hs
    injection hs with hs
    subst hs
    have h2 : exampleMain.heap.GetInstantiator 2 = some .dependencyOf := by decide
    rw [h2] at hg
    injection hg with hg
    subst hg
    decide
  intro g a
  cases g
  case service =>
    rcases a with _ | ⟨x, t⟩
    · exact ⟨h0, fun _ _ => trivial⟩
    · trivial
  case serviceWith =>
    rcases a with _ | ⟨x, _ | ⟨y, _ | ⟨z, _ | ⟨u, t⟩⟩⟩⟩
    · trivial
    · trivial
    · trivial
    · exact ⟨h1, fun _ _ => trivial⟩
    · trivial
  case dependency4 =>
    rcases a with _ | ⟨x, t⟩ <;> trivial
  case dependencyOf =>
    rcases a with _ | ⟨x, _ | ⟨y, t⟩⟩ <;> trivial
  case dependencyAdd1 =>
    rcases a with _ | ⟨x, _ | ⟨y, t⟩⟩ <;> trivial

/-- Witness of C13: New<IService>() in the container of Example0::main. The
lambda for IService asks for a new IDependency, which makes the Dependency(4)
named by handle 3, and retrieves the stored handle 2 named nine; the call
returns handle 4, the Service built from the two. One level of nesting is
not enough, two are. -/
theorem C13_reentrant_resolution_witness :
    exampleMain.iocc.unnamedInstantiatorMap.find
      (InstantiatorType IService (([] : List (Arg Int)).map Arg.type)) = some 4 ∧
    exampleMain.heap.GetInstantiator 4 = some ExampleLambda.service ∧
    (NewFuel exampleBody exampleName 1 IService [] exampleMain).map (fun r => r.1) = none ∧
    (NewFuel exampleBody exampleName 2 IService [] exampleMain).map (fun r => (r.1, r.2.app)) =
      some (.returned 4, [.Dependency 4, .Dependency 9, .Dependency 4, .Service 3 2 0 0]) ∧
    (NewFuel exampleBody exampleName 2 IService [⟨int, 123⟩, ⟨int, 456⟩, ⟨int, 789⟩]
        exampleMain).map (fun r => (r.1, r.2.app)) =
      some (.returned 4, [.Dependency 4, .Dependency 9, .Dependency 123, .Service 3 2 456 789]) ∧
    (NewFuel exampleBody exampleName 2 IService [] exampleFactories).map
        (fun r => (r.1, r.2.app)) =
      some (.raised (.ResolverException "T \"nine \""), [.Dependency 4]) ∧
    ∃ r, (∀ n, exampleRank .service + 1 ≤ n →
        NewFuel exampleBody exampleName n IService [] exampleMain = some r) ∧
      r.2.iocc = exampleMain.iocc ∧ r.2.heap = exampleMain.heap :=
  ⟨by decide, by decide, by decide, by decide, by decide, by decide,
    (C13_reentrant_resolution exampleBody exampleName exampleRank IService [] .service 4
      exampleMain (by decide) (by decide) exampleBody_ranked).1⟩

/-! ## Registrations made by a running callable -/

theorem execBody_registerAll {F V E : Type} (callee : Callee F V E)
    (typeName : TypeIndex → String) (self : Ptr) (s0 : Slot) (last : Body F V E)
    (calls : List (Registration F)) :
    ∀ σ : World F E, σ.Valid → σ.iocc.slot s0 = some self →
      (∀ c ∈ calls, c.slot ≠ s0) →
      execBody callee typeName self (registerAll calls last) σ =
        execBody callee typeName self last (applyAll calls σ) ∧
      (applyAll calls σ).heap.alive self = true := by
  induction calls with
  | nil =>
    intro σ hv hs _
    exact ⟨rfl, (hv s0 self hs).1⟩
  | cons c calls ih =>
    intro σ hv hs hc
    have hr := c.registered σ
    have hne : s0 ≠ c.slot := fun h => hc c (List.mem_cons_self _ _) h.symm
    have hs' : (c.apply σ).iocc.slot s0 = some self := by rw [hr.slot_other hne]; exact hs
    obtain ⟨h1, h2⟩ := ih (c.apply σ) (hr.valid hv) hs'
      (fun c' hc' => hc c' (List.mem_cons_of_mem _ hc'))
    have halive : σ.heap.alive self = true := (hv s0 self hs).1
    refine ⟨?_, h2⟩
    show execBody callee typeName self (Body.register c (registerAll calls last)) σ = _
    simp only [execBody, halive, if_true]
    exact h1

theorem app_applyAll {F E : Type} (calls : List (Registration F)) :
    ∀ σ : World F E, (applyAll calls σ).app = σ.app := by
  induction calls with
  | nil => intro σ; rfl
  | cons c calls ih =>
    intro σ
    exact (ih (c.apply σ)).trans (c.registered σ).app

theorem own_slot_registration {F E : Type} (call : Registration F) (σ : World F E)
    (hv : σ.Valid) (self : Ptr) (hs : σ.iocc.slot call.slot = some self) :
    (call.apply σ).heap.alive self = false ∧ (call.apply σ).heap.released self = 1 := by
  obtain ⟨h1, h2, _⟩ := (call.registered σ).released_old hv hs
  exact ⟨by simp [Heap.alive, h2], h1⟩

/-- C16 (a running factory that mutates the mapping it was looked up from).
In a valid state, a callable whose registering calls are addressed to slots
other than the one it was looked up from stays alive, and its call ends
normally in the state its calls produced. A registering call addressed to
its own slot makes Register__ delete the wrapper the callable is running in:
the wrapper is deleted once and is no longer alive, and the next call the
body makes on the container through its captured handle is undefined
behaviour. So New<IDependency>() on the factory that registers a replacement
under its own signature and then stores an instance does not complete
normally; on the factory that registers the replacement and returns it does,
and the next New<IDependency>() invokes the replacement. -/
theorem C16_self_replacement_deletes_running_callable {F V E : Type} (callee : Callee F V E)
    (typeName : TypeIndex → String) (σ : World F E) (self : Ptr) (s0 : Slot)
    (call call2 : Registration F) (calls : List (Registration F))
    (make : E → Result SharedPtr × E) (next : Body F V E) :
    (σ.Valid → σ.iocc.slot s0 = some self → (∀ c ∈ calls, c.slot ≠ s0) →
      execBody callee typeName self (registerAll calls (.result make)) σ =
        some ((make σ.app).1, { applyAll calls σ with app := (make σ.app).2 })) ∧
    (σ.Valid → σ.iocc.slot call.slot = some self →
      (call.apply σ).heap.alive self = false ∧ (call.apply σ).heap.released self = 1 ∧
      execBody callee typeName self (.register call (.register call2 next)) σ =
        some (.undefined, call.apply σ)) ∧
    (replacingWorld .replaceThenStore).iocc.unnamedInstantiatorMap.find
      (InstantiatorType IDependency []) = some 1 ∧
    (replacingWorld .replaceThenStore).heap.GetInstantiator 1 = some .replaceThenStore ∧
    (NewFuel replacingBody exampleName 1 IDependency []
      (replacingWorld .replaceThenStore)).map
        (fun r => (r.1, r.2.heap.released 1, r.2.heap.alive 1,
          r.2.iocc.unnamedInstantiatorMap.find (InstantiatorType IDependency []))) =
      some (.undefined, 1, false, some 2) ∧
    (NewFuel replacingBody exampleName 1 IDependency []
      (replacingWorld .replaceThenReturn)).map
        (fun r => (r.1, r.2.heap.released 1,
          (NewFuel replacingBody exampleName 1 IDependency [] r.2).map (fun r2 => r2.1))) =
      some (.returned 1, 1, some (.returned 2)) := by
  refine ⟨?_, ?_, by decide, by decide, by decide, by decide⟩
  · intro hv hs hc
    obtain ⟨h1, _⟩ := execBody_registerAll callee typeName self s0 (.result make) calls σ hv hs hc
    rw [h1]
    simp only [execBody, app_applyAll]
  · intro hv hs
    obtain ⟨h1, h2⟩ := own_slot_registration call σ hv self hs
    refine ⟨h1, h2, ?_⟩
    have halive : σ.heap.alive self = true := (hv call.slot self hs).1
    simp only [execBody, halive, if_true, h1]
    rfl

end ioc
